import Mathlib

/-!
Asset marketplace chaincode (`trader.go`, `asset.go`, `chaincode.go`)

A shallow embedding of the chaincode's transaction logic.

* A Go `string` is a sequence of bytes (`GoString`); parameters, names and
  identifiers are such sequences and need not be valid UTF-8.
* The world state reached through `shim.ChaincodeStubInterface` is a pair of
  association lists, one per composite-key namespace (`TRADER`, `ASSET`), from the
  key's single attribute to the record stored there.  A stored record is kept as
  `json.Unmarshal` returns it.  Writing goes through `json.Marshal`, which replaces
  every byte of a string field that is not part of a valid UTF-8 encoding by
  U+FFFD: `Trader.json` and `Asset.json` give the record that is read back.
* `CreateCompositeKey` rejects an attribute that is not valid UTF-8 or holds
  U+0000 or U+10FFFF.  This depends on the attribute alone and is part of the
  model of every function that builds a key.
* Every platform call that returns an `error` in Go for reasons outside the
  chaincode (`GetCreator`, `GetState`, `PutState`, the range scan) can fail in the
  model: `Faults` says which calls do, key by key.
  `PutState` takes effect at once, as in the shim's in-memory stub; the chaincode
  itself never undoes a write.
* `sha3.Sum256` is a parameter `h`; nothing below depends on which function it is.
* Go's `int` is the 64-bit two's-complement integer: `+=` and `-=` wrap.
-/

namespace Securitization

/-! ## Go integers -/

/-- Smallest value of Go's 64-bit `int`. -/
def minInt : Int := -(2 ^ 63)

/-- Largest value of Go's 64-bit `int`. -/
def maxInt : Int := 2 ^ 63 - 1

/-- The value an `int` variable holds after an arithmetic result `x`:
reduction to the signed 64-bit range (two's complement wrap-around). -/
def wrapInt (x : Int) : Int := (x + 2 ^ 63) % 2 ^ 64 - 2 ^ 63

/-- The result `x` is representable as an `int`. -/
def inIntRange (x : Int) : Prop := minInt ≤ x ∧ x ≤ maxInt

instance (x : Int) : Decidable (inIntRange x) := by
  unfold inIntRange; exact inferInstance

/-! ## Go strings -/

/-- A Go `string`: any sequence of bytes. -/
abbrev GoString := List UInt8

/-- The bytes of a string constant of the source (its UTF-8 encoding). -/
def bytesOf (s : String) : GoString := s.data.flatMap String.utf8EncodeChar

/-- A continuation byte of UTF-8: `0x80` to `0xBF`. -/
def isCont (b : UInt8) : Bool := decide (0x80 ≤ b.toNat ∧ b.toNat ≤ 0xBF)

/-- The number of bytes that follow the lead byte `b0` in a UTF-8 encoding, as
package `utf8` classifies lead bytes; `none` for a byte that starts no encoding
(`0x80` to `0xC1`, `0xF5` to `0xFF`). -/
def tailLen (b0 : UInt8) : Option Nat :=
  if b0.toNat < 0x80 then some 0
  else if 0xC2 ≤ b0.toNat ∧ b0.toNat ≤ 0xDF then some 1
  else if 0xE0 ≤ b0.toNat ∧ b0.toNat ≤ 0xEF then some 2
  else if 0xF0 ≤ b0.toNat ∧ b0.toNat ≤ 0xF4 then some 3
  else Option.none

/-- The bytes after the lead byte `b0` are acceptable: the first lies in the
range package `utf8` accepts after `b0` (which excludes over-long forms,
surrogates and values above U+10FFFF), the others are continuation bytes. -/
def tailOk (b0 : UInt8) : List UInt8 → Bool
  | [] => true
  | b1 :: rest =>
    decide ((if b0.toNat = 0xE0 then 0xA0 else if b0.toNat = 0xF0 then 0x90 else 0x80) ≤ b1.toNat ∧
      b1.toNat ≤ (if b0.toNat = 0xED then 0x9F else if b0.toNat = 0xF4 then 0x8F else 0xBF)) &&
    rest.all isCont

/-- The size of the valid UTF-8 encoding a string starts with, `0` if it starts
with none: Go's `utf8.DecodeRuneInString` returns `RuneError` with size 1 exactly
when this is `0` on a non-empty string. -/
def runeLen : GoString → Nat
  | [] => 0
  | b0 :: r =>
    match tailLen b0 with
    | Option.none => 0
    | some n => if (r.take n).length = n ∧ tailOk b0 (r.take n) = true then n + 1 else 0

/-- The string read back from the JSON form of a string, from a position that
has `k` more bytes of an encoding already accepted: each valid encoding is kept,
each other byte becomes the three bytes of U+FFFD. -/
def coerceFrom : Nat → GoString → GoString
  | _, [] => []
  | k + 1, b :: r => b :: coerceFrom k r
  | 0, b :: r =>
    match runeLen (b :: r) with
    | 0 => 0xEF :: 0xBF :: 0xBD :: coerceFrom 0 r
    | n + 1 => b :: coerceFrom n r

/-- The string `json.Unmarshal` returns for what `json.Marshal` wrote for `s`:
`s` coerced to valid UTF-8, every invalid byte replaced by U+FFFD. -/
def jsonString (s : GoString) : GoString := coerceFrom 0 s

/-- Validity from a position that has `k` more bytes of an encoding already
accepted. -/
def validFrom : Nat → GoString → Bool
  | _, [] => true
  | k + 1, _ :: r => validFrom k r
  | 0, b :: r =>
    match runeLen (b :: r) with
    | 0 => false
    | n + 1 => validFrom n r

/-- Go's `utf8.ValidString`. -/
def ValidString (s : GoString) : Bool := validFrom 0 s

/-- The check of `CreateCompositeKey` on an attribute, from a position that has
`k` more bytes of an encoding already accepted. -/
def attrFrom : Nat → GoString → Bool
  | _, [] => true
  | k + 1, _ :: r => attrFrom k r
  | 0, b :: r =>
    if b.toNat = 0 ∨ (b :: r).take 4 = [0xF4, 0x8F, 0xBF, 0xBF] then false
    else
      match runeLen (b :: r) with
      | 0 => false
      | n + 1 => attrFrom n r

/-- The shim's `validateCompositeKeyAttribute`: the attribute is valid UTF-8 and
holds neither U+0000 nor U+10FFFF. -/
def validAttr (s : GoString) : Bool := attrFrom 0 s

/-! ## Records, keys, errors -/

/-- Go `type Trader struct` of trader.go. -/
structure Trader where
  name : GoString
  id : GoString
  balance : Int
  deriving DecidableEq, Repr

/-- Go `type Asset struct` of asset.go. -/
structure Asset where
  name : GoString
  price : Int
  owner : GoString
  forSale : Bool
  deriving DecidableEq, Repr

/-- The trader `json.Unmarshal` returns for `json.Marshal(t)`. -/
def Trader.json (t : Trader) : Trader :=
  { name := jsonString t.name, id := jsonString t.id, balance := t.balance }

/-- The asset `json.Unmarshal` returns for `json.Marshal(a)`. -/
def Asset.json (a : Asset) : Asset :=
  { name := jsonString a.name, price := a.price, owner := jsonString a.owner,
    forSale := a.forSale }

/-- A composite key of one of the two object types the chaincode uses (`TRADER`,
`ASSET`), given by its single attribute. -/
inductive Key where
  | trader (id : GoString)
  | asset (id : GoString)
  deriving DecidableEq, Repr

/-- The Go `error` values the chaincode can return. -/
inductive Err where
  /-- An error built by `fmt.Errorf` in the chaincode, with its message. -/
  | msg (text : GoString)
  /-- The error of `strconv.Atoi` on the given string. -/
  | atoi (s : GoString)
  /-- The error of `CreateCompositeKey` on the given attribute. -/
  | compositeKey (attr : GoString)
  /-- The error of `stub.GetCreator`. -/
  | getCreator
  /-- The error of `stub.GetState` on a key. -/
  | getState (k : Key)
  /-- The error of `stub.PutState` on a key. -/
  | putState (k : Key)
  /-- The error of `stub.GetStateByPartialCompositeKey`. -/
  | rangeScan
  /-- The error of the iterator's `Next` at a key. -/
  | iterNext (k : Key)
  deriving DecidableEq, Repr

deriving instance DecidableEq for Except

/-! ## The stub -/

/-- Which platform calls fail. -/
structure Faults where
  creatorFails : Bool
  getFails : Key → Bool
  putFails : Key → Bool
  scanFails : Bool
  nextFails : Key → Bool

/-- The platform on which no call fails. -/
def Faults.none : Faults :=
  { creatorFails := false, getFails := fun _ => false, putFails := fun _ => false,
    scanFails := false, nextFails := fun _ => false }

/-- The world state: the records under the `TRADER` and the `ASSET` prefix, each
keyed by the attribute of its composite key. -/
structure Ledger where
  traders : List (GoString × Trader)
  assets : List (GoString × Asset)
  deriving DecidableEq, Repr

/-- The empty ledger. -/
def Ledger.empty : Ledger := { traders := [], assets := [] }

/-- What a `shim.ChaincodeStubInterface` value gives the chaincode during one
transaction: the submitter's credential bytes, the world state, and the failures
of the platform calls. -/
structure Stub where
  creator : List UInt8
  faults : Faults
  ledger : Ledger

/-- The record an association list holds for key `k` (the first, should the
list name `k` twice). -/
def getRec {α : Type} (k : GoString) : List (GoString × α) → Option α
  | [] => Option.none
  | (k', v) :: rest => if k' = k then some v else getRec k rest

/-- The association list after writing `v` under `k`: the entry for `k` is
replaced where it stands, or added at the end. -/
def putRec {α : Type} (k : GoString) (v : α) : List (GoString × α) → List (GoString × α)
  | [] => [(k, v)]
  | (k', v') :: rest => if k' = k then (k, v) :: rest else (k', v') :: putRec k v rest

/-- The shim's `CreateCompositeKey(objectType, []string{attr})` for the object
types `TRADER` and `ASSET`: an error when the attribute fails the shim's check,
otherwise the key.  The two object types are kept apart by the two maps of the
ledger, so the key is given by its attribute. -/
def CreateCompositeKey (attr : GoString) : Except Err GoString :=
  if validAttr attr = true then .ok attr else .error (.compositeKey attr)

/-- The call `stub.GetCreator()`. -/
def Stub.GetCreator (stub : Stub) : Except Err (List UInt8) :=
  if stub.faults.creatorFails then .error .getCreator else .ok stub.creator

/-- The call `stub.GetState(key)` on a `TRADER` key, with the bytes decoded;
`none` stands for `len(data) == 0`. -/
def Stub.GetTraderState (stub : Stub) (id : GoString) : Except Err (Option Trader) :=
  if stub.faults.getFails (.trader id) then .error (.getState (.trader id))
  else .ok (getRec id stub.ledger.traders)

/-- The call `stub.GetState(key)` on an `ASSET` key, with the bytes decoded;
`none` stands for `len(data) == 0`. -/
def Stub.GetAssetState (stub : Stub) (id : GoString) : Except Err (Option Asset) :=
  if stub.faults.getFails (.asset id) then .error (.getState (.asset id))
  else .ok (getRec id stub.ledger.assets)

/-- The call `stub.PutState(key, data)` on a `TRADER` key; `t` is the record the
data decodes to. -/
def Stub.PutTraderState (stub : Stub) (id : GoString) (t : Trader) : Except Err Stub :=
  if stub.faults.putFails (.trader id) then .error (.putState (.trader id))
  else .ok { stub with ledger := { stub.ledger with traders := putRec id t stub.ledger.traders } }

/-- The call `stub.PutState(key, data)` on an `ASSET` key; `a` is the record the
data decodes to. -/
def Stub.PutAssetState (stub : Stub) (id : GoString) (a : Asset) : Except Err Stub :=
  if stub.faults.putFails (.asset id) then .error (.putState (.asset id))
  else .ok { stub with ledger := { stub.ledger with assets := putRec id a stub.ledger.assets } }

/-! ## Library functions -/

/-- One lower-case hexadecimal digit. -/
def hexDigit (n : Nat) : UInt8 :=
  if n < 10 then UInt8.ofNat (48 + n) else UInt8.ofNat (87 + n)

/-- Go's `hex.EncodeToString`. -/
def hexEncode (bs : List UInt8) : GoString :=
  bs.flatMap fun b => [hexDigit (b.toNat / 16), hexDigit (b.toNat % 16)]

/-- A decimal digit, `'0'` to `'9'`. -/
def isDigit (b : UInt8) : Bool := decide (48 ≤ b.toNat ∧ b.toNat ≤ 57)

/-- The value of a string of decimal digits. -/
def digitsValue (ds : GoString) : Nat :=
  ds.foldl (fun acc c => 10 * acc + (c.toNat - 48)) 0

/-- Go's `strconv.Atoi`: an optional sign, then one or more decimal digits, the
value within the range of `int`. -/
def atoi (s : GoString) : Except Err Int :=
  let neg := s.head? = some 45
  let ds := if s.head? = some 45 ∨ s.head? = some 43 then s.tail else s
  if ds.isEmpty ∨ ¬ ds.all isDigit then .error (.atoi s)
  else
    let n := digitsValue ds
    if neg then (if n ≤ 2 ^ 63 then .ok (-(n : Int)) else .error (.atoi s))
    else (if n < 2 ^ 63 then .ok (n : Int) else .error (.atoi s))

/-! ## trader.go -/

/-- Go `func (t *Trader) Store(stub)`: the key is made from the record's own `ID`
field, and the record is written in its JSON form. -/
def Trader.Store (t : Trader) (stub : Stub) : Except Err Stub :=
  match CreateCompositeKey t.id with
  | .error e => .error e
  | .ok key => stub.PutTraderState key t.json

/-- Go `func getID(stub)`: the hex form of the 256-bit digest of the creator bytes. -/
def getID (h : List UInt8 → List UInt8) (stub : Stub) : Except Err GoString :=
  match stub.GetCreator with
  | .error e => .error e
  | .ok idBytes => .ok (hexEncode (h idBytes))

/-- Go `func GetTrader(stub, id)`. -/
def GetTrader (stub : Stub) (id : GoString) : Except Err (Option Trader) :=
  match CreateCompositeKey id with
  | .error e => .error e
  | .ok key => stub.GetTraderState key

/-- Go `func enroll(stub, params)`, with the stub it leaves behind. -/
def enroll (h : List UInt8 → List UInt8) (stub : Stub) (params : List GoString) :
    Except Err Unit × Stub :=
  match params with
  | [name] =>
    match getID h stub with
    | .error e => (.error e, stub)
    | .ok id =>
      match CreateCompositeKey id with
      | .error e => (.error e, stub)
      | .ok key =>
        match stub.GetTraderState key with
        | .error e => (.error e, stub)
        | .ok (some _) => (.error (.msg (bytesOf "already enrolled")), stub)
        | .ok Option.none =>
          match Trader.Store { name := name, id := id, balance := 10000 } stub with
          | .error e => (.error e, stub)
          | .ok stub1 => (.ok (), stub1)
  | _ =>
    (.error (.msg (bytesOf "expect 1 parameter (Name), but got "
      ++ bytesOf (toString params.length) ++ bytesOf ": ["
      ++ List.intercalate (bytesOf " ") params ++ bytesOf "]")), stub)

/-! ## asset.go -/

/-- Go `func (a *Asset) ID()`: the hex form of the first 8 bytes of the digest of
the name. -/
def Asset.ID (h : List UInt8 → List UInt8) (a : Asset) : GoString :=
  hexEncode ((h a.name).take 8)

/-- Go `func (a *Asset) Store(stub)`: the key is made from `a.ID()`, computed
from the name the record holds in memory, and the record is written in its JSON
form. -/
def Asset.Store (h : List UInt8 → List UInt8) (a : Asset) (stub : Stub) : Except Err Stub :=
  match CreateCompositeKey (a.ID h) with
  | .error e => .error e
  | .ok key => stub.PutAssetState key a.json

/-- Go `func GetAsset(stub, id)`. -/
def GetAsset (stub : Stub) (id : GoString) : Except Err (Option Asset) :=
  match CreateCompositeKey id with
  | .error e => .error e
  | .ok key => stub.GetAssetState key

/-- Go `func create(stub, params)`, with the stub it leaves behind. -/
def create (h : List UInt8 → List UInt8) (stub : Stub) (params : List GoString) :
    Except Err Unit × Stub :=
  match params with
  | [name] =>
    match getID h stub with
    | .error e => (.error e, stub)
    | .ok id =>
      match GetTrader stub id with
      | .error e => (.error e, stub)
      | .ok Option.none => (.error (.msg (bytesOf "trader not exist")), stub)
      | .ok (some _) =>
        match Asset.Store h { name := name, price := 0, owner := id, forSale := false } stub with
        | .error e => (.error e, stub)
        | .ok stub1 => (.ok (), stub1)
  | _ =>
    (.error (.msg (bytesOf "expect 1 parameter, got " ++ bytesOf (toString params.length))), stub)

/-- Go `func sell(stub, params)`, with the stub it leaves behind. -/
def sell (h : List UInt8 → List UInt8) (stub : Stub) (params : List GoString) :
    Except Err Unit × Stub :=
  match params with
  | [a, p] =>
    match atoi p with
    | .error e => (.error e, stub)
    | .ok price =>
      match getID h stub with
      | .error e => (.error e, stub)
      | .ok id =>
        match GetTrader stub id with
        | .error e => (.error e, stub)
        | .ok Option.none => (.error (.msg (bytesOf "trader not exist")), stub)
        | .ok (some _) =>
          match CreateCompositeKey a with
          | .error e => (.error e, stub)
          | .ok key =>
            match stub.GetAssetState key with
            | .error e => (.error e, stub)
            | .ok Option.none => (.error (.msg (bytesOf "asset does not exist")), stub)
            | .ok (some asset) =>
              if asset.owner ≠ id then
                (.error (.msg (bytesOf "asset does not belong to you")), stub)
              else
                match Asset.Store h { asset with price := price, forSale := true } stub with
                | .error e => (.error e, stub)
                | .ok stub1 => (.ok (), stub1)
  | _ => (.error (.msg (bytesOf "expect 2 params, got " ++ bytesOf (toString params.length))), stub)

/-- Go `func buy(stub, params)`, with the stub it leaves behind. -/
def buy (h : List UInt8 → List UInt8) (stub : Stub) (params : List GoString) :
    Except Err Unit × Stub :=
  match params with
  | [a] =>
    match getID h stub with
    | .error e => (.error e, stub)
    | .ok id =>
      match GetTrader stub id with
      | .error e => (.error e, stub)
      | .ok Option.none => (.error (.msg (bytesOf "buyer not exist")), stub)
      | .ok (some buyer) =>
        match GetAsset stub a with
        | .error e => (.error e, stub)
        | .ok Option.none => (.error (.msg (bytesOf "asset not exist")), stub)
        | .ok (some asset) =>
          if asset.owner = id then (.error (.msg (bytesOf "cannot buy your own asset")), stub)
          else if asset.forSale = false then (.error (.msg (bytesOf "asset not for sale")), stub)
          else if buyer.balance < asset.price then
            (.error (.msg (bytesOf "not enough balance")), stub)
          else
            match GetTrader stub asset.owner with
            | .error e => (.error e, stub)
            | .ok Option.none => (.error (.msg (bytesOf "seller not exist")), stub)
            | .ok (some seller) =>
              match Trader.Store { buyer with balance := wrapInt (buyer.balance - asset.price) }
                  stub with
              | .error e => (.error e, stub)
              | .ok stub1 =>
                match Trader.Store
                    { seller with balance := wrapInt (seller.balance + asset.price) } stub1 with
                | .error e => (.error e, stub1)
                | .ok stub2 =>
                  match Asset.Store h { asset with forSale := false } stub2 with
                  | .error e => (.error e, stub2)
                  | .ok stub3 => (.ok (), stub3)
  | _ => (.error (.msg (bytesOf "expect 1 param, got " ++ bytesOf (toString params.length))), stub)

/-! ## chaincode.go -/

/-- The value `list` serialises: the caller's record and the map from asset id
to asset. -/
structure Snapshot where
  trader : Trader
  assets : List (GoString × Asset)
  deriving DecidableEq, Repr

/-- The loop of `list` over the iterator: each entry read is put into the map
under the attribute of its key. -/
def scanLoop (stub : Stub) : List (GoString × Asset) → List (GoString × Asset) →
    Except Err (List (GoString × Asset))
  | [], acc => .ok acc
  | (k, a) :: rest, acc =>
    if stub.faults.nextFails (.asset k) then .error (.iterNext (.asset k))
    else scanLoop stub rest (putRec k a acc)

/-- Go `func list(stub)`. -/
def list (h : List UInt8 → List UInt8) (stub : Stub) : Except Err Snapshot :=
  match getID h stub with
  | .error e => .error e
  | .ok id =>
    match GetTrader stub id with
    | .error e => .error e
    | .ok Option.none => .error (.msg (bytesOf "trader not exist"))
    | .ok (some trader) =>
      if stub.faults.scanFails then .error .rangeScan
      else
        match scanLoop stub stub.ledger.assets [] with
        | .error e => .error e
        | .ok assets => .ok { trader := trader, assets := assets }

/-- The `sc.Response` of an invocation. -/
inductive Response where
  | success (payload : Option Snapshot)
  | error (e : Err)
  deriving DecidableEq, Repr

/-- The body shared by the wrappers `Enroll`, `Create`, `Sell`, `Buy`: the
error, if any, becomes `shim.Error`, otherwise the response is `shim.Success(nil)`. -/
def respond (r : Except Err Unit × Stub) : Response × Stub :=
  match r.1 with
  | .error e => (.error e, r.2)
  | .ok _ => (.success Option.none, r.2)

/-- Go `func Enroll(stub, params)`. -/
def Enroll (h : List UInt8 → List UInt8) (stub : Stub) (params : List GoString) :
    Response × Stub :=
  respond (enroll h stub params)

/-- Go `func Create(stub, params)`. -/
def Create (h : List UInt8 → List UInt8) (stub : Stub) (params : List GoString) :
    Response × Stub :=
  respond (create h stub params)

/-- Go `func Sell(stub, params)`. -/
def Sell (h : List UInt8 → List UInt8) (stub : Stub) (params : List GoString) :
    Response × Stub :=
  respond (sell h stub params)

/-- Go `func Buy(stub, params)`. -/
def Buy (h : List UInt8 → List UInt8) (stub : Stub) (params : List GoString) :
    Response × Stub :=
  respond (buy h stub params)

/-- Go `func List(stub)` (named `ListCmd` here, `List` being the list type). -/
def ListCmd (h : List UInt8 → List UInt8) (stub : Stub) : Response × Stub :=
  match list h stub with
  | .error e => (.error e, stub)
  | .ok s => (.success (some s), stub)

/-- Go `func (cc *Chaincode) Invoke(stub)`, on the function name and parameters
that `GetFunctionAndParameters` returns. -/
def Invoke (h : List UInt8 → List UInt8) (stub : Stub) (fcn : GoString)
    (params : List GoString) : Response × Stub :=
  if fcn = bytesOf "enroll" then Enroll h stub params
  else if fcn = bytesOf "list" then ListCmd h stub
  else if fcn = bytesOf "create" then Create h stub params
  else if fcn = bytesOf "sell" then Sell h stub params
  else if fcn = bytesOf "buy" then Buy h stub params
  else (.error (.msg (bytesOf "Unexpected method: " ++ fcn)), stub)

/-- The ledgers that transactions produce from the empty ledger: each step is
one invocation, by any submitter, of any function on any parameters, on the
platform whose calls succeed. -/
inductive Reachable (h : List UInt8 → List UInt8) : Ledger → Prop where
  | empty : Reachable h Ledger.empty
  | step (l : Ledger) (creator : List UInt8) (fcn : GoString) (params : List GoString) :
      Reachable h l →
      Reachable h (Invoke h { creator := creator, faults := Faults.none, ledger := l }
        fcn params).2.ledger

/-- Every trader record is stored as `Trader.Store` stores it: in the form the
JSON codec returns, under the key made from its own `ID` field. -/
def TradersKeyed (l : Ledger) : Prop :=
  ∀ p ∈ l.traders, p.2.json = p.2 ∧ CreateCompositeKey p.2.id = .ok p.1

/-- Every asset record is stored as `Asset.Store` stores it: in the form the
JSON codec returns, under the key made from the `ID()` of the record. -/
def AssetsKeyed (h : List UInt8 → List UInt8) (l : Ledger) : Prop :=
  ∀ p ∈ l.assets, p.2.json = p.2 ∧ CreateCompositeKey (p.2.ID h) = .ok p.1

/-- Every record of the ledger is stored under the key its own content gives,
as `Store` stores it: a trader under its `ID` field, an asset under `ID()`. -/
def WellKeyed (h : List UInt8 → List UInt8) (l : Ledger) : Prop :=
  TradersKeyed l ∧ AssetsKeyed h l

instance (l : Ledger) : Decidable (TradersKeyed l) := by
  unfold TradersKeyed; exact inferInstance

instance (h : List UInt8 → List UInt8) (l : Ledger) : Decidable (AssetsKeyed h l) := by
  unfold AssetsKeyed; exact inferInstance

instance (h : List UInt8 → List UInt8) (l : Ledger) : Decidable (WellKeyed h l) := by
  unfold WellKeyed; exact inferInstance

/-- No state read of the stub fails. -/
def Stub.readsOk (stub : Stub) : Prop :=
  ∀ k, stub.faults.getFails k = false

/-- No state write of the stub fails. -/
def Stub.writesOk (stub : Stub) : Prop :=
  ∀ k, stub.faults.putFails k = false

/-! ## Concrete data for the examples

`demoSum` stands in for `sha3.Sum256` where an example has to be evaluated; the
submitters `alice` and `bob` then have the identifiers `41` and `42`, and the
asset named `Bike` the identifier `42696b65`. -/

/-- The stand-in digest of the examples: the bytes themselves. -/
def demoSum : List UInt8 → List UInt8 := fun b => b

/-- Credential bytes of the first submitter. -/
def aliceCred : List UInt8 := [65]

/-- Credential bytes of the second submitter. -/
def bobCred : List UInt8 := [66]

/-- A stub on the platform whose calls all succeed. -/
def reliableStub (creator : List UInt8) (l : Ledger) : Stub :=
  { creator := creator, faults := Faults.none, ledger := l }

/-- Both traders enrolled, `Bike` created by the first and on sale at `price`. -/
def marketLedger (price : Int) : Ledger :=
  { traders :=
      [(bytesOf "41", { name := bytesOf "alice", id := bytesOf "41", balance := 10000 }),
       (bytesOf "42", { name := bytesOf "bob", id := bytesOf "42", balance := 10000 })],
    assets :=
      [(bytesOf "42696b65",
        { name := bytesOf "Bike", price := price, owner := bytesOf "41", forSale := true })] }

/-- The second submitter's stub on the ledger where `Bike` is on sale at the
lowest `int`. -/
def overflowStub : Stub := reliableStub bobCred (marketLedger minInt)

/-- A ledger whose record under the key `42` carries another `ID` field; no
transaction of the chaincode writes such a record. -/
def misfiledLedger : Ledger :=
  { traders :=
      [(bytesOf "41", { name := bytesOf "alice", id := bytesOf "41", balance := 10000 }),
       (bytesOf "42", { name := bytesOf "bob", id := bytesOf "b0b", balance := 10000 })],
    assets :=
      [(bytesOf "42696b65",
        { name := bytesOf "Bike", price := 500, owner := bytesOf "41", forSale := true })] }

/-- The second submitter's stub on `misfiledLedger`. -/
def misfiledStub : Stub := reliableStub bobCred misfiledLedger

/-- The platform on which the write of the first submitter's record fails and
every other call succeeds. -/
def sellerWriteFails : Faults :=
  { Faults.none with putFails := fun k => decide (k = Key.trader (bytesOf "41")) }

/-- The second submitter's stub on the ledger where `Bike` is on sale at 500, on
the platform `sellerWriteFails`. -/
def faultyStub : Stub :=
  { creator := bobCred, faults := sellerWriteFails, ledger := marketLedger 500 }

/-- A name that is not valid UTF-8: the byte `0xFF`, then `Bike`. -/
def brokenName : GoString := 0xFF :: bytesOf "Bike"

/-- The name read back for `brokenName`: U+FFFD, then `Bike`. -/
def replacedName : GoString := 0xEF :: 0xBF :: 0xBD :: bytesOf "Bike"

/-- An identifier that holds U+0000: `a`, the zero byte, `b`. -/
def nulId : GoString := [97, 0, 98]

/-- The ledger after the first submitter has enrolled and created an asset with
the name `brokenName`: the record, named `replacedName`, is stored under the
identifier of `brokenName`. -/
def brokenLedger : Ledger :=
  { traders :=
      [(bytesOf "41", { name := bytesOf "alice", id := bytesOf "41", balance := 10000 })],
    assets :=
      [(bytesOf "ff42696b65",
        { name := replacedName, price := 0, owner := bytesOf "41", forSale := false })] }

/-! ## The stages of `buy` -/

/-- The stub after the first write of `buy`: the buyer record, with the price
taken off its balance, written under its own `ID`. -/
def afterBuyer (stub : Stub) (b : Trader) (asset : Asset) : Stub :=
  { stub with ledger :=
      { stub.ledger with traders :=
          (putRec b.id (Trader.json { b with balance := wrapInt (b.balance - asset.price) })
            stub.ledger.traders) } }

/-- The stub after the second write of `buy`: the seller record, with the price
added to its balance, written under its own `ID`. -/
def afterSeller (stub : Stub) (b s : Trader) (asset : Asset) : Stub :=
  { stub with ledger :=
      { stub.ledger with traders :=
          (putRec s.id (Trader.json { s with balance := wrapInt (s.balance + asset.price) })
            (putRec b.id (Trader.json { b with balance := wrapInt (b.balance - asset.price) })
              stub.ledger.traders)) } }

/-- The stub `buy` leaves when it passes its checks and its three writes
succeed: the buyer record, then the seller record, then the asset are written,
each under the key of its own content. -/
def afterBuy (h : List UInt8 → List UInt8) (stub : Stub) (b s : Trader) (asset : Asset) :
    Stub :=
  { stub with ledger :=
      { traders :=
          (putRec s.id (Trader.json { s with balance := wrapInt (s.balance + asset.price) })
            (putRec b.id (Trader.json { b with balance := wrapInt (b.balance - asset.price) })
              stub.ledger.traders)),
        assets :=
          (putRec (Asset.ID h { asset with forSale := false })
            (Asset.json { asset with forSale := false }) stub.ledger.assets) } }

/-- The checks of `buy` all pass: the caller `idB` is enrolled with record `b`,
the asset read under `a` is `asset`, owned by someone else, on sale, at a price
within the buyer's balance, and its owner is enrolled with record `s`. -/
def BuyChecksPass (h : List UInt8 → List UInt8) (stub : Stub) (a idB : GoString)
    (b s : Trader) (asset : Asset) : Prop :=
  getID h stub = .ok idB ∧
  GetTrader stub idB = .ok (some b) ∧
  GetAsset stub a = .ok (some asset) ∧
  asset.owner ≠ idB ∧ asset.forSale = true ∧ asset.price ≤ b.balance ∧
  GetTrader stub asset.owner = .ok (some s)

/-! ## Runs, keys, totals -/

/-- The keys of an association list, in the order of its entries. -/
def keysOf {α : Type} (m : List (GoString × α)) : List GoString := m.map Prod.fst

/-- The sum of the balances of all stored trader records. -/
def totalBalance (l : Ledger) : Int := (l.traders.map fun p => p.2.balance).sum

/-- One transaction: the submitter's credential bytes, the function name and
the parameters. -/
structure Tx where
  creator : List UInt8
  fcn : GoString
  params : List GoString

/-- The ledger after a sequence of transactions, each invoked on the platform
whose calls succeed. -/
def runTxs (h : List UInt8 → List UInt8) : Ledger → List Tx → Ledger
  | l, [] => l
  | l, tx :: rest =>
    runTxs h (Invoke h { creator := tx.creator, faults := Faults.none, ledger := l }
      tx.fcn tx.params).2.ledger rest

/-- The names given to the `create` transactions of a run that returned
success, in the order of the run, one for each such transaction. -/
def createdNames (h : List UInt8 → List UInt8) : Ledger → List Tx → List GoString
  | _, [] => []
  | l, tx :: rest =>
    let r := Invoke h { creator := tx.creator, faults := Faults.none, ledger := l }
      tx.fcn tx.params
    match tx.params with
    | [n] =>
      if tx.fcn = bytesOf "create" ∧ r.1 = .success Option.none then
        n :: createdNames h r.2.ledger rest
      else createdNames h r.2.ledger rest
    | _ => createdNames h r.2.ledger rest

/-- The identifier `ID()` computes for an asset with the name `n`. -/
def assetId (h : List UInt8 → List UInt8) (n : GoString) : GoString :=
  Asset.ID h { name := n, price := 0, owner := [], forSale := false }

/-- The asset ids of the `create` transactions of a run that returned success,
in the order of the run, one for each such transaction. -/
def createdIds (h : List UInt8 → List UInt8) (l : Ledger) (txs : List Tx) : List GoString :=
  (createdNames h l txs).map (assetId h)

/-- The owner of every stored asset has a trader record. -/
def OwnersEnrolled (l : Ledger) : Prop :=
  ∀ p ∈ l.assets, ∃ t, getRec p.2.owner l.traders = some t

/-- The first submitter enrolls and creates an asset with the name
`brokenName`. -/
def brokenRun : List Tx :=
  [{ creator := aliceCred, fcn := bytesOf "enroll", params := [bytesOf "alice"] },
   { creator := aliceCred, fcn := bytesOf "create", params := [brokenName] }]

/-- The four transactions that produce `marketLedger 500`: the first submitter
enrolls, creates `Bike` and puts it on sale at 500, the second enrolls. -/
def marketRun : List Tx :=
  [{ creator := aliceCred, fcn := bytesOf "enroll", params := [bytesOf "alice"] },
   { creator := aliceCred, fcn := bytesOf "create", params := [bytesOf "Bike"] },
   { creator := aliceCred, fcn := bytesOf "sell", params := [bytesOf "42696b65", bytesOf "500"] },
   { creator := bobCred, fcn := bytesOf "enroll", params := [bytesOf "bob"] }]

/-! ## Strings: UTF-8, the JSON codec, key attributes -/

theorem coerceFrom_of_valid (k : Nat) (s : GoString) (hv : validFrom k s = true) :
    coerceFrom k s = s := by
  induction s generalizing k with
  | nil => cases k <;> rfl
  | cons b r ih =>
    cases k with
    | succ k =>
      simp only [validFrom] at hv
      simp only [coerceFrom, ih k hv]
    | zero =>
      simp only [validFrom] at hv
      simp only [coerceFrom]
      cases hn : runeLen (b :: r) with
      | zero => rw [hn] at hv; simp at hv
      | succ n =>
        rw [hn] at hv
        simp only at hv ⊢
        rw [ih n hv]

theorem attrFrom_valid (k : Nat) (s : GoString) (hv : attrFrom k s = true) :
    validFrom k s = true := by
  induction s generalizing k with
  | nil => cases k <;> rfl
  | cons b r ih =>
    cases k with
    | succ k =>
      simp only [attrFrom] at hv
      simp only [validFrom, ih k hv]
    | zero =>
      simp only [attrFrom] at hv
      simp only [validFrom]
      split at hv
      · cases hv
      · cases hn : runeLen (b :: r) with
        | zero => rw [hn] at hv; simp at hv
        | succ n =>
          rw [hn] at hv
          simp only at hv ⊢
          exact ih n hv

theorem runeLen_replacement (x : GoString) : runeLen (0xEF :: 0xBF :: 0xBD :: x) = 3 := by
  have h1 : tailLen 0xEF = some 2 := by decide
  have h2 : tailOk 0xEF [0xBF, 0xBD] = true := by decide
  simp [runeLen, h1, h2]

theorem take_coerceFrom (n : Nat) (r : GoString) : (coerceFrom n r).take n = r.take n := by
  induction r generalizing n with
  | nil => cases n <;> rfl
  | cons b r ih =>
    cases n with
    | zero => simp
    | succ n => simp [coerceFrom, ih n]

theorem runeLen_coerce (b : UInt8) (r : GoString) (n : Nat)
    (hn : runeLen (b :: r) = n + 1) : runeLen (b :: coerceFrom n r) = n + 1 := by
  simp only [runeLen] at hn ⊢
  cases ht : tailLen b with
  | none => simp [ht] at hn
  | some m =>
    simp only [ht] at hn ⊢
    split at hn
    · have hm : m = n := by omega
      subst hm
      rename_i hc
      rw [take_coerceFrom, if_pos hc]
    · cases hn

/-- What the JSON codec returns is valid UTF-8. -/
theorem validFrom_coerceFrom (k : Nat) (s : GoString) : validFrom k (coerceFrom k s) = true := by
  induction s generalizing k with
  | nil => cases k <;> rfl
  | cons b r ih =>
    cases k with
    | succ k => simp only [coerceFrom, validFrom, ih k]
    | zero =>
      simp only [coerceFrom]
      cases hn : runeLen (b :: r) with
      | zero =>
        simp only [validFrom, runeLen_replacement]
        exact ih 0
      | succ n =>
        simp only [validFrom, runeLen_coerce b r n hn]
        exact ih n

/-- The JSON codec leaves a valid UTF-8 string as it is. -/
theorem jsonString_of_valid (s : GoString) (hv : ValidString s = true) : jsonString s = s :=
  coerceFrom_of_valid 0 s hv

theorem ValidString_jsonString (s : GoString) : ValidString (jsonString s) = true :=
  validFrom_coerceFrom 0 s

theorem jsonString_idem (s : GoString) : jsonString (jsonString s) = jsonString s :=
  jsonString_of_valid _ (ValidString_jsonString s)

theorem validAttr_valid (s : GoString) (hv : validAttr s = true) : ValidString s = true :=
  attrFrom_valid 0 s hv

theorem jsonString_of_validAttr (s : GoString) (hv : validAttr s = true) : jsonString s = s :=
  jsonString_of_valid s (validAttr_valid s hv)

theorem attrFrom_ascii (s : GoString) (hs : ∀ b ∈ s, 0 < b.toNat ∧ b.toNat < 0x80) :
    attrFrom 0 s = true := by
  induction s with
  | nil => rfl
  | cons b r ih =>
    have hb := hs b (List.mem_cons_self _ _)
    have ht : tailLen b = some 0 := by simp [tailLen, hb.2]
    have hr : runeLen (b :: r) = 1 := by simp [runeLen, ht, tailOk]
    have h0 : ¬ b.toNat = 0 := by omega
    have h4 : ¬ (b :: r).take 4 = [0xF4, 0x8F, 0xBF, 0xBF] := by
      intro hc
      have : b = 0xF4 := by
        simp only [List.take_succ_cons] at hc
        exact (List.cons.inj hc).1
      rw [this] at hb
      exact absurd hb.2 (by decide)
    simp only [attrFrom, h0, h4, or_self, if_false, hr]
    exact ih (fun x hx => hs x (List.mem_cons_of_mem _ hx))

theorem hexDigit_ascii (n : Nat) (hn : n < 16) :
    0 < (hexDigit n).toNat ∧ (hexDigit n).toNat < 0x80 := by
  interval_cases n <;> decide

theorem hexEncode_ascii (bs : List UInt8) :
    ∀ b ∈ hexEncode bs, 0 < b.toNat ∧ b.toNat < 0x80 := by
  intro b hb
  simp only [hexEncode, List.mem_flatMap, List.mem_cons, List.mem_singleton] at hb
  obtain ⟨x, _, hx⟩ := hb
  have hx1 : x.toNat / 16 < 16 := by
    have := x.toNat_lt
    omega
  have hx2 : x.toNat % 16 < 16 := Nat.mod_lt _ (by decide)
  rcases hx with rfl | hx
  · exact hexDigit_ascii _ hx1
  · rcases hx with rfl | hx
    · exact hexDigit_ascii _ hx2
    · simp at hx

/-- A hexadecimal string is accepted as a key attribute. -/
theorem validAttr_hexEncode (bs : List UInt8) : validAttr (hexEncode bs) = true :=
  attrFrom_ascii _ (hexEncode_ascii bs)

theorem jsonString_hexEncode (bs : List UInt8) : jsonString (hexEncode bs) = hexEncode bs :=
  jsonString_of_validAttr _ (validAttr_hexEncode bs)

theorem Trader.json_json (t : Trader) : t.json.json = t.json := by
  simp [Trader.json, jsonString_idem]

theorem Asset.json_twice (a : Asset) : a.json.json = a.json := by
  simp [Asset.json, jsonString_idem]

theorem CreateCompositeKey_ok {a : GoString} (ha : validAttr a = true) :
    CreateCompositeKey a = .ok a := by
  simp [CreateCompositeKey, ha]

theorem CreateCompositeKey_bad {a : GoString} (ha : validAttr a = false) :
    CreateCompositeKey a = .error (.compositeKey a) := by
  simp [CreateCompositeKey, ha]

theorem CreateCompositeKey_hex (bs : List UInt8) :
    CreateCompositeKey (hexEncode bs) = .ok (hexEncode bs) :=
  CreateCompositeKey_ok (validAttr_hexEncode bs)

theorem CreateCompositeKey_eq_ok {a k : GoString} (hk : CreateCompositeKey a = .ok k) :
    k = a ∧ validAttr a = true := by
  unfold CreateCompositeKey at hk
  split at hk
  · rename_i hv
    cases hk
    exact ⟨rfl, hv⟩
  · cases hk

theorem CreateCompositeKey_assetID (h : List UInt8 → List UInt8) (a : Asset) :
    CreateCompositeKey (a.ID h) = .ok (a.ID h) :=
  CreateCompositeKey_hex _

/-! ## Association lists -/

theorem getRec_putRec_self {α : Type} (k : GoString) (v : α) (m : List (GoString × α)) :
    getRec k (putRec k v m) = some v := by
  induction m with
  | nil => simp [putRec, getRec]
  | cons p rest ih =>
    obtain ⟨k', v'⟩ := p
    by_cases hk : k' = k
    · simp [putRec, getRec, hk]
    · simp [putRec, getRec, hk, ih]

theorem getRec_putRec_ne {α : Type} (k k' : GoString) (v : α) (m : List (GoString × α))
    (hne : k' ≠ k) : getRec k' (putRec k v m) = getRec k' m := by
  induction m with
  | nil => simp [putRec, getRec, Ne.symm hne]
  | cons p rest ih =>
    obtain ⟨k1, v1⟩ := p
    by_cases hk : k1 = k
    · subst hk
      simp [putRec, getRec, Ne.symm hne]
    · by_cases hk' : k1 = k'
      · subst hk'
        simp [putRec, getRec, hk]
      · simp [putRec, getRec, hk, hk', ih]

theorem mem_putRec {α : Type} (k : GoString) (v : α) (m : List (GoString × α))
    (x : GoString × α) (hx : x ∈ putRec k v m) : x = (k, v) ∨ x ∈ m := by
  induction m with
  | nil => simpa [putRec] using hx
  | cons p rest ih =>
    obtain ⟨k1, v1⟩ := p
    by_cases hk : k1 = k
    · simp only [putRec, hk, if_true, List.mem_cons] at hx
      rcases hx with hx | hx
      · exact Or.inl hx
      · exact Or.inr (List.mem_cons_of_mem _ hx)
    · simp only [putRec, hk, if_false, List.mem_cons] at hx
      rcases hx with hx | hx
      · exact Or.inr (by simp [hx])
      · rcases ih hx with h1 | h1
        · exact Or.inl h1
        · exact Or.inr (List.mem_cons_of_mem _ h1)

theorem getRec_mem {α : Type} (k : GoString) (v : α) (m : List (GoString × α))
    (hget : getRec k m = some v) : (k, v) ∈ m := by
  induction m with
  | nil => simp [getRec] at hget
  | cons p rest ih =>
    obtain ⟨k1, v1⟩ := p
    by_cases hk : k1 = k
    · simp [getRec, hk] at hget
      simp [hk, hget]
    · simp [getRec, hk] at hget
      exact List.mem_cons_of_mem _ (ih hget)

theorem wrapInt_of_inIntRange (x : Int) (hx : inIntRange x) : wrapInt x = x := by
  unfold inIntRange minInt maxInt at hx
  unfold wrapInt
  have h1 : (x + 2 ^ 63) % 2 ^ 64 = x + 2 ^ 63 := by
    apply Int.emod_eq_of_lt <;> omega
  omega

theorem getRec_putRec_isSome {α : Type} (k k' : GoString) (v : α) (m : List (GoString × α))
    (hk : ∃ t, getRec k m = some t) : ∃ t, getRec k (putRec k' v m) = some t := by
  by_cases hkk : k = k'
  · subst hkk
    exact ⟨v, getRec_putRec_self _ _ _⟩
  · rw [getRec_putRec_ne _ _ _ _ hkk]
    exact hk

theorem getRec_none_iff {α : Type} (k : GoString) (m : List (GoString × α)) :
    getRec k m = Option.none ↔ k ∉ keysOf m := by
  induction m with
  | nil => simp [getRec, keysOf]
  | cons p rest ih =>
    obtain ⟨k1, v1⟩ := p
    by_cases hk : k1 = k
    · simp [getRec, keysOf, hk]
    · have hk' : ¬ k = k1 := fun hc => hk hc.symm
      simp only [getRec, hk, if_false, ih]
      simp [keysOf, hk']

theorem keysOf_putRec_of_some {α : Type} (k : GoString) (v old : α) (m : List (GoString × α))
    (hget : getRec k m = some old) : keysOf (putRec k v m) = keysOf m := by
  induction m with
  | nil => simp [getRec] at hget
  | cons p rest ih =>
    obtain ⟨k1, v1⟩ := p
    by_cases hk : k1 = k
    · simp [putRec, keysOf, hk]
    · simp only [getRec, hk, if_false] at hget
      have := ih hget
      simp only [keysOf] at this
      simp [putRec, keysOf, hk, this]

theorem keysOf_putRec_of_none {α : Type} (k : GoString) (v : α) (m : List (GoString × α))
    (hget : getRec k m = Option.none) : keysOf (putRec k v m) = keysOf m ++ [k] := by
  induction m with
  | nil => simp [putRec, keysOf]
  | cons p rest ih =>
    obtain ⟨k1, v1⟩ := p
    by_cases hk : k1 = k
    · simp [getRec, hk] at hget
    · simp only [getRec, hk, if_false] at hget
      have := ih hget
      simp only [keysOf] at this
      simp [putRec, keysOf, hk, this]

theorem putRec_of_none {α : Type} (k : GoString) (v : α) (m : List (GoString × α))
    (hget : getRec k m = Option.none) : putRec k v m = m ++ [(k, v)] := by
  induction m with
  | nil => simp [putRec]
  | cons p rest ih =>
    obtain ⟨k1, v1⟩ := p
    by_cases hk : k1 = k
    · simp [getRec, hk] at hget
    · simp only [getRec, hk, if_false] at hget
      simp [putRec, hk, ih hget]

theorem length_keysOf {α : Type} (m : List (GoString × α)) : (keysOf m).length = m.length := by
  simp [keysOf]

theorem sum_putRec_of_some (k : GoString) (v old : Trader) (m : List (GoString × Trader))
    (hget : getRec k m = some old) :
    ((putRec k v m).map fun p => p.2.balance).sum
      = (m.map fun p => p.2.balance).sum - old.balance + v.balance := by
  induction m with
  | nil => simp [getRec] at hget
  | cons p rest ih =>
    obtain ⟨k1, v1⟩ := p
    by_cases hk : k1 = k
    · simp only [getRec, hk, if_true, Option.some.injEq] at hget
      subst hget
      simp [putRec, hk]
      ring
    · simp only [getRec, hk, if_false] at hget
      have := ih hget
      simp only [putRec, hk, if_false, List.map_cons, List.sum_cons, this]
      ring

theorem sum_putRec_of_none (k : GoString) (v : Trader) (m : List (GoString × Trader))
    (hget : getRec k m = Option.none) :
    ((putRec k v m).map fun p => p.2.balance).sum
      = (m.map fun p => p.2.balance).sum + v.balance := by
  rw [putRec_of_none k v m hget]
  simp

theorem wrapInt_dvd (x : Int) : (2 ^ 64 : Int) ∣ wrapInt x - x := by
  unfold wrapInt
  have h1 := Int.emod_add_ediv (x + 2 ^ 63) (2 ^ 64)
  exact ⟨-((x + 2 ^ 63) / 2 ^ 64), by linarith⟩

/-! ## Keys and lookups -/

theorem Asset.ID_forSale (h : List UInt8 → List UInt8) (asset : Asset) (f : Bool) :
    Asset.ID h { asset with forSale := f } = Asset.ID h asset := rfl

theorem Asset.ID_json (h : List UInt8 → List UInt8) (a : Asset)
    (hn : jsonString a.name = a.name) : a.json.ID h = a.ID h := by
  simp [Asset.ID, Asset.json, hn]

theorem getID_ok {h : List UInt8 → List UInt8} {stub : Stub} {id : GoString}
    (hid : getID h stub = .ok id) : id = hexEncode (h stub.creator) := by
  unfold getID Stub.GetCreator at hid
  split at hid
  · cases hid
  · rename_i idBytes hc
    split at hc
    · cases hc
    · cases hc
      cases hid
      rfl

theorem getID_validAttr {h : List UInt8 → List UInt8} {stub : Stub} {id : GoString}
    (hid : getID h stub = .ok id) : validAttr id = true := by
  rw [getID_ok hid]
  exact validAttr_hexEncode _

theorem GetTrader_some {stub : Stub} {k : GoString} {t : Trader}
    (hget : GetTrader stub k = .ok (some t)) : getRec k stub.ledger.traders = some t := by
  unfold GetTrader at hget
  split at hget
  · cases hget
  · rename_i key hk
    obtain ⟨rfl, _⟩ := CreateCompositeKey_eq_ok hk
    unfold Stub.GetTraderState at hget
    split at hget
    · cases hget
    · simpa using hget

theorem GetTrader_valid {stub : Stub} {k : GoString} {o : Option Trader}
    (hget : GetTrader stub k = .ok o) : validAttr k = true := by
  unfold GetTrader at hget
  split at hget
  · cases hget
  · rename_i key hk
    exact (CreateCompositeKey_eq_ok hk).2

theorem GetAsset_some {stub : Stub} {k : GoString} {a : Asset}
    (hget : GetAsset stub k = .ok (some a)) : getRec k stub.ledger.assets = some a := by
  unfold GetAsset at hget
  split at hget
  · cases hget
  · rename_i key hk
    obtain ⟨rfl, _⟩ := CreateCompositeKey_eq_ok hk
    unfold Stub.GetAssetState at hget
    split at hget
    · cases hget
    · simpa using hget

theorem GetAsset_valid {stub : Stub} {k : GoString} {o : Option Asset}
    (hget : GetAsset stub k = .ok o) : validAttr k = true := by
  unfold GetAsset at hget
  split at hget
  · cases hget
  · rename_i key hk
    exact (CreateCompositeKey_eq_ok hk).2

/-- With working reads, `GetTrader` at an identifier the store accepts as a key
returns what the ledger holds. -/
theorem GetTrader_of {stub : Stub} (hreads : stub.readsOk) {k : GoString}
    (hk : validAttr k = true) : GetTrader stub k = .ok (getRec k stub.ledger.traders) := by
  simp [GetTrader, CreateCompositeKey_ok hk, Stub.GetTraderState, hreads _]

/-- With working reads, `GetAsset` at an identifier the store accepts as a key
returns what the ledger holds. -/
theorem GetAsset_of {stub : Stub} (hreads : stub.readsOk) {k : GoString}
    (hk : validAttr k = true) : GetAsset stub k = .ok (getRec k stub.ledger.assets) := by
  simp [GetAsset, CreateCompositeKey_ok hk, Stub.GetAssetState, hreads _]

theorem TradersKeyed.trader {l : Ledger} (hk : TradersKeyed l) {k : GoString} {t : Trader}
    (hget : getRec k l.traders = some t) : t.json = t ∧ t.id = k ∧ validAttr k = true := by
  obtain ⟨h1, h2⟩ := hk (k, t) (getRec_mem k t l.traders hget)
  obtain ⟨h3, h4⟩ := CreateCompositeKey_eq_ok h2
  have h5 : k = t.id := h3
  exact ⟨h1, h5.symm, by rw [h5]; exact h4⟩

theorem AssetsKeyed.asset {h : List UInt8 → List UInt8} {l : Ledger} (hk : AssetsKeyed h l)
    {k : GoString} {a : Asset} (hget : getRec k l.assets = some a) :
    a.json = a ∧ a.ID h = k := by
  obtain ⟨h1, h2⟩ := hk (k, a) (getRec_mem k a l.assets hget)
  exact ⟨h1, (CreateCompositeKey_eq_ok h2).1.symm⟩

theorem Trader.json_balance (t : Trader) (x : Int) (ht : t.json = t) :
    Trader.json { t with balance := x } = { t with balance := x } := by
  have h1 : jsonString t.name = t.name := congrArg Trader.name ht
  have h2 : jsonString t.id = t.id := congrArg Trader.id ht
  simp [Trader.json, h1, h2]

theorem Asset.json_update (a : Asset) (x : Int) (f : Bool) (ha : a.json = a) :
    Asset.json { a with price := x, forSale := f } = { a with price := x, forSale := f } := by
  have h1 : jsonString a.name = a.name := congrArg Asset.name ha
  have h2 : jsonString a.owner = a.owner := congrArg Asset.owner ha
  simp [Asset.json, h1, h2]

theorem Asset.json_forSale (a : Asset) (f : Bool) (ha : a.json = a) :
    Asset.json { a with forSale := f } = { a with forSale := f } := by
  have h1 : jsonString a.name = a.name := congrArg Asset.name ha
  have h2 : jsonString a.owner = a.owner := congrArg Asset.owner ha
  simp [Asset.json, h1, h2]

/-! ## `buy`: the successful path -/

/-- The runs of `buy [a]`: it returns an error having written nothing, or the
checks pass, the buyer record is written, and it stops at the second write (the
key of the seller record refused, or `PutState` failing), at a failing third
write, or succeeds. -/
theorem buy_cases (h : List UInt8 → List UInt8) (stub : Stub) (a : GoString) :
    (∃ e, buy h stub [a] = (.error e, stub)) ∨
    ∃ idB b s asset, BuyChecksPass h stub a idB b s asset ∧
      validAttr b.id = true ∧ stub.faults.putFails (.trader b.id) = false ∧
      ((validAttr s.id = false ∧
          buy h stub [a] = (.error (.compositeKey s.id), afterBuyer stub b asset)) ∨
        (validAttr s.id = true ∧ stub.faults.putFails (.trader s.id) = true ∧
          buy h stub [a] = (.error (.putState (.trader s.id)), afterBuyer stub b asset)) ∨
        (validAttr s.id = true ∧ stub.faults.putFails (.trader s.id) = false ∧
          stub.faults.putFails (.asset (Asset.ID h asset)) = true ∧
          buy h stub [a]
            = (.error (.putState (.asset (Asset.ID h asset))), afterSeller stub b s asset)) ∨
        (validAttr s.id = true ∧ stub.faults.putFails (.trader s.id) = false ∧
          stub.faults.putFails (.asset (Asset.ID h asset)) = false ∧
          buy h stub [a] = (.ok (), afterBuy h stub b s asset))) := by
  cases hid : getID h stub with
  | error e => exact Or.inl ⟨e, by simp [buy, hid]⟩
  | ok idB =>
  cases hb : GetTrader stub idB with
  | error e => exact Or.inl ⟨e, by simp [buy, hid, hb]⟩
  | ok ob =>
  cases ob with
  | none => exact Or.inl ⟨.msg (bytesOf "buyer not exist"), by simp [buy, hid, hb]⟩
  | some b =>
  cases ha : GetAsset stub a with
  | error e => exact Or.inl ⟨e, by simp [buy, hid, hb, ha]⟩
  | ok oa =>
  cases oa with
  | none => exact Or.inl ⟨.msg (bytesOf "asset not exist"), by simp [buy, hid, hb, ha]⟩
  | some asset =>
  by_cases hown : asset.owner = idB
  · exact Or.inl ⟨.msg (bytesOf "cannot buy your own asset"), by simp [buy, hid, hb, ha, hown]⟩
  by_cases hsale : asset.forSale = false
  · exact Or.inl ⟨.msg (bytesOf "asset not for sale"), by simp [buy, hid, hb, ha, hown, hsale]⟩
  by_cases hbal : b.balance < asset.price
  · exact Or.inl ⟨.msg (bytesOf "not enough balance"),
      by simp [buy, hid, hb, ha, hown, hsale, hbal]⟩
  cases hs : GetTrader stub asset.owner with
  | error e => exact Or.inl ⟨e, by simp [buy, hid, hb, ha, hown, hsale, hbal, hs]⟩
  | ok os =>
  cases os with
  | none =>
    exact Or.inl ⟨.msg (bytesOf "seller not exist"),
      by simp [buy, hid, hb, ha, hown, hsale, hbal, hs]⟩
  | some s =>
  cases hv1 : validAttr b.id with
  | false =>
    exact Or.inl ⟨.compositeKey b.id, by simp [buy, hid, hb, ha, hown, hsale, hbal, hs,
      Trader.Store, CreateCompositeKey, hv1]⟩
  | true =>
  cases hw1 : stub.faults.putFails (.trader b.id) with
  | true =>
    exact Or.inl ⟨.putState (.trader b.id), by simp [buy, hid, hb, ha, hown, hsale, hbal, hs,
      Trader.Store, CreateCompositeKey, hv1, Stub.PutTraderState, hw1]⟩
  | false =>
  have hsale' : asset.forSale = true := by simpa using hsale
  refine Or.inr ⟨idB, b, s, asset, ⟨hid, hb, ha, hown, hsale', not_lt.mp hbal, hs⟩, hv1, hw1, ?_⟩
  cases hv2 : validAttr s.id with
  | false =>
    exact Or.inl ⟨rfl, by simp [buy, hid, hb, ha, hown, hsale, hbal, hs, Trader.Store,
      CreateCompositeKey, hv1, hv2, Stub.PutTraderState, hw1, afterBuyer]⟩
  | true =>
  cases hw2 : stub.faults.putFails (.trader s.id) with
  | true =>
    exact Or.inr (Or.inl ⟨rfl, rfl, by simp [buy, hid, hb, ha, hown, hsale, hbal, hs,
      Trader.Store, CreateCompositeKey, hv1, hv2, Stub.PutTraderState, hw1, hw2, afterBuyer]⟩)
  | false =>
  have hv3 : validAttr (Asset.ID h asset) = true := validAttr_hexEncode _
  cases hw3 : stub.faults.putFails (.asset (Asset.ID h asset)) with
  | true =>
    exact Or.inr (Or.inr (Or.inl ⟨rfl, rfl, rfl, by simp [buy, hid, hb, ha, hown, hsale, hbal,
      hs, Trader.Store, Asset.Store, CreateCompositeKey, hv1, hv2, hv3, Stub.PutTraderState,
      Stub.PutAssetState, hw1, hw2, hw3, Asset.ID_forSale, afterSeller]⟩))
  | false =>
    exact Or.inr (Or.inr (Or.inr ⟨rfl, rfl, rfl, by simp [buy, hid, hb, ha, hown, hsale, hbal,
      hs, Trader.Store, Asset.Store, CreateCompositeKey, hv1, hv2, hv3, Stub.PutTraderState,
      Stub.PutAssetState, hw1, hw2, hw3, Asset.ID_forSale, afterBuy]⟩))

theorem buy_of_checks (h : List UInt8 → List UInt8) (stub : Stub) (a idB : GoString)
    (b s : Trader) (asset : Asset)
    (hreads : stub.readsOk) (hwrites : stub.writesOk)
    (hid : getID h stub = .ok idB)
    (hb : getRec idB stub.ledger.traders = some b)
    (ha : getRec a stub.ledger.assets = some asset)
    (hown : asset.owner ≠ idB) (hsale : asset.forSale = true)
    (hbal : asset.price ≤ b.balance)
    (hs : getRec asset.owner stub.ledger.traders = some s)
    (hva : validAttr a = true) (hvo : validAttr asset.owner = true)
    (hvb : validAttr b.id = true) (hvs : validAttr s.id = true) :
    buy h stub [a] = (.ok (), afterBuy h stub b s asset) := by
  have hnb : ¬ b.balance < asset.price := not_lt.mpr hbal
  have hvi : validAttr idB = true := getID_validAttr hid
  have hv3 : validAttr (Asset.ID h asset) = true := validAttr_hexEncode _
  simp [buy, hid, GetTrader_of hreads hvi, GetAsset_of hreads hva, GetTrader_of hreads hvo,
    hb, ha, hown, hsale, hnb, hs, Trader.Store, Asset.Store, CreateCompositeKey, hvb, hvs, hv3,
    Stub.PutTraderState, Stub.PutAssetState, hwrites _, Asset.ID_forSale, afterBuy]

/-- The ledger of the examples is produced by transactions: the first submitter
enrolls, creates `Bike` and puts it on sale at the lowest `int`, the second
enrolls. -/
theorem marketLedger_minInt_reachable : Reachable demoSum (marketLedger minInt) := by
  have e1 := Reachable.step (h := demoSum) Ledger.empty aliceCred (bytesOf "enroll")
    [bytesOf "alice"] Reachable.empty
  have e2 := Reachable.step _ aliceCred (bytesOf "create") [bytesOf "Bike"] e1
  have e3 := Reachable.step _ aliceCred (bytesOf "sell")
    [bytesOf "42696b65", bytesOf "-9223372036854775808"] e2
  have e4 := Reachable.step _ bobCred (bytesOf "enroll") [bytesOf "bob"] e3
  have heq : (Invoke demoSum { creator := bobCred, faults := Faults.none, ledger :=
      (Invoke demoSum { creator := aliceCred, faults := Faults.none, ledger :=
        (Invoke demoSum { creator := aliceCred, faults := Faults.none, ledger :=
          (Invoke demoSum { creator := aliceCred, faults := Faults.none, ledger := Ledger.empty }
            (bytesOf "enroll") [bytesOf "alice"]).2.ledger }
          (bytesOf "create") [bytesOf "Bike"]).2.ledger }
        (bytesOf "sell") [bytesOf "42696b65", bytesOf "-9223372036854775808"]).2.ledger }
      (bytesOf "enroll") [bytesOf "bob"]).2.ledger
      = marketLedger minInt := by decide
  rw [heq] at e4
  exact e4

/-- The same transactions with the sale at 500. -/
theorem marketLedger_500_reachable : Reachable demoSum (marketLedger 500) := by
  have e1 := Reachable.step (h := demoSum) Ledger.empty aliceCred (bytesOf "enroll")
    [bytesOf "alice"] Reachable.empty
  have e2 := Reachable.step _ aliceCred (bytesOf "create") [bytesOf "Bike"] e1
  have e3 := Reachable.step _ aliceCred (bytesOf "sell") [bytesOf "42696b65", bytesOf "500"] e2
  have e4 := Reachable.step _ bobCred (bytesOf "enroll") [bytesOf "bob"] e3
  have heq : (Invoke demoSum { creator := bobCred, faults := Faults.none, ledger :=
      (Invoke demoSum { creator := aliceCred, faults := Faults.none, ledger :=
        (Invoke demoSum { creator := aliceCred, faults := Faults.none, ledger :=
          (Invoke demoSum { creator := aliceCred, faults := Faults.none, ledger := Ledger.empty }
            (bytesOf "enroll") [bytesOf "alice"]).2.ledger }
          (bytesOf "create") [bytesOf "Bike"]).2.ledger }
        (bytesOf "sell") [bytesOf "42696b65", bytesOf "500"]).2.ledger }
      (bytesOf "enroll") [bytesOf "bob"]).2.ledger
      = marketLedger 500 := by decide
  rw [heq] at e4
  exact e4

/-- C1, as amended. For every stub whose reads and writes succeed and whose
ledger stores each record under its own key: if the caller `idB` is enrolled
with record `b`, an asset is stored under `a` with an owner other than `idB`, on
sale at a price `p ≤ b.balance`, its owner is enrolled with record `s`, and
`b.balance - p` and `s.balance + p` are within the range of `int`, then `buy [a]`
succeeds, and afterwards the balance stored for `idB` is `b.balance - p`, the
balance stored for the owner is `s.balance + p`, and the asset stored under `a` is
not for sale and has the name and price it had. -/
theorem buy_transfers (h : List UInt8 → List UInt8) (stub : Stub) (a idB : GoString)
    (b s : Trader) (asset : Asset)
    (hkeys : WellKeyed h stub.ledger)
    (hreads : stub.readsOk) (hwrites : stub.writesOk)
    (hid : getID h stub = .ok idB)
    (hb : getRec idB stub.ledger.traders = some b)
    (ha : getRec a stub.ledger.assets = some asset)
    (hown : asset.owner ≠ idB) (hsale : asset.forSale = true)
    (hbal : asset.price ≤ b.balance)
    (hs : getRec asset.owner stub.ledger.traders = some s)
    (hrb : inIntRange (b.balance - asset.price))
    (hrs : inIntRange (s.balance + asset.price)) :
    (buy h stub [a]).1 = .ok () ∧
    (getRec idB (buy h stub [a]).2.ledger.traders).map Trader.balance
      = some (b.balance - asset.price) ∧
    (getRec asset.owner (buy h stub [a]).2.ledger.traders).map Trader.balance
      = some (s.balance + asset.price) ∧
    (getRec a (buy h stub [a]).2.ledger.assets).map (fun x => (x.name, x.price, x.forSale))
      = some (asset.name, asset.price, false) := by
  obtain ⟨_, hbid, hvb⟩ := hkeys.1.trader hb
  obtain ⟨_, hsid, hvs⟩ := hkeys.1.trader hs
  obtain ⟨haj, haid⟩ := hkeys.2.asset ha
  have hva : validAttr a = true := by
    rw [← haid]
    exact validAttr_hexEncode _
  rw [buy_of_checks h stub a idB b s asset hreads hwrites hid hb ha hown hsale hbal hs hva hvs
    (by rw [hbid]; exact hvb) (by rw [hsid]; exact hvs)]
  refine ⟨rfl, ?_, ?_, ?_⟩
  · simp only [afterBuy, hbid, hsid]
    rw [getRec_putRec_ne _ _ _ _ (Ne.symm hown), getRec_putRec_self]
    simp [Trader.json, wrapInt_of_inIntRange _ hrb]
  · simp only [afterBuy, hbid, hsid]
    rw [getRec_putRec_self]
    simp [Trader.json, wrapInt_of_inIntRange _ hrs]
  · simp only [afterBuy, Asset.ID_forSale, haid]
    rw [getRec_putRec_self, Asset.json_forSale _ _ haj]
    rfl

/-- C1, a concrete instance: the second submitter buys `Bike`, on sale at 500. -/
theorem buy_transfers_witness :
    (buy demoSum (reliableStub bobCred (marketLedger 500)) [bytesOf "42696b65"]).1 = .ok () ∧
    (getRec (bytesOf "42") (buy demoSum (reliableStub bobCred (marketLedger 500))
      [bytesOf "42696b65"]).2.ledger.traders).map Trader.balance = some (10000 - 500) ∧
    (getRec (bytesOf "41") (buy demoSum (reliableStub bobCred (marketLedger 500))
      [bytesOf "42696b65"]).2.ledger.traders).map Trader.balance = some (10000 + 500) ∧
    (getRec (bytesOf "42696b65") (buy demoSum (reliableStub bobCred (marketLedger 500))
      [bytesOf "42696b65"]).2.ledger.assets).map (fun x => (x.name, x.price, x.forSale))
      = some (bytesOf "Bike", 500, false) :=
  buy_transfers demoSum (reliableStub bobCred (marketLedger 500)) (bytesOf "42696b65")
    (bytesOf "42")
    { name := bytesOf "bob", id := bytesOf "42", balance := 10000 }
    { name := bytesOf "alice", id := bytesOf "41", balance := 10000 }
    { name := bytesOf "Bike", price := 500, owner := bytesOf "41", forSale := true }
    (by decide) (fun _ => rfl) (fun _ => rfl) (by decide) (by decide) (by decide) (by decide)
    (by decide) (by decide) (by decide) (by decide) (by decide)

/-- C1 as stated fails at two inputs. (1) On the reachable ledger where `Bike`
is on sale at the lowest `int`, all conditions of the claim hold for the second
submitter and `buy` succeeds, but the balance stored for the buyer afterwards is
the wrapped `-9223372036854765808`, not `10000 - p`. (2) On a ledger whose record
under the caller's key carries another `ID` field, all conditions hold and `buy`
succeeds, but the balance stored under the caller's key is still `10000`. -/
theorem buy_transfers_counterexample :
    (Reachable demoSum overflowStub.ledger ∧
      overflowStub.readsOk ∧ overflowStub.writesOk ∧
      getID demoSum overflowStub = .ok (bytesOf "42") ∧
      getRec (bytesOf "42") overflowStub.ledger.traders
        = some { name := bytesOf "bob", id := bytesOf "42", balance := 10000 } ∧
      getRec (bytesOf "42696b65") overflowStub.ledger.assets
        = some { name := bytesOf "Bike", price := minInt, owner := bytesOf "41",
                 forSale := true } ∧
      minInt ≤ 10000 ∧
      getRec (bytesOf "41") overflowStub.ledger.traders
        = some { name := bytesOf "alice", id := bytesOf "41", balance := 10000 } ∧
      (buy demoSum overflowStub [bytesOf "42696b65"]).1 = .ok () ∧
      (getRec (bytesOf "42")
          (buy demoSum overflowStub [bytesOf "42696b65"]).2.ledger.traders).map Trader.balance
        = some (-9223372036854765808) ∧
      (-9223372036854765808 : Int) ≠ 10000 - minInt) ∧
    (misfiledStub.readsOk ∧ misfiledStub.writesOk ∧
      getID demoSum misfiledStub = .ok (bytesOf "42") ∧
      getRec (bytesOf "42") misfiledStub.ledger.traders
        = some { name := bytesOf "bob", id := bytesOf "b0b", balance := 10000 } ∧
      getRec (bytesOf "42696b65") misfiledStub.ledger.assets
        = some { name := bytesOf "Bike", price := 500, owner := bytesOf "41",
                 forSale := true } ∧
      getRec (bytesOf "41") misfiledStub.ledger.traders
        = some { name := bytesOf "alice", id := bytesOf "41", balance := 10000 } ∧
      (buy demoSum misfiledStub [bytesOf "42696b65"]).1 = .ok () ∧
      (getRec (bytesOf "42")
          (buy demoSum misfiledStub [bytesOf "42696b65"]).2.ledger.traders).map Trader.balance
        = some 10000 ∧
      (10000 : Int) ≠ 10000 - 500) := by
  refine ⟨⟨marketLedger_minInt_reachable, fun _ => rfl, fun _ => rfl, ?_⟩,
    ⟨fun _ => rfl, fun _ => rfl, ?_⟩⟩
  · decide
  · decide

/-! ## `buy`: ownership, validation, errors -/

/-- C2, what the code does. Whenever `buy [a]` by the caller `idB` succeeds on
a ledger that stores `asset` under `a`, the asset stored under `a` afterwards has
the owner it had before, and that owner is not `idB`: `buy` moves the price from
buyer to seller and never assigns `asset.Owner`. -/
theorem buy_keeps_owner (h : List UInt8 → List UInt8) (stub : Stub) (a idB : GoString)
    (asset : Asset) (hid : getID h stub = .ok idB)
    (ha : getRec a stub.ledger.assets = some asset)
    (hok : (buy h stub [a]).1 = .ok ()) :
    (getRec a (buy h stub [a]).2.ledger.assets).map Asset.owner = some asset.owner ∧
    asset.owner ≠ idB := by
  rcases buy_cases h stub a with ⟨e, he⟩ | ⟨idB', b, s, asset', hpass, _, _, hrun⟩
  · rw [he] at hok
    cases hok
  · obtain ⟨hid', _, ha', hown, _, _, hs⟩ := hpass
    have hidB : idB' = idB := by
      rw [hid] at hid'
      cases hid'
      rfl
    have hasset : asset' = asset := by
      have := GetAsset_some ha'
      rw [ha] at this
      cases this
      rfl
    subst hidB hasset
    rcases hrun with ⟨_, hr⟩ | ⟨_, _, hr⟩ | ⟨_, _, _, hr⟩ | ⟨_, _, _, hr⟩
    · rw [hr] at hok
      cases hok
    · rw [hr] at hok
      cases hok
    · rw [hr] at hok
      cases hok
    · refine ⟨?_, hown⟩
      rw [hr]
      simp only [afterBuy, Asset.ID_forSale]
      by_cases hk : Asset.ID h asset' = a
      · rw [hk, getRec_putRec_self]
        simp [Asset.json, jsonString_of_validAttr _ (GetTrader_valid hs)]
      · rw [getRec_putRec_ne _ _ _ _ (Ne.symm hk), ha]
        rfl

/-- C2, the scenario of the specification: the first submitter enrolled, created
`Bike` and put it on sale at 500, the second enrolled (the ledger these four
transactions produce) and buys it. The purchase succeeds and `Bike` still belongs
to the first submitter `41`, not to the buyer `42`. -/
theorem buy_keeps_owner_witness :
    Reachable demoSum (marketLedger 500) ∧
    getID demoSum (reliableStub bobCred (marketLedger 500)) = .ok (bytesOf "42") ∧
    (buy demoSum (reliableStub bobCred (marketLedger 500)) [bytesOf "42696b65"]).1 = .ok () ∧
    ((getRec (bytesOf "42696b65") (buy demoSum (reliableStub bobCred (marketLedger 500))
        [bytesOf "42696b65"]).2.ledger.assets).map Asset.owner = some (bytesOf "41") ∧
      bytesOf "41" ≠ bytesOf "42") :=
  ⟨marketLedger_500_reachable, by decide, by decide,
    buy_keeps_owner demoSum (reliableStub bobCred (marketLedger 500)) (bytesOf "42696b65")
      (bytesOf "42")
      { name := bytesOf "Bike", price := 500, owner := bytesOf "41", forSale := true }
      (by decide) (by decide) (by decide)⟩

/-- C3. Whatever the platform's failures: if one of the checks of `buy [a]` by
the caller `idB` fails on the ledger (no trader under `idB`; no asset under `a`;
the asset owned by `idB`; not on sale; priced above the buyer's balance; no
trader under its owner), `buy` returns an error and the stub it leaves is the one
it was given: no record has been written. -/
theorem buy_failed_check_writes_nothing (h : List UInt8 → List UInt8) (stub : Stub)
    (a idB : GoString) (hid : getID h stub = .ok idB)
    (hfail : getRec idB stub.ledger.traders = Option.none ∨
      getRec a stub.ledger.assets = Option.none ∨
      ∃ asset, getRec a stub.ledger.assets = some asset ∧
        (asset.owner = idB ∨ asset.forSale = false ∨
          (∃ b, getRec idB stub.ledger.traders = some b ∧ b.balance < asset.price) ∨
          getRec asset.owner stub.ledger.traders = Option.none)) :
    (∃ e, (buy h stub [a]).1 = .error e) ∧ (buy h stub [a]).2 = stub := by
  rcases buy_cases h stub a with ⟨e, he⟩ | ⟨idB', b, s, asset', hpass, _, _, _⟩
  · rw [he]
    exact ⟨⟨e, rfl⟩, rfl⟩
  · exfalso
    obtain ⟨hid', hb, ha, hown, hsale, hbal, hs⟩ := hpass
    have hidB : idB' = idB := by
      rw [hid] at hid'
      cases hid'
      rfl
    subst hidB
    have hb' := GetTrader_some hb
    have ha' := GetAsset_some ha
    have hs' := GetTrader_some hs
    rcases hfail with h1 | h1 | ⟨asset, h1, h2⟩
    · rw [hb'] at h1
      cases h1
    · rw [ha'] at h1
      cases h1
    · rw [ha'] at h1
      cases h1
      rcases h2 with h2 | h2 | ⟨b2, h2, h3⟩ | h2
      · exact hown h2
      · rw [hsale] at h2
        cases h2
      · rw [hb'] at h2
        cases h2
        exact absurd hbal (not_le.mpr h3)
      · rw [hs'] at h2
        cases h2

/-- C3, a concrete instance: the first submitter tries to buy its own `Bike`. -/
theorem buy_failed_check_writes_nothing_witness :
    (∃ e, (buy demoSum (reliableStub aliceCred (marketLedger 500))
      [bytesOf "42696b65"]).1 = .error e) ∧
    (buy demoSum (reliableStub aliceCred (marketLedger 500)) [bytesOf "42696b65"]).2
      = reliableStub aliceCred (marketLedger 500) :=
  buy_failed_check_writes_nothing demoSum (reliableStub aliceCred (marketLedger 500))
    (bytesOf "42696b65") (bytesOf "41") (by decide)
    (Or.inr (Or.inr
      ⟨{ name := bytesOf "Bike", price := 500, owner := bytesOf "41", forSale := true },
        by decide, Or.inl rfl⟩))

/-! ## Errors and writes -/

theorem enroll_error_unchanged (h : List UInt8 → List UInt8) (stub : Stub)
    (params : List GoString) (e : Err) (he : (enroll h stub params).1 = .error e) :
    (enroll h stub params).2 = stub := by
  unfold enroll at he ⊢
  repeat' split
  all_goals first
    | rfl
    | (simp_all)

theorem create_error_unchanged (h : List UInt8 → List UInt8) (stub : Stub)
    (params : List GoString) (e : Err) (he : (create h stub params).1 = .error e) :
    (create h stub params).2 = stub := by
  unfold create at he ⊢
  repeat' split
  all_goals first
    | rfl
    | (simp_all)

theorem sell_error_unchanged (h : List UInt8 → List UInt8) (stub : Stub)
    (params : List GoString) (e : Err) (he : (sell h stub params).1 = .error e) :
    (sell h stub params).2 = stub := by
  unfold sell at he ⊢
  repeat' split
  all_goals first
    | rfl
    | (simp_all)

theorem ListCmd_unchanged (h : List UInt8 → List UInt8) (stub : Stub) :
    (ListCmd h stub).2 = stub := by
  unfold ListCmd
  split <;> rfl

theorem buy_arity (h : List UInt8 → List UInt8) (stub : Stub) (params : List GoString)
    (hlen : params.length ≠ 1) :
    buy h stub params
      = (.error (.msg (bytesOf "expect 1 param, got " ++ bytesOf (toString params.length))),
          stub) := by
  unfold buy
  split
  · simp at hlen
  · rfl

/-- C4, as amended. Whatever the platform's failures, the stub and the
parameters: when `enroll`, `create` or `sell` returns an error the stub is as it
was, and `list` never changes it; when `buy` returns an error the stub is as it
was, unless the checks had passed and the buyer record had been written, and the
error is that of the second write (of its `PutState`, or of the key made for the
seller record; the stub then holds the new buyer record) or of the third (it then
holds the new buyer and seller records). -/
theorem error_leaves_stub (h : List UInt8 → List UInt8) (stub : Stub)
    (params : List GoString) (e : Err) :
    ((enroll h stub params).1 = .error e → (enroll h stub params).2 = stub) ∧
    ((create h stub params).1 = .error e → (create h stub params).2 = stub) ∧
    ((sell h stub params).1 = .error e → (sell h stub params).2 = stub) ∧
    (ListCmd h stub).2 = stub ∧
    ((buy h stub params).1 = .error e →
      (buy h stub params).2 = stub ∨
      ∃ a idB b s asset, params = [a] ∧ BuyChecksPass h stub a idB b s asset ∧
        stub.faults.putFails (.trader b.id) = false ∧
        (((e = .putState (.trader s.id) ∨ e = .compositeKey s.id) ∧
            (buy h stub params).2 = afterBuyer stub b asset) ∨
          (e = .putState (.asset (Asset.ID h asset)) ∧
            stub.faults.putFails (.trader s.id) = false ∧
            (buy h stub params).2 = afterSeller stub b s asset))) := by
  refine ⟨enroll_error_unchanged h stub params e, create_error_unchanged h stub params e,
    sell_error_unchanged h stub params e, ListCmd_unchanged h stub, ?_⟩
  intro he
  by_cases hlen : params.length = 1
  · obtain ⟨a, rfl⟩ := List.length_eq_one.mp hlen
    rcases buy_cases h stub a with ⟨e', he'⟩ | ⟨idB, b, s, asset, hpass, _, hw1, hrun⟩
    · left
      rw [he']
    · rcases hrun with ⟨_, hr⟩ | ⟨_, _, hr⟩ | ⟨_, hw2, _, hr⟩ | ⟨_, _, _, hr⟩
      · right
        refine ⟨a, idB, b, s, asset, rfl, hpass, hw1, Or.inl ⟨?_, ?_⟩⟩
        · rw [hr] at he
          cases he
          exact Or.inr rfl
        · rw [hr]
      · right
        refine ⟨a, idB, b, s, asset, rfl, hpass, hw1, Or.inl ⟨?_, ?_⟩⟩
        · rw [hr] at he
          cases he
          exact Or.inl rfl
        · rw [hr]
      · right
        refine ⟨a, idB, b, s, asset, rfl, hpass, hw1, Or.inr ⟨?_, hw2, ?_⟩⟩
        · rw [hr] at he
          cases he
          rfl
        · rw [hr]
      · rw [hr] at he
        cases he
  · left
    rw [buy_arity h stub params hlen]

/-- C4 as stated fails: on the ledger where `Bike` is on sale at 500, with the
write of the seller's record failing, `buy` by the second submitter returns the
error of that write, and the buyer's record, which held 10000, holds 9500. -/
theorem error_leaves_stub_counterexample :
    (buy demoSum faultyStub [bytesOf "42696b65"]).1
      = .error (.putState (.trader (bytesOf "41"))) ∧
    getRec (bytesOf "42") faultyStub.ledger.traders
      = some { name := bytesOf "bob", id := bytesOf "42", balance := 10000 } ∧
    getRec (bytesOf "42") (buy demoSum faultyStub [bytesOf "42696b65"]).2.ledger.traders
      = some { name := bytesOf "bob", id := bytesOf "42", balance := 9500 } ∧
    (buy demoSum faultyStub [bytesOf "42696b65"]).2.ledger ≠ faultyStub.ledger := by
  decide

/-! ## `buy`: the order of the checks -/

/-- C5, as amended. On a stub whose reads succeed, `buy [a]` by the caller
`idB` returns the error of the first check that fails, in the order: no trader
under `idB`; no asset under `a`; the asset owned by `idB`; the asset not on sale;
the price above the buyer's balance; no trader under the asset's owner. Each line
assumes only that the checks before it pass, so a later check that would fail as
well does not change the answer. The asset lookup answers so when `a` is a string
`CreateCompositeKey` accepts (valid UTF-8 without U+0000 and U+10FFFF), and the
seller lookup when the asset's owner field is; for an enrolled buyer and an `a`
that is not, `buy` returns the error of `CreateCompositeKey`. The six errors of
the checks are pairwise distinct. -/
theorem buy_first_failing_check (h : List UInt8 → List UInt8) (stub : Stub)
    (a idB : GoString) (hreads : stub.readsOk) (hid : getID h stub = .ok idB) :
    (getRec idB stub.ledger.traders = Option.none →
      buy h stub [a] = (.error (.msg (bytesOf "buyer not exist")), stub)) ∧
    (∀ b, getRec idB stub.ledger.traders = some b →
      (validAttr a = false → buy h stub [a] = (.error (.compositeKey a), stub)) ∧
      (validAttr a = true →
        (getRec a stub.ledger.assets = Option.none →
          buy h stub [a] = (.error (.msg (bytesOf "asset not exist")), stub)) ∧
        (∀ asset, getRec a stub.ledger.assets = some asset →
          (asset.owner = idB →
            buy h stub [a] = (.error (.msg (bytesOf "cannot buy your own asset")), stub)) ∧
          (asset.owner ≠ idB → asset.forSale = false →
            buy h stub [a] = (.error (.msg (bytesOf "asset not for sale")), stub)) ∧
          (asset.owner ≠ idB → asset.forSale = true → b.balance < asset.price →
            buy h stub [a] = (.error (.msg (bytesOf "not enough balance")), stub)) ∧
          (asset.owner ≠ idB → asset.forSale = true → asset.price ≤ b.balance →
            validAttr asset.owner = true →
            getRec asset.owner stub.ledger.traders = Option.none →
            buy h stub [a] = (.error (.msg (bytesOf "seller not exist")), stub))))) ∧
    [Err.msg (bytesOf "buyer not exist"), Err.msg (bytesOf "asset not exist"),
      Err.msg (bytesOf "cannot buy your own asset"), Err.msg (bytesOf "asset not for sale"),
      Err.msg (bytesOf "not enough balance"), Err.msg (bytesOf "seller not exist")].Nodup := by
  have hvi : validAttr idB = true := getID_validAttr hid
  refine ⟨?_, ?_, by decide⟩
  · intro hb
    simp [buy, hid, GetTrader_of hreads hvi, hb]
  · intro b hb
    refine ⟨?_, ?_⟩
    · intro hva
      simp [buy, hid, GetTrader_of hreads hvi, hb, GetAsset, CreateCompositeKey_bad hva]
    · intro hva
      refine ⟨?_, ?_⟩
      · intro ha
        simp [buy, hid, GetTrader_of hreads hvi, GetAsset_of hreads hva, hb, ha]
      · intro asset ha
        refine ⟨?_, ?_, ?_, ?_⟩
        · intro hown
          simp [buy, hid, GetTrader_of hreads hvi, GetAsset_of hreads hva, hb, ha, hown]
        · intro hown hsale
          simp [buy, hid, GetTrader_of hreads hvi, GetAsset_of hreads hva, hb, ha, hown, hsale]
        · intro hown hsale hbal
          simp [buy, hid, GetTrader_of hreads hvi, GetAsset_of hreads hva, hb, ha, hown, hsale,
            hbal]
        · intro hown hsale hbal hvo hs
          simp [buy, hid, GetTrader_of hreads hvi, GetAsset_of hreads hva,
            GetTrader_of hreads hvo, hb, ha, hown, hsale, not_lt.mpr hbal, hs]

/-- C5, a concrete instance: the first submitter, on the ledger where its own
`Bike` is not on sale; the self-trade error is the one returned. -/
theorem buy_first_failing_check_witness :
    buy demoSum (reliableStub aliceCred
        { marketLedger 500 with assets :=
            [(bytesOf "42696b65",
              { name := bytesOf "Bike", price := 500, owner := bytesOf "41", forSale := false })] })
        [bytesOf "42696b65"]
      = (.error (.msg (bytesOf "cannot buy your own asset")), reliableStub aliceCred
        { marketLedger 500 with assets :=
            [(bytesOf "42696b65",
              { name := bytesOf "Bike", price := 500, owner := bytesOf "41", forSale := false })] }) :=
  (((buy_first_failing_check demoSum (reliableStub aliceCred
      { marketLedger 500 with assets :=
          [(bytesOf "42696b65",
            { name := bytesOf "Bike", price := 500, owner := bytesOf "41", forSale := false })] })
      (bytesOf "42696b65") (bytesOf "41") (fun _ => rfl) (by decide)).2.1
    { name := bytesOf "alice", id := bytesOf "41", balance := 10000 } (by decide)).2
    (by decide)).2
    { name := bytesOf "Bike", price := 500, owner := bytesOf "41", forSale := false }
    (by decide) |>.1 rfl

/-- C5 as stated fails: on the reachable ledger of the examples the second
submitter, enrolled, calls `buy` with the identifier `nulId`, which holds U+0000.
No asset is stored under it, and `buy` returns the error of `CreateCompositeKey`,
not the error `asset not exist`; the ledger is as it was. -/
theorem buy_first_failing_check_counterexample :
    Reachable demoSum (marketLedger 500) ∧
    getID demoSum (reliableStub bobCred (marketLedger 500)) = .ok (bytesOf "42") ∧
    getRec (bytesOf "42") (marketLedger 500).traders
      = some { name := bytesOf "bob", id := bytesOf "42", balance := 10000 } ∧
    getRec nulId (marketLedger 500).assets = Option.none ∧
    (buy demoSum (reliableStub bobCred (marketLedger 500)) [nulId]).1
      = .error (.compositeKey nulId) ∧
    (buy demoSum (reliableStub bobCred (marketLedger 500)) [nulId]).2.ledger
      = marketLedger 500 ∧
    Err.compositeKey nulId ≠ Err.msg (bytesOf "asset not exist") := by
  refine ⟨marketLedger_500_reachable, ?_⟩
  decide

/-! ## `enroll` -/

/-- C6. On a stub whose reads succeed and whose ledger holds a trader record,
whatever its name and balance, under the caller's identifier: `enroll [name]`
returns the error `already enrolled` and leaves the stub as it was. In particular,
after an `enroll` that succeeded, a second `enroll` by the same caller returns
that error and leaves the stub of the first as it was. -/
theorem enroll_twice (h : List UInt8 → List UInt8) (stub : Stub) (id name : GoString)
    (hreads : stub.readsOk) (hid : getID h stub = .ok id) :
    (∀ t, getRec id stub.ledger.traders = some t →
      enroll h stub [name] = (.error (.msg (bytesOf "already enrolled")), stub)) ∧
    (∀ first, (enroll h stub [first]).1 = .ok () →
      enroll h (enroll h stub [first]).2 [name]
        = (.error (.msg (bytesOf "already enrolled")), (enroll h stub [first]).2)) := by
  have hcr : stub.faults.creatorFails = false := by
    unfold getID Stub.GetCreator at hid
    cases hc : stub.faults.creatorFails
    · rfl
    · simp [hc] at hid
  have hidv : hexEncode (h stub.creator) = id := (getID_ok hid).symm
  have hvi : validAttr id = true := getID_validAttr hid
  have hck : CreateCompositeKey id = .ok id := CreateCompositeKey_ok hvi
  refine ⟨?_, ?_⟩
  · intro t ht
    simp [enroll, hid, hck, Stub.GetTraderState, hreads _, ht]
  · intro first hok
    cases hg : getRec id stub.ledger.traders with
    | some t =>
      simp [enroll, hid, hck, Stub.GetTraderState, hreads _, hg] at hok
    | none =>
      cases hw : stub.faults.putFails (.trader id) with
      | true =>
        simp [enroll, hid, hck, Stub.GetTraderState, hreads _, hg, Trader.Store,
          Stub.PutTraderState, hw] at hok
      | false =>
        have hrun : enroll h stub [first] = (.ok (), { stub with ledger :=
            { stub.ledger with traders :=
                (putRec id (Trader.json { name := first, id := id, balance := 10000 })
                  stub.ledger.traders) } }) := by
          simp [enroll, hid, hck, Stub.GetTraderState, hreads _, hg, Trader.Store,
            Stub.PutTraderState, hw]
        rw [hrun]
        simp [enroll, getID, Stub.GetCreator, hcr, hidv, hck, Stub.GetTraderState, hreads _,
          getRec_putRec_self]

/-- C6, a concrete instance: the first submitter enrolls on the empty ledger,
then enrolls again under another name. -/
theorem enroll_twice_witness :
    enroll demoSum (enroll demoSum (reliableStub aliceCred Ledger.empty) [bytesOf "alice"]).2
        [bytesOf "eve"]
      = (.error (.msg (bytesOf "already enrolled")),
        (enroll demoSum (reliableStub aliceCred Ledger.empty) [bytesOf "alice"]).2) :=
  (enroll_twice demoSum (reliableStub aliceCred Ledger.empty) (bytesOf "41") (bytesOf "eve")
    (fun _ => rfl) (by decide)).2 (bytesOf "alice") (by decide)

/-- C7, as amended. On a stub whose reads and writes succeed and whose ledger
holds no trader record under the caller's identifier `id`: `enroll [name]`
succeeds; afterwards `GetTrader` at `id` returns the trader with that `id`,
balance 10000 and the name as the JSON codec returns it, which is `name` itself
when `name` is valid UTF-8; the records under all other trader keys are as they
were, and so is every asset record. -/
theorem enroll_fresh (h : List UInt8 → List UInt8) (stub : Stub) (id name : GoString)
    (hreads : stub.readsOk) (hwrites : stub.writesOk) (hid : getID h stub = .ok id)
    (hnone : getRec id stub.ledger.traders = Option.none) :
    (enroll h stub [name]).1 = .ok () ∧
    GetTrader (enroll h stub [name]).2 id
      = .ok (some { name := jsonString name, id := id, balance := 10000 }) ∧
    (ValidString name = true →
      GetTrader (enroll h stub [name]).2 id
        = .ok (some { name := name, id := id, balance := 10000 })) ∧
    (∀ k, k ≠ id →
      getRec k (enroll h stub [name]).2.ledger.traders = getRec k stub.ledger.traders) ∧
    (enroll h stub [name]).2.ledger.assets = stub.ledger.assets := by
  have hvi : validAttr id = true := getID_validAttr hid
  have hck : CreateCompositeKey id = .ok id := CreateCompositeKey_ok hvi
  have hrun : enroll h stub [name] = (.ok (), { stub with ledger :=
      { stub.ledger with traders :=
          (putRec id { name := jsonString name, id := id, balance := 10000 }
            stub.ledger.traders) } }) := by
    simp [enroll, hid, hck, Stub.GetTraderState, hreads _, hnone, Trader.Store,
      Stub.PutTraderState, hwrites _, Trader.json, jsonString_of_validAttr _ hvi]
  rw [hrun]
  have hget : GetTrader { stub with ledger :=
      { stub.ledger with traders :=
          (putRec id { name := jsonString name, id := id, balance := 10000 }
            stub.ledger.traders) } } id
      = .ok (some { name := jsonString name, id := id, balance := 10000 }) := by
    have hr := hreads (.trader id)
    simp [GetTrader, hck, Stub.GetTraderState, hr, getRec_putRec_self]
  refine ⟨rfl, hget, ?_, ?_, rfl⟩
  · intro hv
    rw [hget, jsonString_of_valid _ hv]
  · intro k hk
    exact getRec_putRec_ne _ _ _ _ hk

/-- C7, a concrete instance: the second submitter enrolls on a ledger that
holds the first. -/
theorem enroll_fresh_witness :
    (enroll demoSum (reliableStub bobCred
      { traders := [(bytesOf "41",
          { name := bytesOf "alice", id := bytesOf "41", balance := 9000 })], assets := [] })
      [bytesOf "bob"]).1 = .ok () ∧
    GetTrader (enroll demoSum (reliableStub bobCred
      { traders := [(bytesOf "41",
          { name := bytesOf "alice", id := bytesOf "41", balance := 9000 })], assets := [] })
      [bytesOf "bob"]).2 (bytesOf "42")
      = .ok (some { name := bytesOf "bob", id := bytesOf "42", balance := 10000 }) :=
  have key := enroll_fresh demoSum (reliableStub bobCred
      { traders := [(bytesOf "41",
          { name := bytesOf "alice", id := bytesOf "41", balance := 9000 })], assets := [] })
      (bytesOf "42") (bytesOf "bob") (fun _ => rfl) (fun _ => rfl) (by decide) (by decide)
  ⟨key.1, key.2.2.1 (by decide)⟩

/-- C7 as stated fails: on the empty ledger the first submitter enrolls with
the name `brokenName`, which is not valid UTF-8. `enroll` succeeds, and
`GetTrader` returns a trader whose name is `replacedName`, not the name given. -/
theorem enroll_fresh_counterexample :
    getRec (bytesOf "41") Ledger.empty.traders = Option.none ∧
    getID demoSum (reliableStub aliceCred Ledger.empty) = .ok (bytesOf "41") ∧
    (enroll demoSum (reliableStub aliceCred Ledger.empty) [brokenName]).1 = .ok () ∧
    GetTrader (enroll demoSum (reliableStub aliceCred Ledger.empty) [brokenName]).2
        (bytesOf "41")
      = .ok (some { name := replacedName, id := bytesOf "41", balance := 10000 }) ∧
    replacedName ≠ brokenName := by
  decide

/-! ## `create` -/

/-- C8, as amended. On a stub whose reads and writes succeed and whose ledger
holds a trader record under the caller's identifier `id`: `create [n]` succeeds,
and afterwards `GetAsset`, at the `ID()` of any asset named `n`, returns an asset
with owner `id`, not for sale, price 0 and the name as the JSON codec returns it,
which is `n` itself when `n` is valid UTF-8. -/
theorem create_then_get (h : List UInt8 → List UInt8) (stub : Stub) (id n : GoString)
    (t : Trader) (hreads : stub.readsOk) (hwrites : stub.writesOk)
    (hid : getID h stub = .ok id) (ht : getRec id stub.ledger.traders = some t) :
    (create h stub [n]).1 = .ok () ∧
    (∀ x : Asset, x.name = n →
      GetAsset (create h stub [n]).2 (Asset.ID h x)
        = .ok (some { name := jsonString n, price := 0, owner := id, forSale := false })) ∧
    (ValidString n = true → ∀ x : Asset, x.name = n →
      GetAsset (create h stub [n]).2 (Asset.ID h x)
        = .ok (some { name := n, price := 0, owner := id, forSale := false })) := by
  have hvi : validAttr id = true := getID_validAttr hid
  have hrun : create h stub [n] = (.ok (), { stub with ledger :=
      { stub.ledger with assets :=
          (putRec (Asset.ID h { name := n, price := 0, owner := id, forSale := false })
            { name := jsonString n, price := 0, owner := id, forSale := false }
            stub.ledger.assets) } }) := by
    simp [create, hid, GetTrader_of hreads hvi, ht, Asset.Store, CreateCompositeKey_assetID,
      Stub.PutAssetState, hwrites _, Asset.json, jsonString_of_validAttr _ hvi]
  rw [hrun]
  have hget : ∀ x : Asset, x.name = n →
      GetAsset { stub with ledger :=
        { stub.ledger with assets :=
          (putRec (Asset.ID h { name := n, price := 0, owner := id, forSale := false })
            { name := jsonString n, price := 0, owner := id, forSale := false }
            stub.ledger.assets) } } (Asset.ID h x)
        = .ok (some { name := jsonString n, price := 0, owner := id, forSale := false }) := by
    intro x hx
    have hidx : Asset.ID h x
        = Asset.ID h { name := n, price := 0, owner := id, forSale := false } := by
      simp [Asset.ID, hx]
    have hr := hreads (.asset (Asset.ID h x))
    simp only [GetAsset, CreateCompositeKey_assetID, Stub.GetAssetState, hr]
    rw [hidx, getRec_putRec_self]
    rfl
  refine ⟨rfl, hget, ?_⟩
  intro hv x hx
  rw [hget x hx, jsonString_of_valid _ hv]

/-- C8, a concrete instance: the first submitter, enrolled, creates `Chair`. -/
theorem create_then_get_witness :
    (create demoSum (reliableStub aliceCred (marketLedger 500)) [bytesOf "Chair"]).1 = .ok () ∧
    GetAsset (create demoSum (reliableStub aliceCred (marketLedger 500)) [bytesOf "Chair"]).2
        (Asset.ID demoSum { name := bytesOf "Chair", price := 7, owner := [], forSale := true })
      = .ok (some { name := bytesOf "Chair", price := 0, owner := bytesOf "41",
                    forSale := false }) :=
  have key := create_then_get demoSum (reliableStub aliceCred (marketLedger 500)) (bytesOf "41")
      (bytesOf "Chair") { name := bytesOf "alice", id := bytesOf "41", balance := 10000 }
      (fun _ => rfl) (fun _ => rfl) (by decide) (by decide)
  ⟨key.1, key.2.2 (by decide)
    { name := bytesOf "Chair", price := 7, owner := [], forSale := true } rfl⟩

/-- C8 as stated fails: on the reachable ledger of the examples the first
submitter, enrolled, creates an asset with the name `brokenName`, which is not
valid UTF-8. `create` succeeds, and `GetAsset` at the identifier of `brokenName`
returns an asset whose name is `replacedName`, not the name given (and whose own
`ID()` is not the identifier it is stored under). -/
theorem create_then_get_counterexample :
    Reachable demoSum (marketLedger 500) ∧
    getRec (bytesOf "41") (marketLedger 500).traders
      = some { name := bytesOf "alice", id := bytesOf "41", balance := 10000 } ∧
    (create demoSum (reliableStub aliceCred (marketLedger 500)) [brokenName]).1 = .ok () ∧
    GetAsset (create demoSum (reliableStub aliceCred (marketLedger 500)) [brokenName]).2
        (assetId demoSum brokenName)
      = .ok (some { name := replacedName, price := 0, owner := bytesOf "41",
                    forSale := false }) ∧
    replacedName ≠ brokenName ∧
    assetId demoSum replacedName ≠ assetId demoSum brokenName := by
  refine ⟨marketLedger_500_reachable, ?_⟩
  decide

/-! ## What the operations can change -/

theorem traderStore_ledger (t : Trader) (stub stub1 : Stub)
    (hst : Trader.Store t stub = .ok stub1) :
    validAttr t.id = true ∧
    stub1.ledger = { stub.ledger with traders := putRec t.id t.json stub.ledger.traders } := by
  unfold Trader.Store at hst
  split at hst
  · cases hst
  · rename_i key hk
    obtain ⟨rfl, hv⟩ := CreateCompositeKey_eq_ok hk
    unfold Stub.PutTraderState at hst
    split at hst
    · cases hst
    · cases hst
      exact ⟨hv, rfl⟩

theorem assetStore_ledger (h : List UInt8 → List UInt8) (a : Asset) (stub stub1 : Stub)
    (hst : Asset.Store h a stub = .ok stub1) :
    stub1.ledger
      = { stub.ledger with assets := putRec (Asset.ID h a) a.json stub.ledger.assets } := by
  unfold Asset.Store at hst
  split at hst
  · cases hst
  · rename_i key hk
    obtain ⟨rfl, _⟩ := CreateCompositeKey_eq_ok hk
    unfold Stub.PutAssetState at hst
    split at hst
    · cases hst
    · cases hst
      rfl

/-- A property of the ledger that no write of a trader record destroys is kept
by `enroll`. -/
theorem enroll_preserves (P : Ledger → Prop) (h : List UInt8 → List UInt8)
    (hT : ∀ (t : Trader) (stub stub1 : Stub), P stub.ledger →
      Trader.Store t stub = .ok stub1 → P stub1.ledger)
    (stub : Stub) (params : List GoString) (hP : P stub.ledger) :
    P (enroll h stub params).2.ledger := by
  unfold enroll
  repeat' split
  all_goals first
    | exact hP
    | exact hT _ _ _ hP (by assumption)

/-- A property of the ledger that no write of an asset record destroys is kept
by `create`. -/
theorem create_preserves (P : Ledger → Prop) (h : List UInt8 → List UInt8)
    (hA : ∀ (a : Asset) (stub stub1 : Stub), P stub.ledger →
      Asset.Store h a stub = .ok stub1 → P stub1.ledger)
    (stub : Stub) (params : List GoString) (hP : P stub.ledger) :
    P (create h stub params).2.ledger := by
  unfold create
  repeat' split
  all_goals first
    | exact hP
    | exact hA _ _ _ hP (by assumption)

/-- A property of the ledger that no write of an asset record destroys is kept
by `sell`. -/
theorem sell_preserves (P : Ledger → Prop) (h : List UInt8 → List UInt8)
    (hA : ∀ (a : Asset) (stub stub1 : Stub), P stub.ledger →
      Asset.Store h a stub = .ok stub1 → P stub1.ledger)
    (stub : Stub) (params : List GoString) (hP : P stub.ledger) :
    P (sell h stub params).2.ledger := by
  unfold sell
  repeat' split
  all_goals first
    | exact hP
    | exact hA _ _ _ hP (by assumption)

/-- A property of the ledger that no write destroys is kept by `buy`, also when
`buy` stops at a failing write. -/
theorem buy_preserves (P : Ledger → Prop) (h : List UInt8 → List UInt8)
    (hT : ∀ (t : Trader) (stub stub1 : Stub), P stub.ledger →
      Trader.Store t stub = .ok stub1 → P stub1.ledger)
    (hA : ∀ (a : Asset) (stub stub1 : Stub), P stub.ledger →
      Asset.Store h a stub = .ok stub1 → P stub1.ledger)
    (stub : Stub) (params : List GoString) (hP : P stub.ledger) :
    P (buy h stub params).2.ledger := by
  unfold buy
  repeat' split
  all_goals first
    | exact hP
    | exact hT _ _ _ hP (by assumption)
    | exact hT _ _ _ (hT _ _ _ hP (by assumption)) (by assumption)
    | exact hA _ _ _ (hT _ _ _ (hT _ _ _ hP (by assumption)) (by assumption)) (by assumption)

theorem respond_stub (r : Except Err Unit × Stub) : (respond r).2 = r.2 := by
  unfold respond
  split <;> rfl

theorem respond_success (r : Except Err Unit × Stub) :
    (respond r).1 = .success Option.none ↔ r.1 = .ok () := by
  unfold respond
  split
  · rename_i e he
    simp [he]
  · rename_i u hu
    simp [hu]

theorem respond_error (r : Except Err Unit × Stub) (e : Err) :
    (respond r).1 = .error e ↔ r.1 = .error e := by
  unfold respond
  split
  · rename_i e' he
    simp [he]
  · rename_i u hu
    simp [hu]

/-- A property of the ledger that no write destroys is kept by every
invocation, on every stub. -/
theorem Invoke_preserves (P : Ledger → Prop) (h : List UInt8 → List UInt8)
    (hT : ∀ (t : Trader) (stub stub1 : Stub), P stub.ledger →
      Trader.Store t stub = .ok stub1 → P stub1.ledger)
    (hA : ∀ (a : Asset) (stub stub1 : Stub), P stub.ledger →
      Asset.Store h a stub = .ok stub1 → P stub1.ledger)
    (stub : Stub) (fcn : GoString) (params : List GoString) (hP : P stub.ledger) :
    P (Invoke h stub fcn params).2.ledger := by
  unfold Invoke
  repeat' split
  · rw [Enroll, respond_stub]
    exact enroll_preserves P h hT stub params hP
  · rw [ListCmd_unchanged]
    exact hP
  · rw [Create, respond_stub]
    exact create_preserves P h hA stub params hP
  · rw [Sell, respond_stub]
    exact sell_preserves P h hA stub params hP
  · rw [Buy, respond_stub]
    exact buy_preserves P h hT hA stub params hP
  · exact hP

/-! ## Trader records are keyed by their identifier; records are in JSON form -/

theorem traderStore_tradersKeyed (t : Trader) (stub stub1 : Stub)
    (hk : TradersKeyed stub.ledger) (hst : Trader.Store t stub = .ok stub1) :
    TradersKeyed stub1.ledger := by
  obtain ⟨hv, hl⟩ := traderStore_ledger t stub stub1 hst
  rw [hl]
  intro p hp
  rcases mem_putRec _ _ _ _ hp with hp | hp
  · rw [hp]
    refine ⟨Trader.json_json t, ?_⟩
    have : t.json.id = t.id := jsonString_of_validAttr _ hv
    simp only [this]
    exact CreateCompositeKey_ok hv
  · exact hk p hp

/-- On every stub, whatever its failures, an invocation keeps the trader
records keyed by their `ID` field and in JSON form. -/
theorem Invoke_tradersKeyed (h : List UInt8 → List UInt8) (stub : Stub) (fcn : GoString)
    (params : List GoString) (hk : TradersKeyed stub.ledger) :
    TradersKeyed (Invoke h stub fcn params).2.ledger := by
  refine Invoke_preserves TradersKeyed h ?_ ?_ stub fcn params hk
  · intro t st st1 hP hst
    exact traderStore_tradersKeyed t st st1 hP hst
  · intro a st st1 hP hst
    rw [assetStore_ledger h a st st1 hst]
    exact hP

/-- In every ledger reachable from the empty one the trader records are keyed
by their `ID` field. -/
theorem Reachable.tradersKeyed {h : List UInt8 → List UInt8} {l : Ledger}
    (hr : Reachable h l) : TradersKeyed l := by
  induction hr with
  | empty =>
    intro p hp
    simp [Ledger.empty] at hp
  | step l creator fcn params _ ih =>
    exact Invoke_tradersKeyed h _ fcn params ih

/-- On every stub an invocation keeps the asset records in JSON form. -/
theorem Invoke_assetsJson (h : List UInt8 → List UInt8) (stub : Stub) (fcn : GoString)
    (params : List GoString) (hk : ∀ p ∈ stub.ledger.assets, p.2.json = p.2) :
    ∀ p ∈ (Invoke h stub fcn params).2.ledger.assets, p.2.json = p.2 := by
  refine Invoke_preserves (fun l => ∀ p ∈ l.assets, p.2.json = p.2) h ?_ ?_ stub fcn params hk
  · intro t st st1 hP hst
    rw [(traderStore_ledger t st st1 hst).2]
    exact hP
  · intro a st st1 hP hst
    rw [assetStore_ledger h a st st1 hst]
    intro p hp
    rcases mem_putRec _ _ _ _ hp with hp | hp
    · rw [hp]
      exact Asset.json_twice a
    · exact hP p hp

/-- In every ledger reachable from the empty one the asset records are in JSON
form: their strings are valid UTF-8. -/
theorem Reachable.assetsJson {h : List UInt8 → List UInt8} {l : Ledger}
    (hr : Reachable h l) : ∀ p ∈ l.assets, p.2.json = p.2 := by
  induction hr with
  | empty =>
    intro p hp
    simp [Ledger.empty] at hp
  | step l creator fcn params _ ih =>
    exact Invoke_assetsJson h _ fcn params ih

theorem runTxs_reachable (h : List UInt8 → List UInt8) (txs : List Tx) (l : Ledger)
    (hr : Reachable h l) : Reachable h (runTxs h l txs) := by
  induction txs generalizing l with
  | nil => exact hr
  | cons tx rest ih =>
    exact ih _ (Reachable.step l tx.creator tx.fcn tx.params hr)

theorem runTxs_append (h : List UInt8 → List UInt8) (l : Ledger) (xs ys : List Tx) :
    runTxs h l (xs ++ ys) = runTxs h (runTxs h l xs) ys := by
  induction xs generalizing l with
  | nil => rfl
  | cons tx rest ih => exact ih _

/-- The reachable ledgers are the results of the runs from the empty ledger. -/
theorem reachable_iff_run (h : List UInt8 → List UInt8) (l : Ledger) :
    Reachable h l ↔ ∃ txs, runTxs h Ledger.empty txs = l := by
  constructor
  · intro hr
    induction hr with
    | empty => exact ⟨[], rfl⟩
    | step l creator fcn params _ ih =>
      obtain ⟨txs, ht⟩ := ih
      refine ⟨txs ++ [{ creator := creator, fcn := fcn, params := params }], ?_⟩
      rw [runTxs_append, ht]
      rfl
  · rintro ⟨txs, rfl⟩
    exact runTxs_reachable h txs _ Reachable.empty

/-! ## `sell` -/

/-- The ledger with the asset created under the name `brokenName` is produced
by transactions. -/
theorem brokenLedger_reachable : Reachable demoSum brokenLedger := by
  have hr := runTxs_reachable demoSum brokenRun Ledger.empty Reachable.empty
  have heq : runTxs demoSum Ledger.empty brokenRun = brokenLedger := by decide
  rw [heq] at hr
  exact hr

/-- C9, as amended. On a stub whose reads and writes succeed and whose ledger
is reachable from the empty ledger: if the caller `id` is enrolled and owns the
asset stored under `a`, the `ID()` of that asset is `a`, and `p` is the decimal
form of the `int` `v`, then `sell [a, p]` succeeds; afterwards `GetAsset` at `a`
returns that asset with price `v` and on sale, its name and owner as they were;
the records under all other asset keys and all trader records are as they were. -/
theorem sell_lists (h : List UInt8 → List UInt8) (stub : Stub) (a p id : GoString) (v : Int)
    (t : Trader) (asset : Asset)
    (hreach : Reachable h stub.ledger)
    (hreads : stub.readsOk) (hwrites : stub.writesOk) (hid : getID h stub = .ok id)
    (ht : getRec id stub.ledger.traders = some t)
    (ha : getRec a stub.ledger.assets = some asset) (hown : asset.owner = id)
    (hkey : Asset.ID h asset = a)
    (hp : atoi p = .ok v) :
    (sell h stub [a, p]).1 = .ok () ∧
    GetAsset (sell h stub [a, p]).2 a
      = .ok (some { name := asset.name, price := v, owner := asset.owner, forSale := true }) ∧
    (∀ k, k ≠ a →
      getRec k (sell h stub [a, p]).2.ledger.assets = getRec k stub.ledger.assets) ∧
    (sell h stub [a, p]).2.ledger.traders = stub.ledger.traders := by
  have haj : asset.json = asset := hreach.assetsJson (a, asset) (getRec_mem _ _ _ ha)
  have hva : validAttr a = true := by
    rw [← hkey]
    exact validAttr_hexEncode _
  have hvi : validAttr id = true := getID_validAttr hid
  have hck : CreateCompositeKey a = .ok a := CreateCompositeKey_ok hva
  subst hown
  have hrun : sell h stub [a, p] = (.ok (), { stub with ledger :=
      { stub.ledger with assets :=
          (putRec a { asset with price := v, forSale := true } stub.ledger.assets) } }) := by
    have hidn : Asset.ID h { asset with price := v, forSale := true } = a := hkey
    simp [sell, hp, hid, GetTrader_of hreads hvi, hck, Stub.GetAssetState, hreads _, ht, ha,
      Asset.Store, Stub.PutAssetState, hwrites _, hidn, Asset.json_update _ _ _ haj]
  rw [hrun]
  refine ⟨rfl, ?_, ?_, rfl⟩
  · have hr := hreads (.asset a)
    simp [GetAsset, hck, Stub.GetAssetState, hr, getRec_putRec_self]
  · intro k hk
    exact getRec_putRec_ne _ _ _ _ hk

/-- C9, a concrete instance: on the reachable ledger of the examples the first
submitter puts `Bike` on sale at 700. -/
theorem sell_lists_witness :
    (sell demoSum (reliableStub aliceCred (marketLedger minInt))
      [bytesOf "42696b65", bytesOf "700"]).1 = .ok () ∧
    GetAsset (sell demoSum (reliableStub aliceCred (marketLedger minInt))
        [bytesOf "42696b65", bytesOf "700"]).2 (bytesOf "42696b65")
      = .ok (some { name := bytesOf "Bike", price := 700, owner := bytesOf "41",
                    forSale := true }) :=
  have key := sell_lists demoSum (reliableStub aliceCred (marketLedger minInt))
      (bytesOf "42696b65") (bytesOf "700") (bytesOf "41") 700
      { name := bytesOf "alice", id := bytesOf "41", balance := 10000 }
      { name := bytesOf "Bike", price := minInt, owner := bytesOf "41", forSale := true }
      marketLedger_minInt_reachable (fun _ => rfl) (fun _ => rfl) (by decide) (by decide)
      (by decide) rfl (by decide) (by decide)
  ⟨key.1, key.2.1⟩

/-- C9 as stated fails at two inputs. (1) On the reachable ledger where the
first submitter has created an asset under the name `brokenName`, the record is
stored under the identifier of `brokenName` and carries the name `replacedName`.
The first submitter, enrolled, owns it; `sell` with that identifier and the price
`5` succeeds, but the record under that identifier is as it was (price 0, not on
sale), and a record appears under the identifier of `replacedName`, where there
was none. (2) On the reachable ledger of the examples the first submitter owns
`Bike`; with the decimal integer `9223372036854775808` as price `sell` returns the
error of `strconv.Atoi`. -/
theorem sell_lists_counterexample :
    (Reachable demoSum brokenLedger ∧
      getID demoSum (reliableStub aliceCred brokenLedger) = .ok (bytesOf "41") ∧
      getRec (bytesOf "41") brokenLedger.traders
        = some { name := bytesOf "alice", id := bytesOf "41", balance := 10000 } ∧
      getRec (assetId demoSum brokenName) brokenLedger.assets
        = some { name := replacedName, price := 0, owner := bytesOf "41", forSale := false } ∧
      (sell demoSum (reliableStub aliceCred brokenLedger)
        [assetId demoSum brokenName, bytesOf "5"]).1 = .ok () ∧
      GetAsset (sell demoSum (reliableStub aliceCred brokenLedger)
          [assetId demoSum brokenName, bytesOf "5"]).2 (assetId demoSum brokenName)
        = .ok (some { name := replacedName, price := 0, owner := bytesOf "41",
                      forSale := false }) ∧
      getRec (assetId demoSum replacedName) brokenLedger.assets = Option.none ∧
      getRec (assetId demoSum replacedName) (sell demoSum (reliableStub aliceCred brokenLedger)
          [assetId demoSum brokenName, bytesOf "5"]).2.ledger.assets
        = some { name := replacedName, price := 5, owner := bytesOf "41", forSale := true }) ∧
    (Reachable demoSum (marketLedger 500) ∧
      getRec (bytesOf "42696b65") (marketLedger 500).assets
        = some { name := bytesOf "Bike", price := 500, owner := bytesOf "41",
                 forSale := true } ∧
      (sell demoSum (reliableStub aliceCred (marketLedger 500))
        [bytesOf "42696b65", bytesOf "9223372036854775808"]).1
        = .error (.atoi (bytesOf "9223372036854775808")) ∧
      GetAsset (sell demoSum (reliableStub aliceCred (marketLedger 500))
          [bytesOf "42696b65", bytesOf "9223372036854775808"]).2 (bytesOf "42696b65")
        = .ok (some { name := bytesOf "Bike", price := 500, owner := bytesOf "41",
                      forSale := true })) := by
  refine ⟨⟨brokenLedger_reachable, ?_⟩, ⟨marketLedger_500_reachable, ?_⟩⟩
  · decide
  · decide

/-- C10, as amended. On a stub whose reads succeed, for an enrolled caller
`id`, `p` the decimal form of an `int` and `a` a string `CreateCompositeKey`
accepts (valid UTF-8 without U+0000 and U+10FFFF): `sell [a, p]` returns the error
`asset does not exist` when no asset is stored under `a`, and the error
`asset does not belong to you` when the asset stored under `a` has an owner other
than `id`; in both cases the stub is as it was. For an `a` that
`CreateCompositeKey` refuses, `sell` returns that error and the stub is as it
was. -/
theorem sell_rejects (h : List UInt8 → List UInt8) (stub : Stub) (a p id : GoString) (v : Int)
    (t : Trader) (hreads : stub.readsOk) (hid : getID h stub = .ok id)
    (ht : getRec id stub.ledger.traders = some t) (hp : atoi p = .ok v) :
    (validAttr a = true → getRec a stub.ledger.assets = Option.none →
      sell h stub [a, p] = (.error (.msg (bytesOf "asset does not exist")), stub)) ∧
    (validAttr a = true → ∀ asset, getRec a stub.ledger.assets = some asset →
      asset.owner ≠ id →
      sell h stub [a, p] = (.error (.msg (bytesOf "asset does not belong to you")), stub)) ∧
    (validAttr a = false → sell h stub [a, p] = (.error (.compositeKey a), stub)) := by
  have hvi : validAttr id = true := getID_validAttr hid
  refine ⟨?_, ?_, ?_⟩
  · intro hva ha
    simp [sell, hp, hid, GetTrader_of hreads hvi, CreateCompositeKey_ok hva,
      Stub.GetAssetState, hreads _, ht, ha]
  · intro hva asset ha hown
    simp [sell, hp, hid, GetTrader_of hreads hvi, CreateCompositeKey_ok hva,
      Stub.GetAssetState, hreads _, ht, ha, hown]
  · intro hva
    simp [sell, hp, hid, GetTrader_of hreads hvi, CreateCompositeKey_bad hva, ht]

/-- C10, a concrete instance: the second submitter tries to put the first
submitter's `Bike` on sale. -/
theorem sell_rejects_witness :
    sell demoSum (reliableStub bobCred (marketLedger 500)) [bytesOf "42696b65", bytesOf "1"]
      = (.error (.msg (bytesOf "asset does not belong to you")),
        reliableStub bobCred (marketLedger 500)) :=
  (sell_rejects demoSum (reliableStub bobCred (marketLedger 500)) (bytesOf "42696b65")
    (bytesOf "1") (bytesOf "42") 1
    { name := bytesOf "bob", id := bytesOf "42", balance := 10000 } (fun _ => rfl) (by decide)
    (by decide) (by decide)).2.1 (by decide)
    { name := bytesOf "Bike", price := 500, owner := bytesOf "41", forSale := true }
    (by decide) (by decide)

/-- C10 as stated fails at three inputs, each by an enrolled caller on the
reachable ledger of the examples. With a price parameter that is not a decimal
`int`, `sell` returns the error of `strconv.Atoi`, whether no asset is stored
under the id (first line) or the asset stored there belongs to someone else
(second line). With the identifier `nulId`, which holds U+0000 and under which no
asset is stored, and the price `5`, `sell` returns the error of
`CreateCompositeKey` (third line). -/
theorem sell_rejects_counterexample :
    (getRec (bytesOf "41") (marketLedger 500).traders
        = some { name := bytesOf "alice", id := bytesOf "41", balance := 10000 } ∧
      getRec (bytesOf "0000") (marketLedger 500).assets = Option.none ∧
      (sell demoSum (reliableStub aliceCred (marketLedger 500))
        [bytesOf "0000", bytesOf "abc"]).1 = .error (.atoi (bytesOf "abc")) ∧
      Err.atoi (bytesOf "abc") ≠ Err.msg (bytesOf "asset does not exist")) ∧
    (getRec (bytesOf "42") (marketLedger 500).traders
        = some { name := bytesOf "bob", id := bytesOf "42", balance := 10000 } ∧
      getRec (bytesOf "42696b65") (marketLedger 500).assets
        = some { name := bytesOf "Bike", price := 500, owner := bytesOf "41",
                 forSale := true } ∧
      (sell demoSum (reliableStub bobCred (marketLedger 500))
        [bytesOf "42696b65", bytesOf "12.5"]).1 = .error (.atoi (bytesOf "12.5")) ∧
      Err.atoi (bytesOf "12.5") ≠ Err.msg (bytesOf "asset does not belong to you")) ∧
    (Reachable demoSum (marketLedger 500) ∧
      getRec nulId (marketLedger 500).assets = Option.none ∧
      (sell demoSum (reliableStub aliceCred (marketLedger 500)) [nulId, bytesOf "5"]).1
        = .error (.compositeKey nulId) ∧
      Err.compositeKey nulId ≠ Err.msg (bytesOf "asset does not exist")) := by
  refine ⟨by decide, by decide, marketLedger_500_reachable, ?_⟩
  decide

/-! ## Callers that are not enrolled; parameter lists of the wrong length -/

/-- C11. On a stub whose reads succeed and whose ledger holds no trader record
under the caller's identifier: `create [n]`, `sell [a, p]` (with `p` the decimal
form of an `int`), `buy [a]` and `list` each return a trader-not-found error
(`trader not exist`, for `buy` the message is `buyer not exist`) and leave the
stub as it was. -/
theorem not_enrolled_rejected (h : List UInt8 → List UInt8) (stub : Stub)
    (id n a p : GoString) (v : Int)
    (hreads : stub.readsOk) (hid : getID h stub = .ok id)
    (hnone : getRec id stub.ledger.traders = Option.none) (hp : atoi p = .ok v) :
    create h stub [n] = (.error (.msg (bytesOf "trader not exist")), stub) ∧
    sell h stub [a, p] = (.error (.msg (bytesOf "trader not exist")), stub) ∧
    buy h stub [a] = (.error (.msg (bytesOf "buyer not exist")), stub) ∧
    list h stub = .error (.msg (bytesOf "trader not exist")) ∧
    ListCmd h stub = (.error (.msg (bytesOf "trader not exist")), stub) := by
  have hvi : validAttr id = true := getID_validAttr hid
  have hl : list h stub = .error (.msg (bytesOf "trader not exist")) := by
    simp [list, hid, GetTrader_of hreads hvi, hnone]
  refine ⟨?_, ?_, ?_, hl, ?_⟩
  · simp [create, hid, GetTrader_of hreads hvi, hnone]
  · simp [sell, hp, hid, GetTrader_of hreads hvi, hnone]
  · simp [buy, hid, GetTrader_of hreads hvi, hnone]
  · simp [ListCmd, hl]

/-- C11, a concrete instance: the second submitter, not enrolled, on a ledger
that holds only the first submitter and its `Bike`. -/
theorem not_enrolled_rejected_witness :
    create demoSum (reliableStub bobCred
        { marketLedger 500 with traders :=
            [(bytesOf "41", { name := bytesOf "alice", id := bytesOf "41", balance := 10000 })] })
        [bytesOf "Chair"]
      = (.error (.msg (bytesOf "trader not exist")), reliableStub bobCred
        { marketLedger 500 with traders :=
            [(bytesOf "41", { name := bytesOf "alice", id := bytesOf "41", balance := 10000 })] }) ∧
    buy demoSum (reliableStub bobCred
        { marketLedger 500 with traders :=
            [(bytesOf "41", { name := bytesOf "alice", id := bytesOf "41", balance := 10000 })] })
        [bytesOf "42696b65"]
      = (.error (.msg (bytesOf "buyer not exist")), reliableStub bobCred
        { marketLedger 500 with traders :=
            [(bytesOf "41", { name := bytesOf "alice", id := bytesOf "41", balance := 10000 })] }) :=
  have key := not_enrolled_rejected demoSum (reliableStub bobCred
      { marketLedger 500 with traders :=
          [(bytesOf "41", { name := bytesOf "alice", id := bytesOf "41", balance := 10000 })] })
      (bytesOf "42") (bytesOf "Chair") (bytesOf "42696b65") (bytesOf "7") 7 (fun _ => rfl)
      (by decide) (by decide) (by decide)
  ⟨key.1, key.2.2.1⟩

/-- C18. Whatever the stub, also one on which every platform call fails: a
parameter list whose length is not 1 makes `enroll`, `create` and `buy` return
their arity error, one whose length is not 2 makes `sell` return its arity error,
and the stub is as it was. No platform call is involved: the answer is the same
on every stub. -/
theorem wrong_arity_rejected (h : List UInt8 → List UInt8) (stub : Stub)
    (params : List GoString) :
    (params.length ≠ 1 →
      enroll h stub params
        = (.error (.msg (bytesOf "expect 1 parameter (Name), but got "
            ++ bytesOf (toString params.length) ++ bytesOf ": ["
            ++ List.intercalate (bytesOf " ") params ++ bytesOf "]")), stub)) ∧
    (params.length ≠ 1 →
      create h stub params
        = (.error (.msg (bytesOf "expect 1 parameter, got "
            ++ bytesOf (toString params.length))), stub)) ∧
    (params.length ≠ 2 →
      sell h stub params
        = (.error (.msg (bytesOf "expect 2 params, got "
            ++ bytesOf (toString params.length))), stub)) ∧
    (params.length ≠ 1 →
      buy h stub params
        = (.error (.msg (bytesOf "expect 1 param, got "
            ++ bytesOf (toString params.length))), stub)) := by
  refine ⟨?_, ?_, ?_, buy_arity h stub params⟩
  · intro hlen
    unfold enroll
    split
    · simp at hlen
    · rfl
  · intro hlen
    unfold create
    split
    · simp at hlen
    · rfl
  · intro hlen
    unfold sell
    split
    · simp at hlen
    · rfl

/-! ## The successful runs of the operations -/

theorem GetTraderState_some {stub : Stub} {k : GoString} {o : Option Trader}
    (hget : stub.GetTraderState k = .ok o) : getRec k stub.ledger.traders = o := by
  unfold Stub.GetTraderState at hget
  split at hget
  · cases hget
  · cases hget
    rfl

theorem GetAssetState_some {stub : Stub} {k : GoString} {o : Option Asset}
    (hget : stub.GetAssetState k = .ok o) : getRec k stub.ledger.assets = o := by
  unfold Stub.GetAssetState at hget
  split at hget
  · cases hget
  · cases hget
    rfl

theorem GetTrader_ok {stub : Stub} {k : GoString} {o : Option Trader}
    (hget : GetTrader stub k = .ok o) : getRec k stub.ledger.traders = o := by
  unfold GetTrader at hget
  split at hget
  · cases hget
  · rename_i key hk
    obtain ⟨rfl, _⟩ := CreateCompositeKey_eq_ok hk
    exact GetTraderState_some hget

/-- A successful `enroll`: one parameter, no record under the caller's
identifier, and the new record, in JSON form, written under it. -/
theorem enroll_ok (h : List UInt8 → List UInt8) (stub : Stub) (params : List GoString)
    (hok : (enroll h stub params).1 = .ok ()) :
    ∃ name id, params = [name] ∧ getID h stub = .ok id ∧
      getRec id stub.ledger.traders = Option.none ∧
      (enroll h stub params).2.ledger
        = { stub.ledger with traders :=
            (putRec id { name := jsonString name, id := id, balance := 10000 }
              stub.ledger.traders) } := by
  rcases params with _ | ⟨name, _ | ⟨x, xs⟩⟩
  · simp [enroll] at hok
  · cases hid : getID h stub with
    | error e => simp [enroll, hid] at hok
    | ok id =>
    have hvi : validAttr id = true := getID_validAttr hid
    have hck : CreateCompositeKey id = .ok id := CreateCompositeKey_ok hvi
    cases hg : stub.GetTraderState id with
    | error e => simp [enroll, hid, hck, hg] at hok
    | ok o =>
    cases o with
    | some t => simp [enroll, hid, hck, hg] at hok
    | none =>
    cases hst : Trader.Store { name := name, id := id, balance := 10000 } stub with
    | error e => simp [enroll, hid, hck, hg, hst] at hok
    | ok stub1 =>
      refine ⟨name, id, rfl, rfl, GetTraderState_some hg, ?_⟩
      have hl := (traderStore_ledger _ _ _ hst).2
      have hrun : (enroll h stub [name]).2 = stub1 := by
        simp [enroll, hid, hck, hg, hst]
      rw [hrun, hl]
      simp [Trader.json, jsonString_of_validAttr _ hvi]
  · simp [enroll] at hok

/-- A successful `create`: one parameter, the caller enrolled, and the new
record, in JSON form, written under the identifier of the name given. -/
theorem create_ok (h : List UInt8 → List UInt8) (stub : Stub) (params : List GoString)
    (hok : (create h stub params).1 = .ok ()) :
    ∃ name id t, params = [name] ∧ getID h stub = .ok id ∧
      getRec id stub.ledger.traders = some t ∧
      (create h stub params).2.ledger
        = { stub.ledger with assets :=
            (putRec (assetId h name)
              { name := jsonString name, price := 0, owner := id, forSale := false }
              stub.ledger.assets) } := by
  rcases params with _ | ⟨name, _ | ⟨x, xs⟩⟩
  · simp [create] at hok
  · cases hid : getID h stub with
    | error e => simp [create, hid] at hok
    | ok id =>
    have hvi : validAttr id = true := getID_validAttr hid
    cases hg : GetTrader stub id with
    | error e => simp [create, hid, hg] at hok
    | ok o =>
    cases o with
    | none => simp [create, hid, hg] at hok
    | some t =>
    cases hst : Asset.Store h { name := name, price := 0, owner := id, forSale := false }
        stub with
    | error e => simp [create, hid, hg, hst] at hok
    | ok stub1 =>
      refine ⟨name, id, t, rfl, rfl, GetTrader_some hg, ?_⟩
      have hl := assetStore_ledger h _ _ _ hst
      have hrun : (create h stub [name]).2 = stub1 := by
        simp [create, hid, hg, hst]
      rw [hrun, hl]
      simp [Asset.json, jsonString_of_validAttr _ hvi, assetId, Asset.ID]
  · simp [create] at hok

/-- A successful `sell`: two parameters, the price parsed, the caller enrolled
and owner of the asset read under the first parameter, and that asset, with the
new price and on sale, written in JSON form under the key of its own content. -/
theorem sell_ok (h : List UInt8 → List UInt8) (stub : Stub) (params : List GoString)
    (hok : (sell h stub params).1 = .ok ()) :
    ∃ a p price id t asset, params = [a, p] ∧ atoi p = .ok price ∧ getID h stub = .ok id ∧
      getRec id stub.ledger.traders = some t ∧ validAttr a = true ∧
      getRec a stub.ledger.assets = some asset ∧ asset.owner = id ∧
      (sell h stub params).2.ledger
        = { stub.ledger with assets :=
            (putRec (Asset.ID h asset) (Asset.json { asset with price := price, forSale := true })
              stub.ledger.assets) } := by
  rcases params with _ | ⟨a, _ | ⟨p, _ | ⟨x, xs⟩⟩⟩
  · simp [sell] at hok
  · simp [sell] at hok
  · cases hp : atoi p with
    | error e => simp [sell, hp] at hok
    | ok price =>
    cases hid : getID h stub with
    | error e => simp [sell, hp, hid] at hok
    | ok id =>
    cases hb : GetTrader stub id with
    | error e => simp [sell, hp, hid, hb] at hok
    | ok ob =>
    cases ob with
    | none => simp [sell, hp, hid, hb] at hok
    | some t =>
    cases hva : validAttr a with
    | false => simp [sell, hp, hid, hb, CreateCompositeKey_bad hva] at hok
    | true =>
    have hck : CreateCompositeKey a = .ok a := CreateCompositeKey_ok hva
    cases ha : stub.GetAssetState a with
    | error e => simp [sell, hp, hid, hb, hck, ha] at hok
    | ok oa =>
    cases oa with
    | none => simp [sell, hp, hid, hb, hck, ha] at hok
    | some asset =>
    by_cases hown : asset.owner = id
    · subst hown
      cases hst : Asset.Store h { asset with price := price, forSale := true } stub with
      | error e => simp [sell, hp, hid, hb, hck, ha, hst] at hok
      | ok stub1 =>
        refine ⟨a, p, price, asset.owner, t, asset, rfl, hp, rfl, GetTrader_some hb, hva,
          GetAssetState_some ha, rfl, ?_⟩
        have hl := assetStore_ledger h _ _ _ hst
        have hrun : (sell h stub [a, p]).2 = stub1 := by
          simp [sell, hp, hid, hb, hck, ha, hst]
        rw [hrun, hl]
        rfl
    · simp [sell, hp, hid, hb, hck, ha, hown] at hok
  · simp [sell] at hok

/-- A successful `buy`: one parameter, the checks passed, and the three writes
done. -/
theorem buy_ok (h : List UInt8 → List UInt8) (stub : Stub) (params : List GoString)
    (hok : (buy h stub params).1 = .ok ()) :
    ∃ a idB b s asset, params = [a] ∧ BuyChecksPass h stub a idB b s asset ∧
      validAttr b.id = true ∧ validAttr s.id = true ∧
      (buy h stub params).2 = afterBuy h stub b s asset := by
  by_cases hlen : params.length = 1
  · obtain ⟨a, rfl⟩ := List.length_eq_one.mp hlen
    rcases buy_cases h stub a with ⟨e, he⟩ | ⟨idB, b, s, asset, hpass, hvb, _, hrun⟩
    · rw [he] at hok
      cases hok
    · rcases hrun with ⟨_, hr⟩ | ⟨_, _, hr⟩ | ⟨_, _, _, hr⟩ | ⟨hvs, _, _, hr⟩
      · rw [hr] at hok
        cases hok
      · rw [hr] at hok
        cases hok
      · rw [hr] at hok
        cases hok
      · exact ⟨a, idB, b, s, asset, rfl, hpass, hvb, hvs, by rw [hr]⟩
  · rw [buy_arity h stub params hlen] at hok
    cases hok

/-- With working writes, on a ledger whose trader records are keyed by their
`ID` field, a `buy` that returns an error leaves the stub as it was. -/
theorem buy_error_unchanged (h : List UInt8 → List UInt8) (stub : Stub)
    (params : List GoString) (e : Err) (hwrites : stub.writesOk)
    (hk : TradersKeyed stub.ledger) (he : (buy h stub params).1 = .error e) :
    (buy h stub params).2 = stub := by
  by_cases hlen : params.length = 1
  · obtain ⟨a, rfl⟩ := List.length_eq_one.mp hlen
    rcases buy_cases h stub a with ⟨e', he'⟩ | ⟨idB, b, s, asset, hpass, _, _, hrun⟩
    · rw [he']
    · exfalso
      obtain ⟨_, _, _, _, _, _, hs⟩ := hpass
      obtain ⟨_, hsid, hvs⟩ := hk.trader (GetTrader_some hs)
      rcases hrun with ⟨hv, _⟩ | ⟨_, hw, _⟩ | ⟨_, _, hw, _⟩ | ⟨_, _, _, hr⟩
      · rw [hsid, hvs] at hv
        cases hv
      · rw [hwrites _] at hw
        cases hw
      · rw [hwrites _] at hw
        cases hw
      · rw [hr] at he
        cases he
  · rw [buy_arity h stub params hlen]

/-- A `buy` that returns an error leaves the asset records as they were. -/
theorem buy_error_assets (h : List UInt8 → List UInt8) (stub : Stub)
    (params : List GoString) (e : Err) (he : (buy h stub params).1 = .error e) :
    (buy h stub params).2.ledger.assets = stub.ledger.assets := by
  by_cases hlen : params.length = 1
  · obtain ⟨a, rfl⟩ := List.length_eq_one.mp hlen
    rcases buy_cases h stub a with ⟨e', he'⟩ | ⟨idB, b, s, asset, _, _, _, hrun⟩
    · rw [he']
    · rcases hrun with ⟨_, hr⟩ | ⟨_, _, hr⟩ | ⟨_, _, _, hr⟩ | ⟨_, _, _, hr⟩
      · rw [hr]
        rfl
      · rw [hr]
        rfl
      · rw [hr]
        rfl
      · rw [hr] at he
        cases he
  · rw [buy_arity h stub params hlen]

/-! ## One transaction on the reliable platform -/

theorem getID_reliable (h : List UInt8 → List UInt8) (creator : List UInt8) (l : Ledger) :
    getID h (reliableStub creator l) = .ok (hexEncode (h creator)) := by
  simp [getID, Stub.GetCreator, reliableStub, Faults.none]

/-- What one invocation on the reliable platform does: it returns an error and
leaves the asset records (and, when the trader records are keyed by their `ID`
field, the whole ledger) as they were; or it is a `list`, which changes nothing;
or it is a successful `enroll`, `create` or `sell` with its one write, or a
successful `buy` with its three writes. -/
theorem Invoke_reliable_cases (h : List UInt8 → List UInt8) (creator : List UInt8)
    (l : Ledger) (fcn : GoString) (params : List GoString) :
    ((∃ e, (Invoke h (reliableStub creator l) fcn params).1 = .error e) ∧
      (Invoke h (reliableStub creator l) fcn params).2.ledger.assets = l.assets ∧
      (TradersKeyed l → (Invoke h (reliableStub creator l) fcn params).2.ledger = l)) ∨
    (fcn = bytesOf "list" ∧
      (∃ s, (Invoke h (reliableStub creator l) fcn params).1 = .success (some s)) ∧
      (Invoke h (reliableStub creator l) fcn params).2.ledger = l) ∨
    (∃ name, fcn = bytesOf "enroll" ∧ params = [name] ∧
      (Invoke h (reliableStub creator l) fcn params).1 = .success Option.none ∧
      getRec (hexEncode (h creator)) l.traders = Option.none ∧
      (Invoke h (reliableStub creator l) fcn params).2.ledger
        = { l with traders :=
            (putRec (hexEncode (h creator))
              { name := jsonString name, id := hexEncode (h creator), balance := 10000 }
              l.traders) }) ∨
    (∃ name t, fcn = bytesOf "create" ∧ params = [name] ∧
      (Invoke h (reliableStub creator l) fcn params).1 = .success Option.none ∧
      getRec (hexEncode (h creator)) l.traders = some t ∧
      (Invoke h (reliableStub creator l) fcn params).2.ledger
        = { l with assets :=
            (putRec (assetId h name)
              { name := jsonString name, price := 0, owner := hexEncode (h creator),
                forSale := false }
              l.assets) }) ∨
    (∃ a p price t asset, fcn = bytesOf "sell" ∧ params = [a, p] ∧ atoi p = .ok price ∧
      (Invoke h (reliableStub creator l) fcn params).1 = .success Option.none ∧
      getRec (hexEncode (h creator)) l.traders = some t ∧
      getRec a l.assets = some asset ∧ asset.owner = hexEncode (h creator) ∧
      (Invoke h (reliableStub creator l) fcn params).2.ledger
        = { l with assets :=
            (putRec (Asset.ID h asset) (Asset.json { asset with price := price, forSale := true })
              l.assets) }) ∨
    (∃ a b s asset, fcn = bytesOf "buy" ∧ params = [a] ∧
      (Invoke h (reliableStub creator l) fcn params).1 = .success Option.none ∧
      getRec (hexEncode (h creator)) l.traders = some b ∧
      getRec a l.assets = some asset ∧ asset.owner ≠ hexEncode (h creator) ∧
      asset.forSale = true ∧ asset.price ≤ b.balance ∧
      getRec asset.owner l.traders = some s ∧ validAttr asset.owner = true ∧
      (Invoke h (reliableStub creator l) fcn params).2.ledger
        = (afterBuy h (reliableStub creator l) b s asset).ledger) := by
  have hwr : (reliableStub creator l).writesOk := fun _ => rfl
  have hid := getID_reliable h creator l
  have hled : (reliableStub creator l).ledger = l := rfl
  unfold Invoke
  by_cases h1 : fcn = bytesOf "enroll"
  · subst h1
    simp only [if_true, Enroll]
    cases hr : (enroll h (reliableStub creator l) params).1 with
    | error e =>
      left
      have hu := enroll_error_unchanged h _ params e hr
      refine ⟨⟨e, (respond_error _ e).mpr hr⟩, ?_, fun _ => ?_⟩
      · rw [respond_stub, hu]
        rfl
      · rw [respond_stub, hu]
        rfl
    | ok u =>
      right; right; left
      obtain ⟨name, id, hp, hid', hnone, hl⟩ := enroll_ok h _ params hr
      rw [hid] at hid'
      cases hid'
      exact ⟨name, by first | rfl | trivial, hp, (respond_success _).mpr hr, hnone,
        by rw [respond_stub, hl]; rfl⟩
  by_cases h2 : fcn = bytesOf "list"
  · subst h2
    simp only [h1, if_false, if_true]
    cases hr : list h (reliableStub creator l) with
    | error e =>
      left
      exact ⟨⟨e, by simp [ListCmd, hr]⟩, by rw [ListCmd_unchanged]; rfl,
        fun _ => by rw [ListCmd_unchanged]; rfl⟩
    | ok s =>
      right; left
      exact ⟨by first | rfl | trivial, ⟨s, by simp [ListCmd, hr]⟩,
        by rw [ListCmd_unchanged]; rfl⟩
  by_cases h3 : fcn = bytesOf "create"
  · subst h3
    simp only [h1, h2, if_false, if_true, Create]
    cases hr : (create h (reliableStub creator l) params).1 with
    | error e =>
      left
      have hu := create_error_unchanged h _ params e hr
      refine ⟨⟨e, (respond_error _ e).mpr hr⟩, ?_, fun _ => ?_⟩
      · rw [respond_stub, hu]
        rfl
      · rw [respond_stub, hu]
        rfl
    | ok u =>
      right; right; right; left
      obtain ⟨name, id, t, hp, hid', ht, hl⟩ := create_ok h _ params hr
      rw [hid] at hid'
      cases hid'
      exact ⟨name, t, by first | rfl | trivial, hp, (respond_success _).mpr hr, ht,
        by rw [respond_stub, hl]; rfl⟩
  by_cases h4 : fcn = bytesOf "sell"
  · subst h4
    simp only [h1, h2, h3, if_false, if_true, Sell]
    cases hr : (sell h (reliableStub creator l) params).1 with
    | error e =>
      left
      have hu := sell_error_unchanged h _ params e hr
      refine ⟨⟨e, (respond_error _ e).mpr hr⟩, ?_, fun _ => ?_⟩
      · rw [respond_stub, hu]
        rfl
      · rw [respond_stub, hu]
        rfl
    | ok u =>
      right; right; right; right; left
      obtain ⟨a, p, price, id, t, asset, hp, hpr, hid', ht, _, ha, hown, hl⟩ :=
        sell_ok h _ params hr
      rw [hid] at hid'
      cases hid'
      exact ⟨a, p, price, t, asset, by first | rfl | trivial, hp, hpr,
        (respond_success _).mpr hr, ht, ha, hown, by rw [respond_stub, hl]; rfl⟩
  by_cases h5 : fcn = bytesOf "buy"
  · subst h5
    simp only [h1, h2, h3, h4, if_false, if_true, Buy]
    cases hr : (buy h (reliableStub creator l) params).1 with
    | error e =>
      left
      refine ⟨⟨e, (respond_error _ e).mpr hr⟩, ?_, fun hk => ?_⟩
      · rw [respond_stub, buy_error_assets h _ params e hr]
        rfl
      · rw [respond_stub, buy_error_unchanged h _ params e hwr hk hr]
        rfl
    | ok u =>
      right; right; right; right; right
      obtain ⟨a, idB, b, s, asset, hp, hpass, _, _, hl⟩ := buy_ok h _ params hr
      obtain ⟨hid', hb, ha, hown, hsale, hbal, hs⟩ := hpass
      rw [hid] at hid'
      cases hid'
      exact ⟨a, b, s, asset, by first | rfl | trivial, hp, (respond_success _).mpr hr,
        GetTrader_some hb, GetAsset_some ha, hown, hsale, hbal, GetTrader_some hs,
        GetTrader_valid hs, by rw [respond_stub, hl]⟩
  · left
    simp only [h1, h2, h3, h4, h5, if_false]
    exact ⟨⟨_, rfl⟩, rfl, fun _ => rfl⟩

theorem Invoke_enroll (h : List UInt8 → List UInt8) (stub : Stub) (params : List GoString) :
    Invoke h stub (bytesOf "enroll") params = Enroll h stub params := by
  unfold Invoke
  rw [if_pos rfl]

theorem Invoke_list (h : List UInt8 → List UInt8) (stub : Stub) (params : List GoString) :
    Invoke h stub (bytesOf "list") params = ListCmd h stub := by
  unfold Invoke
  rw [if_neg (by decide), if_pos rfl]

theorem Invoke_create (h : List UInt8 → List UInt8) (stub : Stub) (params : List GoString) :
    Invoke h stub (bytesOf "create") params = Create h stub params := by
  unfold Invoke
  rw [if_neg (by decide), if_neg (by decide), if_pos rfl]

theorem Invoke_sell (h : List UInt8 → List UInt8) (stub : Stub) (params : List GoString) :
    Invoke h stub (bytesOf "sell") params = Sell h stub params := by
  unfold Invoke
  rw [if_neg (by decide), if_neg (by decide), if_neg (by decide), if_pos rfl]

theorem Invoke_buy (h : List UInt8 → List UInt8) (stub : Stub) (params : List GoString) :
    Invoke h stub (bytesOf "buy") params = Buy h stub params := by
  unfold Invoke
  rw [if_neg (by decide), if_neg (by decide), if_neg (by decide), if_neg (by decide),
    if_pos rfl]

/-! ## Prices and balances below zero -/

/-- C13, what the code does. Whatever the digest and the submitter: the
submitter enrolls, creates `Bike` and puts it on sale with the price parameter
`-5`; all three transactions succeed, and the ledger they produce, reachable from
the empty one, stores `Bike` with price `-5`. `sell` stores whatever `int`
`strconv.Atoi` returns and has no check of its sign. -/
theorem sell_stores_negative_price (h : List UInt8 → List UInt8) (creator : List UInt8) :
    Reachable h (runTxs h Ledger.empty
      [{ creator := creator, fcn := bytesOf "enroll", params := [bytesOf "alice"] },
       { creator := creator, fcn := bytesOf "create", params := [bytesOf "Bike"] },
       { creator := creator, fcn := bytesOf "sell", params :=
          [assetId h (bytesOf "Bike"), bytesOf "-5"] }]) ∧
    (runTxs h Ledger.empty
      [{ creator := creator, fcn := bytesOf "enroll", params := [bytesOf "alice"] },
       { creator := creator, fcn := bytesOf "create", params := [bytesOf "Bike"] },
       { creator := creator, fcn := bytesOf "sell", params :=
          [assetId h (bytesOf "Bike"), bytesOf "-5"] }]).assets
      = [(assetId h (bytesOf "Bike"),
          { name := bytesOf "Bike", price := -5, owner := hexEncode (h creator),
            forSale := true })] ∧
    (-5 : Int) < 0 := by
  refine ⟨runTxs_reachable h _ _ Reachable.empty, ?_, by decide⟩
  have hp : atoi (bytesOf "-5") = .ok (-5) := by decide
  have hj1 : jsonString (bytesOf "alice") = bytesOf "alice" := by decide
  have hj2 : jsonString (bytesOf "Bike") = bytesOf "Bike" := by decide
  simp [runTxs, Invoke_enroll, Invoke_create, Invoke_sell, Enroll, Create, Sell, respond, enroll,
    create, sell, getID, Stub.GetCreator, Faults.none, GetTrader, CreateCompositeKey,
    validAttr_hexEncode, Stub.GetTraderState, Stub.GetAssetState, Trader.Store, Asset.Store,
    Stub.PutTraderState, Stub.PutAssetState, Ledger.empty, getRec, putRec, hp, Asset.ID, assetId,
    Trader.json, Asset.json, jsonString_hexEncode, hj1, hj2]

/-- C12, what the code does. Whatever the digest, for two submitters with
different identifiers: the first enrolls, creates `Bike` and puts it on sale with
the price parameter `-20000`; the second enrolls and buys it. All five
transactions succeed, and in the ledger they produce, reachable from the empty
one, the first submitter's record has balance `-10000`: the check
`buyer.Balance < asset.Price` passes for every negative price, and the price is
then added to the seller's balance. -/
theorem buy_makes_balance_negative (h : List UInt8 → List UInt8) (cA cB : List UInt8)
    (hne : hexEncode (h cA) ≠ hexEncode (h cB)) :
    Reachable h (runTxs h Ledger.empty
      [{ creator := cA, fcn := bytesOf "enroll", params := [bytesOf "alice"] },
       { creator := cA, fcn := bytesOf "create", params := [bytesOf "Bike"] },
       { creator := cA, fcn := bytesOf "sell", params :=
          [assetId h (bytesOf "Bike"), bytesOf "-20000"] },
       { creator := cB, fcn := bytesOf "enroll", params := [bytesOf "bob"] },
       { creator := cB, fcn := bytesOf "buy", params := [assetId h (bytesOf "Bike")] }]) ∧
    (runTxs h Ledger.empty
      [{ creator := cA, fcn := bytesOf "enroll", params := [bytesOf "alice"] },
       { creator := cA, fcn := bytesOf "create", params := [bytesOf "Bike"] },
       { creator := cA, fcn := bytesOf "sell", params :=
          [assetId h (bytesOf "Bike"), bytesOf "-20000"] },
       { creator := cB, fcn := bytesOf "enroll", params := [bytesOf "bob"] },
       { creator := cB, fcn := bytesOf "buy", params := [assetId h (bytesOf "Bike")] }]).traders
      = [(hexEncode (h cA),
          { name := bytesOf "alice", id := hexEncode (h cA), balance := -10000 }),
         (hexEncode (h cB),
          { name := bytesOf "bob", id := hexEncode (h cB), balance := 30000 })] := by
  refine ⟨runTxs_reachable h _ _ Reachable.empty, ?_⟩
  have hp : atoi (bytesOf "-20000") = .ok (-20000) := by decide
  have hw1 : wrapInt 30000 = 30000 := by decide
  have hw2 : wrapInt (-10000) = -10000 := by decide
  have hj1 : jsonString (bytesOf "alice") = bytesOf "alice" := by decide
  have hj2 : jsonString (bytesOf "Bike") = bytesOf "Bike" := by decide
  have hj3 : jsonString (bytesOf "bob") = bytesOf "bob" := by decide
  simp [runTxs, Invoke_enroll, Invoke_create, Invoke_sell, Invoke_buy, Enroll, Create, Sell, Buy,
    respond, enroll, create, sell, buy, getID, Stub.GetCreator, Faults.none, GetTrader, GetAsset,
    CreateCompositeKey, validAttr_hexEncode, Stub.GetTraderState, Stub.GetAssetState,
    Trader.Store, Asset.Store, Stub.PutTraderState, Stub.PutAssetState, Ledger.empty,
    getRec, putRec, hp, hw1, hw2, Asset.ID, assetId, Trader.json, Asset.json,
    jsonString_hexEncode, hj1, hj2, hj3, hne, Ne.symm hne]

/-- C12, a concrete instance with the stand-in digest: the submitters are
`41` and `42`, the asset is `42696b65`. -/
theorem buy_makes_balance_negative_witness :
    hexEncode (demoSum aliceCred) ≠ hexEncode (demoSum bobCred) ∧
    getRec (bytesOf "41") (runTxs demoSum Ledger.empty
      [{ creator := aliceCred, fcn := bytesOf "enroll", params := [bytesOf "alice"] },
       { creator := aliceCred, fcn := bytesOf "create", params := [bytesOf "Bike"] },
       { creator := aliceCred, fcn := bytesOf "sell", params :=
          [assetId demoSum (bytesOf "Bike"), bytesOf "-20000"] },
       { creator := bobCred, fcn := bytesOf "enroll", params := [bytesOf "bob"] },
       { creator := bobCred, fcn := bytesOf "buy", params :=
          [assetId demoSum (bytesOf "Bike")] }]).traders
      = some { name := bytesOf "alice", id := bytesOf "41", balance := -10000 } :=
  ⟨by decide, by
    rw [(buy_makes_balance_negative demoSum aliceCred bobCred (by decide)).2]
    decide⟩

/-! ## Owners are enrolled traders -/

theorem Invoke_ownersEnrolled (h : List UInt8 → List UInt8) (creator : List UInt8)
    (l : Ledger) (fcn : GoString) (params : List GoString) (hinv : OwnersEnrolled l) :
    OwnersEnrolled (Invoke h (reliableStub creator l) fcn params).2.ledger := by
  rcases Invoke_reliable_cases h creator l fcn params with ⟨_, hla, _⟩ | ⟨_, _, hl⟩ |
    ⟨name, _, _, _, _, hl⟩ | ⟨name, t, _, _, _, ht, hl⟩ |
    ⟨a, p, price, t, asset, _, _, _, _, ht, ha, hown, hl⟩ |
    ⟨a, b, s, asset, _, _, _, hb, ha, _, _, _, hs, hvo, hl⟩
  · intro p hp
    rw [hla] at hp
    obtain ⟨t, ht⟩ := hinv p hp
    have := Invoke_preserves (fun l' => ∃ t, getRec p.2.owner l'.traders = some t) h
      (by
        intro t st st1 hP hst
        rw [(traderStore_ledger t st st1 hst).2]
        exact getRec_putRec_isSome _ _ _ _ hP)
      (by
        intro a st st1 hP hst
        rw [assetStore_ledger h a st st1 hst]
        exact hP)
      (reliableStub creator l) fcn params ⟨t, ht⟩
    exact this
  · rw [hl]
    exact hinv
  · rw [hl]
    intro p hp
    exact getRec_putRec_isSome _ _ _ _ (hinv p hp)
  · rw [hl]
    intro p hp
    rcases mem_putRec _ _ _ _ hp with hp | hp
    · rw [hp]
      exact ⟨t, ht⟩
    · exact hinv p hp
  · rw [hl]
    intro p hp
    rcases mem_putRec _ _ _ _ hp with hp | hp
    · rw [hp]
      refine ⟨t, ?_⟩
      simp only [Asset.json, hown, jsonString_hexEncode]
      exact ht
    · exact hinv p hp
  · rw [hl]
    intro p hp
    simp only [afterBuy] at hp ⊢
    apply getRec_putRec_isSome
    apply getRec_putRec_isSome
    rcases mem_putRec _ _ _ _ hp with hp | hp
    · rw [hp]
      refine ⟨s, ?_⟩
      simp only [Asset.json, jsonString_of_validAttr _ hvo]
      exact hs
    · exact hinv p hp

theorem Reachable.ownersEnrolled {h : List UInt8 → List UInt8} {l : Ledger}
    (hr : Reachable h l) : OwnersEnrolled l := by
  induction hr with
  | empty =>
    intro p hp
    simp [Ledger.empty] at hp
  | step l creator fcn params _ ih =>
    exact Invoke_ownersEnrolled h creator l fcn params ih

/-- The one way for `buy [a]` to return `seller not exist`: the asset stored
under `a` names an owner without a trader record. -/
theorem buy_seller_absent (h : List UInt8 → List UInt8) (stub : Stub) (a : GoString)
    (herr : (buy h stub [a]).1 = .error (.msg (bytesOf "seller not exist"))) :
    ∃ asset, getRec a stub.ledger.assets = some asset ∧
      getRec asset.owner stub.ledger.traders = Option.none := by
  have d1 : bytesOf "buyer not exist" ≠ bytesOf "seller not exist" := by decide
  have d2 : bytesOf "asset not exist" ≠ bytesOf "seller not exist" := by decide
  have d3 : bytesOf "cannot buy your own asset" ≠ bytesOf "seller not exist" := by decide
  have d4 : bytesOf "asset not for sale" ≠ bytesOf "seller not exist" := by decide
  have d5 : bytesOf "not enough balance" ≠ bytesOf "seller not exist" := by decide
  cases hid : getID h stub with
  | error e =>
    exfalso
    unfold getID at hid
    split at hid
    · rename_i e' hc
      unfold Stub.GetCreator at hc
      split at hc
      · cases hc
        cases hid
        simp [buy, getID, Stub.GetCreator, *] at herr
      · cases hc
    · cases hid
  | ok idB =>
  cases hb : GetTrader stub idB with
  | error e =>
    exfalso
    have hvi : validAttr idB = true := getID_validAttr hid
    unfold GetTrader at hb
    rw [CreateCompositeKey_ok hvi] at hb
    simp only at hb
    unfold Stub.GetTraderState at hb
    split at hb
    · cases hb
      simp [buy, hid, GetTrader, CreateCompositeKey_ok hvi, Stub.GetTraderState, *] at herr
    · cases hb
  | ok ob =>
  cases ob with
  | none =>
    simp [buy, hid, hb] at herr
    exact absurd herr d1
  | some b =>
  cases ha : GetAsset stub a with
  | error e =>
    exfalso
    cases hva : validAttr a with
    | false => simp [buy, hid, hb, GetAsset, CreateCompositeKey_bad hva] at herr
    | true =>
      unfold GetAsset at ha
      rw [CreateCompositeKey_ok hva] at ha
      simp only at ha
      unfold Stub.GetAssetState at ha
      split at ha
      · cases ha
        simp [buy, hid, hb, GetAsset, CreateCompositeKey_ok hva, Stub.GetAssetState, *] at herr
      · cases ha
  | ok oa =>
  cases oa with
  | none =>
    simp [buy, hid, hb, ha] at herr
    exact absurd herr d2
  | some asset =>
  by_cases hown : asset.owner = idB
  · simp [buy, hid, hb, ha, hown] at herr
    exact absurd herr d3
  by_cases hsale : asset.forSale = false
  · simp [buy, hid, hb, ha, hown, hsale] at herr
    exact absurd herr d4
  by_cases hbal : b.balance < asset.price
  · simp [buy, hid, hb, ha, hown, hsale, hbal] at herr
    exact absurd herr d5
  cases hs : GetTrader stub asset.owner with
  | error e =>
    exfalso
    cases hvo : validAttr asset.owner with
    | false =>
      simp [buy, hid, hb, ha, hown, hsale, hbal] at herr
      simp [GetTrader, CreateCompositeKey_bad hvo] at herr
    | true =>
      unfold GetTrader at hs
      rw [CreateCompositeKey_ok hvo] at hs
      simp only at hs
      unfold Stub.GetTraderState at hs
      split at hs
      · cases hs
        simp [buy, hid, hb, ha, hown, hsale, hbal] at herr
        simp [GetTrader, CreateCompositeKey_ok hvo, Stub.GetTraderState, *] at herr
      · cases hs
  | ok os =>
  cases os with
  | none => exact ⟨asset, GetAsset_some ha, GetTrader_ok hs⟩
  | some s =>
    exfalso
    have hv3 : validAttr (Asset.ID h asset) = true := validAttr_hexEncode _
    cases hv1 : validAttr b.id with
    | false =>
      simp [buy, hid, hb, ha, hown, hsale, hbal, hs, Trader.Store, CreateCompositeKey,
        hv1] at herr
    | true =>
    cases hw1 : stub.faults.putFails (.trader b.id) with
    | true =>
      simp [buy, hid, hb, ha, hown, hsale, hbal, hs, Trader.Store, CreateCompositeKey, hv1,
        Stub.PutTraderState, hw1] at herr
    | false =>
    cases hv2 : validAttr s.id with
    | false =>
      simp [buy, hid, hb, ha, hown, hsale, hbal, hs, Trader.Store, CreateCompositeKey, hv1, hv2,
        Stub.PutTraderState, hw1] at herr
    | true =>
    cases hw2 : stub.faults.putFails (.trader s.id) with
    | true =>
      simp [buy, hid, hb, ha, hown, hsale, hbal, hs, Trader.Store, CreateCompositeKey, hv1, hv2,
        Stub.PutTraderState, hw1, hw2] at herr
    | false =>
    cases hw3 : stub.faults.putFails (.asset (Asset.ID h asset)) with
    | true =>
      simp [buy, hid, hb, ha, hown, hsale, hbal, hs, Trader.Store, Asset.Store,
        CreateCompositeKey, hv1, hv2, hv3, Stub.PutTraderState, Stub.PutAssetState, hw1, hw2,
        hw3, Asset.ID_forSale] at herr
    | false =>
      simp [buy, hid, hb, ha, hown, hsale, hbal, hs, Trader.Store, Asset.Store,
        CreateCompositeKey, hv1, hv2, hv3, Stub.PutTraderState, Stub.PutAssetState, hw1, hw2,
        hw3, Asset.ID_forSale] at herr

/-- C14. In every ledger reachable from the empty ledger, the owner of every
stored asset has a trader record, stored under the owner's identifier and
carrying it as its `ID`; and on a stub over such a ledger, whatever its
failures, `buy` never returns `seller not exist`. -/
theorem owners_are_enrolled (h : List UInt8 → List UInt8) (l : Ledger)
    (hr : Reachable h l) :
    (∀ p ∈ l.assets, ∃ t, getRec p.2.owner l.traders = some t ∧ t.id = p.2.owner) ∧
    (∀ (stub : Stub) (a : GoString), stub.ledger = l →
      (buy h stub [a]).1 ≠ .error (.msg (bytesOf "seller not exist"))) := by
  refine ⟨?_, ?_⟩
  · intro p hp
    obtain ⟨t, ht⟩ := hr.ownersEnrolled p hp
    exact ⟨t, ht, (hr.tradersKeyed.trader ht).2.1⟩
  · intro stub a hl herr
    obtain ⟨asset, ha, hnone⟩ := buy_seller_absent h stub a herr
    rw [hl] at ha hnone
    obtain ⟨t, ht⟩ := hr.ownersEnrolled (a, asset) (getRec_mem _ _ _ ha)
    rw [hnone] at ht
    cases ht

/-- C14, a concrete instance: the reachable ledger of the examples, where
`Bike` belongs to the enrolled `41`, and the second submitter's `buy`. -/
theorem owners_are_enrolled_witness :
    (∃ t, getRec (bytesOf "41") (marketLedger 500).traders = some t ∧ t.id = bytesOf "41") ∧
    (buy demoSum (reliableStub bobCred (marketLedger 500)) [bytesOf "42696b65"]).1
      ≠ .error (.msg (bytesOf "seller not exist")) :=
  have key := owners_are_enrolled demoSum (marketLedger 500) marketLedger_500_reachable
  ⟨key.1 (bytesOf "42696b65",
      { name := bytesOf "Bike", price := 500, owner := bytesOf "41", forSale := true })
      (by decide),
    key.2 (reliableStub bobCred (marketLedger 500)) (bytesOf "42696b65") rfl⟩

/-! ## Records are written back where they were read -/

/-- The runs of `sell`: the stub is as it was, or the asset read under the
first parameter, owned by the caller, has been written with the new price and on
sale under the key of its own content. -/
theorem sell_cases (h : List UInt8 → List UInt8) (stub : Stub) (params : List GoString) :
    (sell h stub params).2 = stub ∨
    ∃ a p price id asset, params = [a, p] ∧ atoi p = .ok price ∧ getID h stub = .ok id ∧
      getRec a stub.ledger.assets = some asset ∧ asset.owner = id ∧
      (sell h stub params).2.ledger
        = { stub.ledger with assets :=
            (putRec (Asset.ID h asset) (Asset.json { asset with price := price, forSale := true })
              stub.ledger.assets) } := by
  cases hr : (sell h stub params).1 with
  | error e => exact Or.inl (sell_error_unchanged h stub params e hr)
  | ok u =>
    obtain ⟨a, p, price, id, t, asset, hp, hpr, hid, _, _, ha, hown, hl⟩ := sell_ok h stub params hr
    exact Or.inr ⟨a, p, price, id, asset, hp, hpr, hid, ha, hown, hl⟩

/-- On a ledger whose trader records are keyed by their `ID` field, the trader
writes of `buy` go to keys that hold a record already: after each of its stages
the trader keys are the ones it found. -/
theorem buy_stage_trader_keys (h : List UInt8 → List UInt8) (stub : Stub) (a idB : GoString)
    (b s : Trader) (asset : Asset) (hk : TradersKeyed stub.ledger)
    (hpass : BuyChecksPass h stub a idB b s asset) :
    keysOf (afterBuyer stub b asset).ledger.traders = keysOf stub.ledger.traders ∧
    keysOf (afterSeller stub b s asset).ledger.traders = keysOf stub.ledger.traders ∧
    keysOf (afterBuy h stub b s asset).ledger.traders = keysOf stub.ledger.traders := by
  obtain ⟨_, hb, _, hown, _, _, hs⟩ := hpass
  have hb' := GetTrader_some hb
  have hs' := GetTrader_some hs
  have hbid : b.id = idB := (hk.trader hb').2.1
  have hsid : s.id = asset.owner := (hk.trader hs').2.1
  have h1 : keysOf (putRec b.id (Trader.json { b with balance := wrapInt (b.balance - asset.price) })
      stub.ledger.traders) = keysOf stub.ledger.traders := by
    rw [hbid]
    exact keysOf_putRec_of_some _ _ _ _ hb'
  have h2 : keysOf (putRec s.id (Trader.json { s with balance := wrapInt (s.balance + asset.price) })
      (putRec b.id (Trader.json { b with balance := wrapInt (b.balance - asset.price) })
        stub.ledger.traders)) = keysOf stub.ledger.traders := by
    rw [← h1]
    apply keysOf_putRec_of_some _ _ s
    rw [hsid, hbid, getRec_putRec_ne _ _ _ _ hown]
    exact hs'
  exact ⟨h1, h2, h2⟩

/-- On a ledger whose asset records are keyed by their `ID()`, the asset write
of `buy` goes to the key the asset was read from. -/
theorem buy_stage_asset_keys (h : List UInt8 → List UInt8) (stub : Stub) (a idB : GoString)
    (b s : Trader) (asset : Asset) (hk : AssetsKeyed h stub.ledger)
    (hpass : BuyChecksPass h stub a idB b s asset) :
    keysOf (afterBuy h stub b s asset).ledger.assets = keysOf stub.ledger.assets := by
  obtain ⟨_, _, ha, _, _, _, _⟩ := hpass
  have ha' := GetAsset_some ha
  have haid : Asset.ID h asset = a := (hk.asset ha').2
  simp only [afterBuy, Asset.ID_forSale, haid]
  exact keysOf_putRec_of_some _ _ _ _ ha'

/-- On every stub over a ledger whose trader records are keyed by their `ID`
field, `sell` and `buy` leave the trader keys as they were. -/
theorem sell_buy_trader_keys (h : List UInt8 → List UInt8) (stub : Stub)
    (params : List GoString) (hk : TradersKeyed stub.ledger) :
    keysOf (sell h stub params).2.ledger.traders = keysOf stub.ledger.traders ∧
    keysOf (buy h stub params).2.ledger.traders = keysOf stub.ledger.traders := by
  refine ⟨?_, ?_⟩
  · rcases sell_cases h stub params with hs | ⟨a, p, price, id, asset, _, _, _, _, _, hs⟩
    · rw [hs]
    · rw [hs]
  · by_cases hlen : params.length = 1
    · obtain ⟨a, rfl⟩ := List.length_eq_one.mp hlen
      rcases buy_cases h stub a with ⟨e, he⟩ | ⟨idB, b, s, asset, hpass, _, _, hrun⟩
      · rw [he]
      · have hkeys := buy_stage_trader_keys h stub a idB b s asset hk hpass
        rcases hrun with ⟨_, hr'⟩ | ⟨_, _, hr'⟩ | ⟨_, _, _, hr'⟩ | ⟨_, _, _, hr'⟩
        · rw [hr']
          exact hkeys.1
        · rw [hr']
          exact hkeys.1
        · rw [hr']
          exact hkeys.2.1
        · rw [hr']
          exact hkeys.2.2
    · rw [buy_arity h stub params hlen]

/-- On every stub over a ledger whose asset records are keyed by their `ID()`,
`sell` and `buy` leave the asset keys as they were. -/
theorem sell_buy_asset_keys (h : List UInt8 → List UInt8) (stub : Stub)
    (params : List GoString) (hk : AssetsKeyed h stub.ledger) :
    keysOf (sell h stub params).2.ledger.assets = keysOf stub.ledger.assets ∧
    keysOf (buy h stub params).2.ledger.assets = keysOf stub.ledger.assets := by
  refine ⟨?_, ?_⟩
  · rcases sell_cases h stub params with hs | ⟨a, p, price, id, asset, _, _, _, ha, _, hs⟩
    · rw [hs]
    · rw [hs, (hk.asset ha).2]
      exact keysOf_putRec_of_some _ _ _ _ ha
  · by_cases hlen : params.length = 1
    · obtain ⟨a, rfl⟩ := List.length_eq_one.mp hlen
      rcases buy_cases h stub a with ⟨e, he⟩ | ⟨idB, b, s, asset, hpass, _, _, hrun⟩
      · rw [he]
      · rcases hrun with ⟨_, hr'⟩ | ⟨_, _, hr'⟩ | ⟨_, _, _, hr'⟩ | ⟨_, _, _, hr'⟩
        · rw [hr']
          rfl
        · rw [hr']
          rfl
        · rw [hr']
          rfl
        · rw [hr']
          exact buy_stage_asset_keys h stub a idB b s asset hk hpass
    · rw [buy_arity h stub params hlen]

/-! ## The life of a trader record -/

/-- C15. Whatever the stub, its failures and the parameters: `create`, `sell`
and `list` leave the trader records as they were; on a ledger whose trader
records are stored as `Trader.Store` stores them, under the key made from their
`ID` field (every ledger that transactions produce is so, last line), a
successful `buy [a]` by the caller `idB` replaces the records under `idB` and
under the asset's owner by the same records with only the balance changed (the
price taken off, or added, in `int` arithmetic), leaves the record under every
other key as it was and leaves the keys as they were; and after any invocation
every key that had a trader record still has one. -/
theorem trader_records_frame (h : List UInt8 → List UInt8) (stub : Stub) (fcn : GoString)
    (params : List GoString) (k : GoString) :
    (create h stub params).2.ledger.traders = stub.ledger.traders ∧
    (sell h stub params).2.ledger.traders = stub.ledger.traders ∧
    (ListCmd h stub).2.ledger.traders = stub.ledger.traders ∧
    (TradersKeyed stub.ledger → (buy h stub params).1 = .ok () →
      ∃ a idB b s asset, params = [a] ∧ getID h stub = .ok idB ∧
        getRec idB stub.ledger.traders = some b ∧
        getRec a stub.ledger.assets = some asset ∧ asset.owner ≠ idB ∧
        getRec asset.owner stub.ledger.traders = some s ∧
        getRec idB (buy h stub params).2.ledger.traders
          = some { b with balance := wrapInt (b.balance - asset.price) } ∧
        getRec asset.owner (buy h stub params).2.ledger.traders
          = some { s with balance := wrapInt (s.balance + asset.price) } ∧
        (∀ k', k' ≠ idB → k' ≠ asset.owner →
          getRec k' (buy h stub params).2.ledger.traders = getRec k' stub.ledger.traders) ∧
        keysOf (buy h stub params).2.ledger.traders = keysOf stub.ledger.traders) ∧
    ((∃ t, getRec k stub.ledger.traders = some t) →
      ∃ t, getRec k (Invoke h stub fcn params).2.ledger.traders = some t) ∧
    (Reachable h stub.ledger → TradersKeyed stub.ledger) := by
  have hA : ∀ (a : Asset) (st st1 : Stub), st.ledger.traders = stub.ledger.traders →
      Asset.Store h a st = .ok st1 → st1.ledger.traders = stub.ledger.traders := by
    intro a st st1 hP hst
    rw [assetStore_ledger h a st st1 hst]
    exact hP
  refine ⟨?_, ?_, ?_, ?_, ?_, fun hr => hr.tradersKeyed⟩
  · exact create_preserves (fun l => l.traders = stub.ledger.traders) h hA stub params rfl
  · exact sell_preserves (fun l => l.traders = stub.ledger.traders) h hA stub params rfl
  · rw [ListCmd_unchanged]
  · intro hk hok
    obtain ⟨a, idB, b, s, asset, hp, hpass, _, _, hr⟩ := buy_ok h stub params hok
    have hkeys := buy_stage_trader_keys h stub a idB b s asset hk hpass
    obtain ⟨hid, hb, ha, hown, _, _, hs⟩ := hpass
    have hb' := GetTrader_some hb
    have ha' := GetAsset_some ha
    have hs' := GetTrader_some hs
    obtain ⟨hbj, hbid, _⟩ := hk.trader hb'
    obtain ⟨hsj, hsid, _⟩ := hk.trader hs'
    refine ⟨a, idB, b, s, asset, hp, hid, hb', ha', hown, hs', ?_, ?_, ?_, ?_⟩
    · rw [hr]
      simp only [afterBuy]
      rw [Trader.json_balance _ _ hbj, Trader.json_balance _ _ hsj, hsid, hbid,
        getRec_putRec_ne _ _ _ _ (Ne.symm hown), getRec_putRec_self]
    · rw [hr]
      simp only [afterBuy]
      rw [Trader.json_balance _ _ hbj, Trader.json_balance _ _ hsj, hsid, hbid,
        getRec_putRec_self]
    · intro k' h1 h2
      rw [hr]
      simp only [afterBuy]
      rw [hsid, hbid, getRec_putRec_ne _ _ _ _ h2, getRec_putRec_ne _ _ _ _ h1]
    · rw [hr]
      exact hkeys.2.2
  · intro hex
    refine Invoke_preserves (fun l => ∃ t, getRec k l.traders = some t) h ?_ ?_ stub fcn
      params hex
    · intro t st st1 hP hst
      rw [(traderStore_ledger t st st1 hst).2]
      exact getRec_putRec_isSome _ _ _ _ hP
    · intro a st st1 hP hst
      rw [assetStore_ledger h a st st1 hst]
      exact hP

/-! ## Creating a name again -/

/-- C17, as amended. On a stub whose reads and writes succeed, with an asset
`old` named `n` stored, as the JSON codec returns it, under the identifier of its
name, whoever owns it and whatever its price and sale flag, and with the caller
`id` enrolled (the owner or anyone else): `create [n]` succeeds; the record under
that identifier is afterwards the asset named `n` owned by `id`, price 0, not for
sale; the records under the other keys are as they were, and the number of asset
records and their keys are unchanged. -/
theorem create_overwrites (h : List UInt8 → List UInt8) (stub : Stub) (id n : GoString)
    (t : Trader) (old : Asset)
    (hreads : stub.readsOk) (hwrites : stub.writesOk) (hid : getID h stub = .ok id)
    (ht : getRec id stub.ledger.traders = some t) (hname : old.name = n)
    (hold : getRec (Asset.ID h old) stub.ledger.assets = some old)
    (hjson : old.json = old) :
    (create h stub [n]).1 = .ok () ∧
    getRec (Asset.ID h old) (create h stub [n]).2.ledger.assets
      = some { name := n, price := 0, owner := id, forSale := false } ∧
    (∀ k, k ≠ Asset.ID h old →
      getRec k (create h stub [n]).2.ledger.assets = getRec k stub.ledger.assets) ∧
    (create h stub [n]).2.ledger.assets.length = stub.ledger.assets.length ∧
    keysOf (create h stub [n]).2.ledger.assets = keysOf stub.ledger.assets := by
  have hvi : validAttr id = true := getID_validAttr hid
  have hjn : jsonString n = n := by
    rw [← hname]
    exact congrArg Asset.name hjson
  have hidn : Asset.ID h { name := n, price := 0, owner := id, forSale := false }
      = Asset.ID h old := by
    simp [Asset.ID, hname]
  have hrun : create h stub [n] = (.ok (), { stub with ledger :=
      { stub.ledger with assets :=
          (putRec (Asset.ID h old) { name := n, price := 0, owner := id, forSale := false }
            stub.ledger.assets) } }) := by
    simp [create, hid, GetTrader_of hreads hvi, ht, Asset.Store, CreateCompositeKey_assetID,
      Stub.PutAssetState, hwrites _, hidn, Asset.json, hjn, jsonString_of_validAttr _ hvi]
  rw [hrun]
  have hkeys := keysOf_putRec_of_some (Asset.ID h old)
    ({ name := n, price := 0, owner := id, forSale := false } : Asset) old
    stub.ledger.assets hold
  refine ⟨rfl, getRec_putRec_self _ _ _, ?_, ?_, hkeys⟩
  · intro k hk
    exact getRec_putRec_ne _ _ _ _ hk
  · have := congrArg List.length hkeys
    simpa [length_keysOf] using this

/-- C17, a concrete instance: the second submitter creates `Bike`, which the
first owns and has on sale at 500. -/
theorem create_overwrites_witness :
    (create demoSum (reliableStub bobCred (marketLedger 500)) [bytesOf "Bike"]).1 = .ok () ∧
    (create demoSum (reliableStub bobCred (marketLedger 500)) [bytesOf "Bike"]).2.ledger.assets
      = [(bytesOf "42696b65",
          { name := bytesOf "Bike", price := 0, owner := bytesOf "42", forSale := false })] :=
  have key := create_overwrites demoSum (reliableStub bobCred (marketLedger 500)) (bytesOf "42")
      (bytesOf "Bike") { name := bytesOf "bob", id := bytesOf "42", balance := 10000 }
      { name := bytesOf "Bike", price := 500, owner := bytesOf "41", forSale := true }
      (fun _ => rfl) (fun _ => rfl) (by decide) (by decide) rfl (by decide) (by decide)
  ⟨key.1, by decide⟩

/-- C17 as stated fails: on the reachable ledger where the first submitter has
created an asset under the name `brokenName`, an asset with the name
`replacedName` is stored, under the identifier of `brokenName`, and no record is
stored under the identifier of `replacedName`. The second submitter enrolls and
calls `create` with the name `replacedName`: it succeeds, the stored asset is as
it was, and the number of asset records goes from 1 to 2. -/
theorem create_overwrites_counterexample :
    Reachable demoSum (Invoke demoSum (reliableStub bobCred brokenLedger) (bytesOf "enroll")
      [bytesOf "bob"]).2.ledger ∧
    (Invoke demoSum (reliableStub bobCred brokenLedger) (bytesOf "enroll")
      [bytesOf "bob"]).2.ledger
      = { brokenLedger with traders := brokenLedger.traders ++
          [(bytesOf "42", { name := bytesOf "bob", id := bytesOf "42", balance := 10000 })] } ∧
    brokenLedger.assets
      = [(assetId demoSum brokenName,
          { name := replacedName, price := 0, owner := bytesOf "41", forSale := false })] ∧
    (create demoSum (reliableStub bobCred
        { brokenLedger with traders := brokenLedger.traders ++
          [(bytesOf "42", { name := bytesOf "bob", id := bytesOf "42", balance := 10000 })] })
      [replacedName]).1 = .ok () ∧
    (create demoSum (reliableStub bobCred
        { brokenLedger with traders := brokenLedger.traders ++
          [(bytesOf "42", { name := bytesOf "bob", id := bytesOf "42", balance := 10000 })] })
      [replacedName]).2.ledger.assets
      = [(assetId demoSum brokenName,
          { name := replacedName, price := 0, owner := bytesOf "41", forSale := false }),
         (assetId demoSum replacedName,
          { name := replacedName, price := 0, owner := bytesOf "42", forSale := false })] := by
  refine ⟨Reachable.step _ bobCred (bytesOf "enroll") [bytesOf "bob"] brokenLedger_reachable, ?_⟩
  decide

/-! ## The total of the balances -/

/-- What one invocation on the reliable platform does to the trader records of
a ledger that keys them by their `ID` field: nothing, and then it is no
successful `enroll` or `buy`; or it is a successful `enroll`, which adds one
record with balance 10000 under the caller's identifier, a new key; or it is a
successful `buy [a]`, which replaces the record of the caller and the record of
the owner of the asset stored under `a`, two different keys, and the total moves
by what the two `int` results lose to wrap-around. -/
theorem Invoke_reliable_traders (h : List UInt8 → List UInt8) (creator : List UInt8)
    (l : Ledger) (fcn : GoString) (params : List GoString) (hk : TradersKeyed l) :
    ((Invoke h (reliableStub creator l) fcn params).2.ledger.traders = l.traders ∧
      ¬ ((fcn = bytesOf "enroll" ∨ fcn = bytesOf "buy") ∧
        (Invoke h (reliableStub creator l) fcn params).1 = .success Option.none)) ∨
    (fcn = bytesOf "enroll" ∧
      (Invoke h (reliableStub creator l) fcn params).1 = .success Option.none ∧
      getRec (hexEncode (h creator)) l.traders = Option.none ∧
      keysOf (Invoke h (reliableStub creator l) fcn params).2.ledger.traders
        = keysOf l.traders ++ [hexEncode (h creator)] ∧
      totalBalance (Invoke h (reliableStub creator l) fcn params).2.ledger
        = totalBalance l + 10000) ∨
    (fcn = bytesOf "buy" ∧
      (Invoke h (reliableStub creator l) fcn params).1 = .success Option.none ∧
      ∃ (a : GoString) (b s : Trader) (asset : Asset), params = [a] ∧
        getRec (hexEncode (h creator)) l.traders = some b ∧
        getRec a l.assets = some asset ∧
        getRec asset.owner l.traders = some s ∧
        asset.owner ≠ hexEncode (h creator) ∧
        keysOf (Invoke h (reliableStub creator l) fcn params).2.ledger.traders
          = keysOf l.traders ∧
        totalBalance (Invoke h (reliableStub creator l) fcn params).2.ledger
          = totalBalance l
            + (wrapInt (b.balance - asset.price) - (b.balance - asset.price))
            + (wrapInt (s.balance + asset.price) - (s.balance + asset.price))) := by
  rcases Invoke_reliable_cases h creator l fcn params with ⟨⟨e, he⟩, _, hl⟩ | ⟨hf, _, hl⟩ |
    ⟨name, hf, _, hok, hnone, hl⟩ | ⟨name, t, hf, _, _, _, hl⟩ |
    ⟨a, p, price, t, asset, hf, _, _, _, _, _, _, hl⟩ |
    ⟨a, b, s, asset, hf, hp, hok, hb, ha, hown, _, _, hs, _, hl⟩
  · left
    refine ⟨by rw [hl hk], ?_⟩
    intro hc
    rw [he] at hc
    cases hc.2
  · left
    refine ⟨by rw [hl], ?_⟩
    subst hf
    intro hc
    rcases hc.1 with hc | hc
    · exact absurd hc (by decide)
    · exact absurd hc (by decide)
  · right; left
    refine ⟨hf, hok, hnone, ?_, ?_⟩
    · rw [hl]
      exact keysOf_putRec_of_none _ _ _ hnone
    · rw [hl]
      simp only [totalBalance]
      rw [sum_putRec_of_none _ _ _ hnone]
  · left
    refine ⟨by rw [hl], ?_⟩
    subst hf
    intro hc
    rcases hc.1 with hc | hc
    · exact absurd hc (by decide)
    · exact absurd hc (by decide)
  · left
    refine ⟨by rw [hl], ?_⟩
    subst hf
    intro hc
    rcases hc.1 with hc | hc
    · exact absurd hc (by decide)
    · exact absurd hc (by decide)
  · right; right
    obtain ⟨_, hbid, _⟩ := hk.trader hb
    obtain ⟨_, hsid, _⟩ := hk.trader hs
    have hne : b.id ≠ s.id := by
      rw [hbid, hsid]
      exact Ne.symm hown
    have hb' : getRec b.id l.traders = some b := by rw [hbid]; exact hb
    have hs' : getRec s.id l.traders = some s := by rw [hsid]; exact hs
    have hs2 : getRec s.id
        (putRec b.id (Trader.json { b with balance := wrapInt (b.balance - asset.price) })
          l.traders) = some s := by
      rw [getRec_putRec_ne _ _ _ _ (Ne.symm hne)]
      exact hs'
    refine ⟨hf, hok, a, b, s, asset, hp, hb, ha, hs, hown, ?_, ?_⟩
    · rw [hl]
      simp only [afterBuy, reliableStub]
      rw [keysOf_putRec_of_some _ _ _ _ hs2, keysOf_putRec_of_some _ _ _ _ hb']
    · rw [hl]
      simp only [afterBuy, reliableStub, totalBalance]
      rw [sum_putRec_of_some _ _ _ _ hs2, sum_putRec_of_some _ _ _ _ hb']
      simp only [Trader.json]
      ring

/-- In a reachable ledger the trader keys are pairwise distinct and the total
of the balances differs from 10000 times their number by a multiple of `2 ^ 64`. -/
theorem Reachable.totalBalance_mod {h : List UInt8 → List UInt8} {l : Ledger}
    (hr : Reachable h l) :
    (keysOf l.traders).Nodup ∧
    (2 ^ 64 : Int) ∣ totalBalance l - 10000 * (l.traders.length : Int) := by
  induction hr with
  | empty => simp [Ledger.empty, keysOf, totalBalance]
  | step l creator fcn params hr ih =>
    obtain ⟨hnd, hdvd⟩ := ih
    have hstep := Invoke_reliable_traders h creator l fcn params hr.tradersKeyed
    change (keysOf (Invoke h (reliableStub creator l) fcn params).2.ledger.traders).Nodup ∧
      (2 ^ 64 : Int) ∣ totalBalance (Invoke h (reliableStub creator l) fcn params).2.ledger
        - 10000 * ((Invoke h (reliableStub creator l) fcn params).2.ledger.traders.length : Int)
    rcases hstep with ⟨hl, _⟩ | ⟨_, _, hnone, hkeys, htot⟩ |
      ⟨_, _, a, b, s, asset, _, _, _, _, _, hkeys, htot⟩
    · have ht : totalBalance (Invoke h (reliableStub creator l) fcn params).2.ledger
          = totalBalance l := by
        simp only [totalBalance, hl]
      rw [hl, ht]
      exact ⟨hnd, hdvd⟩
    · have hlen : (Invoke h (reliableStub creator l) fcn params).2.ledger.traders.length
          = l.traders.length + 1 := by
        have := congrArg List.length hkeys
        simpa [length_keysOf, keysOf] using this
      refine ⟨?_, ?_⟩
      · rw [hkeys]
        have hnot : hexEncode (h creator) ∉ keysOf l.traders := (getRec_none_iff _ _).mp hnone
        exact List.Nodup.append hnd (List.nodup_singleton _) (by simpa using hnot)
      · rw [htot, hlen]
        have : totalBalance l + 10000 - 10000 * ((l.traders.length + 1 : Nat) : Int)
            = totalBalance l - 10000 * (l.traders.length : Int) := by
          push_cast
          ring
        rw [this]
        exact hdvd
    · have hlen : (Invoke h (reliableStub creator l) fcn params).2.ledger.traders.length
          = l.traders.length := by
        have := congrArg List.length hkeys
        simpa [length_keysOf, keysOf] using this
      refine ⟨by rw [hkeys]; exact hnd, ?_⟩
      rw [htot, hlen]
      have h1 := wrapInt_dvd (b.balance - asset.price)
      have h2 := wrapInt_dvd (s.balance + asset.price)
      have : totalBalance l + (wrapInt (b.balance - asset.price) - (b.balance - asset.price))
            + (wrapInt (s.balance + asset.price) - (s.balance + asset.price))
            - 10000 * (l.traders.length : Int)
          = (totalBalance l - 10000 * (l.traders.length : Int))
            + (wrapInt (b.balance - asset.price) - (b.balance - asset.price))
            + (wrapInt (s.balance + asset.price) - (s.balance + asset.price)) := by
        ring
      rw [this]
      exact dvd_add (dvd_add hdvd h1) h2

/-- C19, as amended. In every ledger reachable from the empty ledger the
trader keys are pairwise distinct and the total of the balances is congruent,
modulo `2 ^ 64`, to 10000 times the number of trader records. For one more
invocation on the reliable platform, by any submitter with any parameters:
`create`, `sell` and `list` leave the total as it was; an invocation that returns
an error leaves the ledger as it was; an `enroll` that returns success adds one
trader record and raises the total by exactly 10000; a `buy` that returns success
has one parameter `a`, the caller has a record `b`, an asset is stored under `a`
and its owner, who is not the caller, has a record `s`, the number of trader
records is as it was, and the total has moved by what the two new balances lose
to `int` wrap-around, a multiple of `2 ^ 64`: by nothing when both
`b.balance - p` and `s.balance + p` are within the range of `int`. -/
theorem total_balance_invariant (h : List UInt8 → List UInt8) (l : Ledger)
    (hr : Reachable h l) :
    (keysOf l.traders).Nodup ∧
    (2 ^ 64 : Int) ∣ totalBalance l - 10000 * (l.traders.length : Int) ∧
    ∀ (creator : List UInt8) (params : List GoString),
      totalBalance (Invoke h (reliableStub creator l) (bytesOf "create") params).2.ledger
        = totalBalance l ∧
      totalBalance (Invoke h (reliableStub creator l) (bytesOf "sell") params).2.ledger
        = totalBalance l ∧
      totalBalance (Invoke h (reliableStub creator l) (bytesOf "list") params).2.ledger
        = totalBalance l ∧
      (∀ (fcn : GoString) (e : Err),
        (Invoke h (reliableStub creator l) fcn params).1 = .error e →
        (Invoke h (reliableStub creator l) fcn params).2.ledger = l) ∧
      ((Invoke h (reliableStub creator l) (bytesOf "enroll") params).1 = .success Option.none →
        (Invoke h (reliableStub creator l) (bytesOf "enroll") params).2.ledger.traders.length
          = l.traders.length + 1 ∧
        totalBalance (Invoke h (reliableStub creator l) (bytesOf "enroll") params).2.ledger
          = totalBalance l + 10000) ∧
      ((Invoke h (reliableStub creator l) (bytesOf "buy") params).1 = .success Option.none →
        ∃ (a : GoString) (b s : Trader) (asset : Asset), params = [a] ∧
          getRec (hexEncode (h creator)) l.traders = some b ∧
          getRec a l.assets = some asset ∧
          getRec asset.owner l.traders = some s ∧
          asset.owner ≠ hexEncode (h creator) ∧
          (Invoke h (reliableStub creator l) (bytesOf "buy") params).2.ledger.traders.length
            = l.traders.length ∧
          totalBalance (Invoke h (reliableStub creator l) (bytesOf "buy") params).2.ledger
            = totalBalance l
              + (wrapInt (b.balance - asset.price) - (b.balance - asset.price))
              + (wrapInt (s.balance + asset.price) - (s.balance + asset.price)) ∧
          (2 ^ 64 : Int) ∣
            totalBalance (Invoke h (reliableStub creator l) (bytesOf "buy") params).2.ledger
              - totalBalance l ∧
          (inIntRange (b.balance - asset.price) → inIntRange (s.balance + asset.price) →
            totalBalance (Invoke h (reliableStub creator l) (bytesOf "buy") params).2.ledger
              = totalBalance l)) := by
  obtain ⟨hnd, hdvd⟩ := hr.totalBalance_mod
  have hk := hr.tradersKeyed
  refine ⟨hnd, hdvd, ?_⟩
  intro creator params
  have hsame : ∀ fcn : GoString, fcn ≠ bytesOf "enroll" → fcn ≠ bytesOf "buy" →
      totalBalance (Invoke h (reliableStub creator l) fcn params).2.ledger = totalBalance l := by
    intro fcn n1 n2
    rcases Invoke_reliable_traders h creator l fcn params hk with ⟨hl, _⟩ | ⟨hf, _⟩ | ⟨hf, _⟩
    · simp only [totalBalance, hl]
    · exact absurd hf n1
    · exact absurd hf n2
  refine ⟨hsame _ (by decide) (by decide), hsame _ (by decide) (by decide),
    hsame _ (by decide) (by decide), ?_, ?_, ?_⟩
  · intro fcn e he
    rcases Invoke_reliable_cases h creator l fcn params with ⟨_, _, hl⟩ | ⟨_, ⟨s, hs⟩, _⟩ |
      ⟨_, _, _, hok, _⟩ | ⟨_, _, _, _, hok, _⟩ | ⟨_, _, _, _, _, _, _, _, hok, _⟩ |
      ⟨_, _, _, _, _, _, hok, _⟩
    · exact hl hk
    · rw [hs] at he
      cases he
    · rw [hok] at he
      cases he
    · rw [hok] at he
      cases he
    · rw [hok] at he
      cases he
    · rw [hok] at he
      cases he
  · intro hok
    rcases Invoke_reliable_traders h creator l (bytesOf "enroll") params hk with ⟨_, hnot⟩ |
      ⟨_, _, _, hkeys, htot⟩ | ⟨hf, _⟩
    · exact absurd ⟨Or.inl rfl, hok⟩ hnot
    · refine ⟨?_, htot⟩
      have := congrArg List.length hkeys
      simpa [length_keysOf, keysOf] using this
    · exact absurd hf (by decide)
  · intro hok
    rcases Invoke_reliable_traders h creator l (bytesOf "buy") params hk with ⟨_, hnot⟩ |
      ⟨hf, _⟩ | ⟨_, _, a, b, s, asset, hp, hb, ha, hs, hown, hkeys, htot⟩
    · exact absurd ⟨Or.inr rfl, hok⟩ hnot
    · exact absurd hf (by decide)
    · refine ⟨a, b, s, asset, hp, hb, ha, hs, hown, ?_, htot, ?_, ?_⟩
      · have := congrArg List.length hkeys
        simpa [length_keysOf, keysOf] using this
      · rw [htot]
        have h1 := wrapInt_dvd (b.balance - asset.price)
        have h2 := wrapInt_dvd (s.balance + asset.price)
        have : totalBalance l + (wrapInt (b.balance - asset.price) - (b.balance - asset.price))
              + (wrapInt (s.balance + asset.price) - (s.balance + asset.price)) - totalBalance l
            = (wrapInt (b.balance - asset.price) - (b.balance - asset.price))
              + (wrapInt (s.balance + asset.price) - (s.balance + asset.price)) := by
          ring
        rw [this]
        exact dvd_add h1 h2
      · intro h1 h2
        rw [htot, wrapInt_of_inIntRange _ h1, wrapInt_of_inIntRange _ h2]
        ring

/-- C19, a concrete instance: on the reachable ledger of the examples, with
both traders at 10000, the total is 10000 times 2; a third submitter enrolls and
the total rises by 10000. -/
theorem total_balance_invariant_witness :
    (2 ^ 64 : Int) ∣ totalBalance (marketLedger 500)
      - 10000 * ((marketLedger 500).traders.length : Int) ∧
    totalBalance (Invoke demoSum (reliableStub [67] (marketLedger 500)) (bytesOf "enroll")
      [bytesOf "carol"]).2.ledger = totalBalance (marketLedger 500) + 10000 :=
  have key := total_balance_invariant demoSum (marketLedger 500) marketLedger_500_reachable
  ⟨key.2.1, ((key.2.2 [67] [bytesOf "carol"]).2.2.2.2.1 (by decide)).2⟩

/-- C19 as stated fails: the first submitter puts `Bike` on sale at the lowest
`int` and the second buys it, five successful transactions from the empty ledger.
The ledger then holds two trader records, each with balance
`-9223372036854765808`, and their total is `20000 - 2 ^ 64`, not `10000 * 2`. -/
theorem total_balance_invariant_counterexample :
    Reachable demoSum
      (Invoke demoSum { creator := bobCred, faults := Faults.none, ledger := marketLedger minInt }
        (bytesOf "buy") [bytesOf "42696b65"]).2.ledger ∧
    (Invoke demoSum { creator := bobCred, faults := Faults.none, ledger := marketLedger minInt }
        (bytesOf "buy") [bytesOf "42696b65"]).1 = .success Option.none ∧
    (Invoke demoSum { creator := bobCred, faults := Faults.none, ledger := marketLedger minInt }
        (bytesOf "buy") [bytesOf "42696b65"]).2.ledger.traders
      = [(bytesOf "41",
          { name := bytesOf "alice", id := bytesOf "41", balance := -9223372036854765808 }),
         (bytesOf "42",
          { name := bytesOf "bob", id := bytesOf "42", balance := -9223372036854765808 })] ∧
    totalBalance (Invoke demoSum
        { creator := bobCred, faults := Faults.none, ledger := marketLedger minInt }
        (bytesOf "buy") [bytesOf "42696b65"]).2.ledger = 20000 - 2 ^ 64 ∧
    (20000 - 2 ^ 64 : Int) ≠ 10000 * 2 := by
  refine ⟨Reachable.step _ bobCred (bytesOf "buy") [bytesOf "42696b65"]
    marketLedger_minInt_reachable, ?_⟩
  decide

/-! ## The snapshot of `list` -/

theorem scanLoop_nodup (stub : Stub) (hnext : ∀ k, stub.faults.nextFails k = false)
    (m acc : List (GoString × Asset)) (hnd : (keysOf (acc ++ m)).Nodup) :
    scanLoop stub m acc = .ok (acc ++ m) := by
  induction m generalizing acc with
  | nil => simp [scanLoop]
  | cons p rest ih =>
    obtain ⟨k, a⟩ := p
    have hk : getRec k acc = Option.none := by
      rw [getRec_none_iff]
      intro hmem
      simp only [keysOf, List.map_append, List.map_cons] at hnd hmem
      have := (List.nodup_append.mp hnd).2.2
      exact this hmem (List.mem_cons_self _ _)
    have hassoc : acc ++ (k, a) :: rest = (acc ++ [(k, a)]) ++ rest := by simp
    simp only [scanLoop, hnext, Bool.false_eq_true, if_false]
    rw [putRec_of_none _ _ _ hk, hassoc]
    apply ih
    rw [← hassoc]
    exact hnd

/-- On a stub whose reads and scan succeed, with the caller `id` enrolled with
record `t` and the asset keys pairwise distinct, `list` returns `t` and the asset
records as stored. -/
theorem list_returns_ledger (h : List UInt8 → List UInt8) (stub : Stub) (id : GoString)
    (t : Trader) (hreads : stub.readsOk) (hscan : stub.faults.scanFails = false)
    (hnext : ∀ k, stub.faults.nextFails k = false) (hid : getID h stub = .ok id)
    (ht : getRec id stub.ledger.traders = some t)
    (hnd : (keysOf stub.ledger.assets).Nodup) :
    list h stub = .ok { trader := t, assets := stub.ledger.assets } := by
  have hs := scanLoop_nodup stub hnext stub.ledger.assets [] (by simpa using hnd)
  simp only [List.nil_append] at hs
  simp [list, hid, GetTrader_of hreads (getID_validAttr hid), ht, hscan, hs]

theorem AssetsKeyed.of_assets {h : List UInt8 → List UInt8} {l l' : Ledger}
    (hk : AssetsKeyed h l) (heq : l'.assets = l.assets) : AssetsKeyed h l' := by
  intro p hp
  rw [heq] at hp
  exact hk p hp

theorem AssetsKeyed.put {h : List UInt8 → List UInt8} {l : Ledger} (hk : AssetsKeyed h l)
    (a : Asset) (hj : a.json = a) :
    AssetsKeyed h { l with assets := putRec (Asset.ID h a) a l.assets } := by
  intro p hp
  rcases mem_putRec _ _ _ _ hp with hp | hp
  · rw [hp]
    exact ⟨hj, CreateCompositeKey_assetID h a⟩
  · exact hk p hp

/-- What one invocation on the reliable platform does to the asset records of
a ledger that keys them by their `ID()`: unless it is a successful `create`, the
keys are as they were and the records are still keyed by their `ID()`; a
successful `create [name]` adds the identifier of `name` when no record is stored
under it, and the records are still keyed by their `ID()` when `name` is valid
UTF-8. -/
theorem Invoke_reliable_assets (h : List UInt8 → List UInt8) (creator : List UInt8)
    (l : Ledger) (fcn : GoString) (params : List GoString) (hk : AssetsKeyed h l) :
    (¬ (fcn = bytesOf "create" ∧
        (Invoke h (reliableStub creator l) fcn params).1 = .success Option.none) ∧
      keysOf (Invoke h (reliableStub creator l) fcn params).2.ledger.assets = keysOf l.assets ∧
      AssetsKeyed h (Invoke h (reliableStub creator l) fcn params).2.ledger) ∨
    (∃ name, fcn = bytesOf "create" ∧ params = [name] ∧
      (Invoke h (reliableStub creator l) fcn params).1 = .success Option.none ∧
      (ValidString name = true →
        AssetsKeyed h (Invoke h (reliableStub creator l) fcn params).2.ledger) ∧
      ((assetId h name ∈ keysOf l.assets ∧
          keysOf (Invoke h (reliableStub creator l) fcn params).2.ledger.assets
            = keysOf l.assets) ∨
        (assetId h name ∉ keysOf l.assets ∧
          keysOf (Invoke h (reliableStub creator l) fcn params).2.ledger.assets
            = keysOf l.assets ++ [assetId h name]))) := by
  rcases Invoke_reliable_cases h creator l fcn params with ⟨⟨e, he⟩, hla, _⟩ | ⟨hf, _, hl⟩ |
    ⟨name, hf, _, _, _, hl⟩ | ⟨name, t, hf, hp, hok, _, hl⟩ |
    ⟨a, p, price, t, asset, hf, _, _, _, _, ha, hown, hl⟩ |
    ⟨a, b, s, asset, hf, _, _, _, ha, _, _, _, _, hvo, hl⟩
  · left
    refine ⟨?_, by rw [hla], hk.of_assets hla⟩
    intro hc
    rw [he] at hc
    cases hc.2
  · left
    refine ⟨?_, by rw [hl], by rw [hl]; exact hk⟩
    subst hf
    exact fun hc => absurd hc.1 (by decide)
  · left
    refine ⟨?_, by rw [hl], by rw [hl]; exact hk.of_assets rfl⟩
    subst hf
    exact fun hc => absurd hc.1 (by decide)
  · right
    refine ⟨name, hf, hp, hok, ?_, ?_⟩
    · intro hv
      rw [hl]
      have hj : jsonString name = name := jsonString_of_valid _ hv
      have hrec : ∀ o : GoString, jsonString o = o →
          Asset.json { name := name, price := 0, owner := o, forSale := false }
            = { name := name, price := 0, owner := o, forSale := false } := by
        intro o ho
        simp [Asset.json, hj, ho]
      have := hk.put _ (hrec _ (jsonString_hexEncode (h creator)))
      rw [hj]
      exact this
    · rw [hl]
      cases hg : getRec (assetId h name) l.assets with
      | none =>
        right
        exact ⟨(getRec_none_iff _ _).mp hg, keysOf_putRec_of_none _ _ _ hg⟩
      | some old =>
        left
        refine ⟨?_, keysOf_putRec_of_some _ _ _ _ hg⟩
        by_contra hmem
        rw [← getRec_none_iff, hg] at hmem
        cases hmem
  · left
    obtain ⟨haj, haid⟩ := hk.asset ha
    have hrec := Asset.json_update asset price true haj
    refine ⟨?_, ?_, ?_⟩
    · subst hf
      exact fun hc => absurd hc.1 (by decide)
    · rw [hl, haid]
      exact keysOf_putRec_of_some _ _ _ _ ha
    · rw [hl, hrec]
      exact hk.put { asset with price := price, forSale := true } hrec
  · left
    obtain ⟨haj, haid⟩ := hk.asset ha
    have hrec := Asset.json_forSale asset false haj
    refine ⟨?_, ?_, ?_⟩
    · subst hf
      exact fun hc => absurd hc.1 (by decide)
    · rw [hl]
      simp only [afterBuy, Asset.ID_forSale]
      rw [haid]
      exact keysOf_putRec_of_some _ _ _ _ ha
    · rw [hl]
      simp only [afterBuy, hrec]
      exact (hk.put { asset with forSale := false } hrec).of_assets rfl

theorem createdNames_cons_skip (h : List UInt8 → List UInt8) (l : Ledger) (tx : Tx)
    (rest : List Tx)
    (hnot : ¬ (tx.fcn = bytesOf "create" ∧
      (Invoke h (reliableStub tx.creator l) tx.fcn tx.params).1 = .success Option.none)) :
    createdNames h l (tx :: rest)
      = createdNames h (Invoke h (reliableStub tx.creator l) tx.fcn tx.params).2.ledger rest := by
  simp only [createdNames]
  split
  · rw [if_neg]
    · rfl
    · intro hc
      exact hnot hc
  · rfl

theorem createdNames_cons_create (h : List UInt8 → List UInt8) (l : Ledger) (tx : Tx)
    (rest : List Tx) (name : GoString) (hf : tx.fcn = bytesOf "create") (hp : tx.params = [name])
    (hok : (Invoke h (reliableStub tx.creator l) tx.fcn tx.params).1 = .success Option.none) :
    createdNames h l (tx :: rest)
      = name
        :: createdNames h (Invoke h (reliableStub tx.creator l) tx.fcn tx.params).2.ledger
          rest := by
  simp only [createdNames]
  rw [hp] at hok ⊢
  simp only
  rw [if_pos ⟨hf, hok⟩]
  rfl

/-- Along a run from a ledger whose assets are keyed by their `ID()` under
pairwise distinct keys, in which every `create` that returns success is given a
name that is valid UTF-8: the assets stay so keyed, and the asset keys at the end
are those at the start together with the ids of the successful `create`
transactions. -/
theorem runTxs_asset_keys (h : List UInt8 → List UInt8) (txs : List Tx) (l : Ledger)
    (hk : AssetsKeyed h l) (hnd : (keysOf l.assets).Nodup)
    (hvalid : ∀ n ∈ createdNames h l txs, ValidString n = true) :
    AssetsKeyed h (runTxs h l txs) ∧
    (keysOf (runTxs h l txs).assets).Nodup ∧
    ∀ k, k ∈ keysOf (runTxs h l txs).assets ↔ (k ∈ keysOf l.assets ∨ k ∈ createdIds h l txs) := by
  induction txs generalizing l with
  | nil => exact ⟨hk, hnd, fun k => by simp [runTxs, createdIds, createdNames]⟩
  | cons tx rest ih =>
    have hrun : runTxs h l (tx :: rest)
        = runTxs h (Invoke h (reliableStub tx.creator l) tx.fcn tx.params).2.ledger rest := rfl
    rcases Invoke_reliable_assets h tx.creator l tx.fcn tx.params hk with ⟨hnot, hkeys, hk1⟩ |
      ⟨name, hf, hp, hok, hk1, ⟨hmem, hkeys⟩ | ⟨hmem, hkeys⟩⟩
    · have hcn := createdNames_cons_skip h l tx rest hnot
      obtain ⟨i1, i2, i3⟩ := ih _ hk1 (by rw [hkeys]; exact hnd)
        (by rw [← hcn]; exact hvalid)
      rw [hrun]
      refine ⟨i1, i2, fun k => ?_⟩
      rw [i3 k, hkeys]
      simp only [createdIds, hcn]
    · have hcn := createdNames_cons_create h l tx rest name hf hp hok
      have hv : ValidString name = true := hvalid name (by rw [hcn]; exact List.mem_cons_self _ _)
      obtain ⟨i1, i2, i3⟩ := ih _ (hk1 hv) (by rw [hkeys]; exact hnd)
        (fun n hn => hvalid n (by rw [hcn]; exact List.mem_cons_of_mem _ hn))
      rw [hrun]
      refine ⟨i1, i2, fun k => ?_⟩
      rw [i3 k, hkeys]
      simp only [createdIds, hcn, List.map_cons, List.mem_cons]
      constructor
      · rintro (h1 | h1)
        · exact Or.inl h1
        · exact Or.inr (Or.inr h1)
      · rintro (h1 | h1 | h1)
        · exact Or.inl h1
        · rw [h1]
          exact Or.inl hmem
        · exact Or.inr h1
    · have hcn := createdNames_cons_create h l tx rest name hf hp hok
      have hv : ValidString name = true := hvalid name (by rw [hcn]; exact List.mem_cons_self _ _)
      have hnd1 : (keysOf (Invoke h (reliableStub tx.creator l) tx.fcn
          tx.params).2.ledger.assets).Nodup := by
        rw [hkeys]
        exact List.Nodup.append hnd (List.nodup_singleton _) (by simpa using hmem)
      obtain ⟨i1, i2, i3⟩ := ih _ (hk1 hv) hnd1
        (fun n hn => hvalid n (by rw [hcn]; exact List.mem_cons_of_mem _ hn))
      rw [hrun]
      refine ⟨i1, i2, fun k => ?_⟩
      rw [i3 k, hkeys]
      simp only [createdIds, hcn, List.map_cons, List.mem_append, List.mem_singleton,
        List.mem_cons]
      tauto

/-- C16, as amended. Start from any ledger without assets and run any
transactions, by any submitters, on the reliable platform, in which every
`create` that returns success is given a name that is valid UTF-8; let
`createdIds` be the asset ids of these `create` transactions, one per transaction.
On a stub over the resulting ledger whose reads and scan succeed, `list` by an
enrolled caller returns the caller's record and the asset records as stored; each
is stored under the id of its own name, the keys are pairwise distinct and are
exactly the created ids: one entry for each distinct created id, so as many
entries as successful `create` transactions when their ids are pairwise
distinct. -/
theorem list_after_creates (h : List UInt8 → List UInt8) (l0 : Ledger) (txs : List Tx)
    (stub : Stub) (id : GoString) (t : Trader)
    (hstart : l0.assets = []) (hl : stub.ledger = runTxs h l0 txs)
    (hvalid : ∀ n ∈ createdNames h l0 txs, ValidString n = true)
    (hreads : stub.readsOk) (hscan : stub.faults.scanFails = false)
    (hnext : ∀ k, stub.faults.nextFails k = false)
    (hid : getID h stub = .ok id) (ht : getRec id stub.ledger.traders = some t) :
    list h stub = .ok { trader := t, assets := stub.ledger.assets } ∧
    (∀ p ∈ stub.ledger.assets, Asset.ID h p.2 = p.1) ∧
    (keysOf stub.ledger.assets).Nodup ∧
    (∀ k, k ∈ keysOf stub.ledger.assets ↔ k ∈ createdIds h l0 txs) ∧
    stub.ledger.assets.length = (createdIds h l0 txs).dedup.length ∧
    ((createdIds h l0 txs).Nodup →
      stub.ledger.assets.length = (createdIds h l0 txs).length) := by
  have hk0 : AssetsKeyed h l0 := by
    intro p hp
    simp [hstart] at hp
  obtain ⟨i1, i2, i3⟩ := runTxs_asset_keys h txs l0 hk0 (by simp [hstart, keysOf]) hvalid
  rw [← hl] at i1 i2 i3
  have hmem : ∀ k, k ∈ keysOf stub.ledger.assets ↔ k ∈ createdIds h l0 txs := by
    intro k
    rw [i3 k]
    simp [hstart, keysOf]
  have hperm : (keysOf stub.ledger.assets).Perm (createdIds h l0 txs).dedup := by
    rw [List.perm_ext_iff_of_nodup i2 (List.nodup_dedup _)]
    intro k
    rw [hmem k, List.mem_dedup]
  have hlen : stub.ledger.assets.length = (createdIds h l0 txs).dedup.length := by
    rw [← hperm.length_eq, length_keysOf]
  refine ⟨list_returns_ledger h stub id t hreads hscan hnext hid ht i2,
    fun p hp => (i1.asset (k := p.1) (a := p.2) ?_).2, i2, hmem, hlen, ?_⟩
  · have hnd : (keysOf stub.ledger.assets).Nodup := i2
    clear hperm hlen hmem i3
    revert hp hnd
    generalize stub.ledger.assets = m
    intro hp hnd
    induction m with
    | nil => cases hp
    | cons q rest ih =>
      obtain ⟨k1, v1⟩ := q
      simp only [keysOf, List.map_cons, List.nodup_cons] at hnd
      rcases List.mem_cons.mp hp with hq | hq
      · rw [hq]
        simp [getRec]
      · have hne : k1 ≠ p.1 := by
          intro hc
          apply hnd.1
          rw [hc]
          exact List.mem_map_of_mem Prod.fst hq
        simp only [getRec, hne, if_false]
        exact ih hq hnd.2
  · intro hnd
    rw [hlen, hnd.dedup]

/-- C16, a concrete instance: the first submitter enrolls, creates `Bike` and
`Chair`, then lists; the snapshot has the two assets. -/
theorem list_after_creates_witness :
    list demoSum (reliableStub aliceCred (runTxs demoSum Ledger.empty
      [{ creator := aliceCred, fcn := bytesOf "enroll", params := [bytesOf "alice"] },
       { creator := aliceCred, fcn := bytesOf "create", params := [bytesOf "Bike"] },
       { creator := aliceCred, fcn := bytesOf "create", params := [bytesOf "Chair"] }]))
      = .ok { trader := { name := bytesOf "alice", id := bytesOf "41", balance := 10000 },
              assets :=
                [(bytesOf "42696b65",
                  { name := bytesOf "Bike", price := 0, owner := bytesOf "41",
                    forSale := false }),
                 (bytesOf "4368616972",
                  { name := bytesOf "Chair", price := 0, owner := bytesOf "41",
                    forSale := false })] } :=
  have key := list_after_creates demoSum Ledger.empty
      [{ creator := aliceCred, fcn := bytesOf "enroll", params := [bytesOf "alice"] },
       { creator := aliceCred, fcn := bytesOf "create", params := [bytesOf "Bike"] },
       { creator := aliceCred, fcn := bytesOf "create", params := [bytesOf "Chair"] }]
      (reliableStub aliceCred (runTxs demoSum Ledger.empty
        [{ creator := aliceCred, fcn := bytesOf "enroll", params := [bytesOf "alice"] },
         { creator := aliceCred, fcn := bytesOf "create", params := [bytesOf "Bike"] },
         { creator := aliceCred, fcn := bytesOf "create", params := [bytesOf "Chair"] }]))
      (bytesOf "41") { name := bytesOf "alice", id := bytesOf "41", balance := 10000 }
      rfl rfl (by decide) (fun _ => rfl) rfl (fun _ => rfl) (by decide) (by decide)
  by rw [key.1]; decide

/-- C16 as stated fails at two runs from the empty ledger. (1) The first
submitter enrolls and creates `Bike` twice: both `create` transactions return
success, and `list` returns a snapshot with one asset entry. (2) The first
submitter enrolls, creates an asset under the name `brokenName`, which is not
valid UTF-8, and puts it on sale at `5`: one `create` transaction returns
success, and `list` returns a snapshot with two asset entries, the second under a
key that is the identifier of no created name. -/
theorem list_after_creates_counterexample :
    ((createdIds demoSum Ledger.empty
      [{ creator := aliceCred, fcn := bytesOf "enroll", params := [bytesOf "alice"] },
       { creator := aliceCred, fcn := bytesOf "create", params := [bytesOf "Bike"] },
       { creator := aliceCred, fcn := bytesOf "create", params := [bytesOf "Bike"] }]).length
        = 2 ∧
      list demoSum (reliableStub aliceCred (runTxs demoSum Ledger.empty
        [{ creator := aliceCred, fcn := bytesOf "enroll", params := [bytesOf "alice"] },
         { creator := aliceCred, fcn := bytesOf "create", params := [bytesOf "Bike"] },
         { creator := aliceCred, fcn := bytesOf "create", params := [bytesOf "Bike"] }]))
        = .ok { trader := { name := bytesOf "alice", id := bytesOf "41", balance := 10000 },
                assets :=
                  [(bytesOf "42696b65",
                    { name := bytesOf "Bike", price := 0, owner := bytesOf "41",
                      forSale := false })] }) ∧
    (createdIds demoSum Ledger.empty
        (brokenRun ++ [{ creator := aliceCred, fcn := bytesOf "sell",
                         params := [assetId demoSum brokenName, bytesOf "5"] }])
        = [assetId demoSum brokenName] ∧
      list demoSum (reliableStub aliceCred (runTxs demoSum Ledger.empty
        (brokenRun ++ [{ creator := aliceCred, fcn := bytesOf "sell",
                         params := [assetId demoSum brokenName, bytesOf "5"] }])))
        = .ok { trader := { name := bytesOf "alice", id := bytesOf "41", balance := 10000 },
                assets :=
                  [(assetId demoSum brokenName,
                    { name := replacedName, price := 0, owner := bytesOf "41",
                      forSale := false }),
                   (assetId demoSum replacedName,
                    { name := replacedName, price := 5, owner := bytesOf "41",
                      forSale := true })] } ∧
      assetId demoSum replacedName ≠ assetId demoSum brokenName) := by
  decide

/-! ## Records and their keys in the ledgers that transactions produce -/

/-- C20, as amended. In the ledger that any run of transactions produces from
the empty ledger, each trader record is stored under the key equal to its `ID`
field, and on every stub over that ledger, whatever its failures and the
parameters, `sell` and `buy` leave the trader keys as they were. When every
`create` of the run that returned success was given a name that is valid UTF-8,
each asset record is stored under the key `ID()` computes from its name, and on
every stub over that ledger `sell` and `buy` leave the asset keys as they were:
what they write replaces the record they read, and no second record appears. -/
theorem reachable_records_keyed (h : List UInt8 → List UInt8) (txs : List Tx) :
    Reachable h (runTxs h Ledger.empty txs) ∧
    (∀ p ∈ (runTxs h Ledger.empty txs).traders, p.2.id = p.1) ∧
    (∀ (stub : Stub) (params : List GoString), stub.ledger = runTxs h Ledger.empty txs →
      keysOf (sell h stub params).2.ledger.traders = keysOf stub.ledger.traders ∧
      keysOf (buy h stub params).2.ledger.traders = keysOf stub.ledger.traders) ∧
    ((∀ n ∈ createdNames h Ledger.empty txs, ValidString n = true) →
      (∀ p ∈ (runTxs h Ledger.empty txs).assets, Asset.ID h p.2 = p.1) ∧
      (∀ (stub : Stub) (params : List GoString), stub.ledger = runTxs h Ledger.empty txs →
        keysOf (sell h stub params).2.ledger.assets = keysOf stub.ledger.assets ∧
        keysOf (buy h stub params).2.ledger.assets = keysOf stub.ledger.assets)) := by
  have hr := runTxs_reachable h txs Ledger.empty Reachable.empty
  have hk := hr.tradersKeyed
  refine ⟨hr, ?_, ?_, ?_⟩
  · intro p hp
    obtain ⟨_, h2⟩ := hk p hp
    exact (CreateCompositeKey_eq_ok h2).1.symm
  · intro stub params hl
    exact sell_buy_trader_keys h stub params (by rw [hl]; exact hk)
  · intro hvalid
    have hk0 : AssetsKeyed h Ledger.empty := by
      intro p hp
      simp [Ledger.empty] at hp
    obtain ⟨i1, _, _⟩ := runTxs_asset_keys h txs Ledger.empty hk0
      (by simp [Ledger.empty, keysOf]) hvalid
    refine ⟨?_, ?_⟩
    · intro p hp
      obtain ⟨_, h2⟩ := i1 p hp
      exact (CreateCompositeKey_eq_ok h2).1.symm
    · intro stub params hl
      exact sell_buy_asset_keys h stub params (by rw [hl]; exact i1)

/-- C20, a concrete instance: on the ledger of the examples, which four
transactions with valid names produce, the second submitter buys `Bike`; the
asset keys are the ones before the purchase. -/
theorem reachable_records_keyed_witness :
    (∀ n ∈ createdNames demoSum Ledger.empty marketRun, ValidString n = true) ∧
    keysOf (buy demoSum (reliableStub bobCred (runTxs demoSum Ledger.empty marketRun))
      [bytesOf "42696b65"]).2.ledger.assets = [bytesOf "42696b65"] :=
  have key := ((reachable_records_keyed demoSum marketRun).2.2.2 (by decide)).2
    (reliableStub bobCred (runTxs demoSum Ledger.empty marketRun)) [bytesOf "42696b65"] rfl
  ⟨by decide, key.2.trans (by decide)⟩

/-- C20 as stated fails: the first submitter enrolls and creates an asset under
the name `brokenName`, which is not valid UTF-8. In the ledger these two
transactions produce, the record stored under the identifier of `brokenName` has
the name `replacedName`, whose identifier is another one; and `sell` by the
owner, with the identifier the record is stored under, succeeds and leaves two
records where there was one. -/
theorem reachable_records_keyed_counterexample :
    Reachable demoSum (runTxs demoSum Ledger.empty brokenRun) ∧
    (runTxs demoSum Ledger.empty brokenRun).assets
      = [(assetId demoSum brokenName,
          { name := replacedName, price := 0, owner := bytesOf "41", forSale := false })] ∧
    Asset.ID demoSum
        { name := replacedName, price := 0, owner := bytesOf "41", forSale := false }
      ≠ assetId demoSum brokenName ∧
    (sell demoSum (reliableStub aliceCred (runTxs demoSum Ledger.empty brokenRun))
      [assetId demoSum brokenName, bytesOf "5"]).1 = .ok () ∧
    keysOf (sell demoSum (reliableStub aliceCred (runTxs demoSum Ledger.empty brokenRun))
      [assetId demoSum brokenName, bytesOf "5"]).2.ledger.assets
      = [assetId demoSum brokenName, assetId demoSum replacedName] := by
  refine ⟨runTxs_reachable demoSum brokenRun Ledger.empty Reachable.empty, ?_⟩
  decide

end Securitization
